import Mathlib

/-!
Verification development for the feedback core of `afl-treeline.c`
(uo-se-research/treeline): new-coverage detection, the max-counter engine, the
hit-count classifier, the executor `run_target` and the request loop of the agent server.

The C code is embedded shallowly. Byte maps and counter arrays are lists of naturals
(`List Nat`), read with `List.getD _ _ 0` and written with `List.set`; machine words are
naturals with explicit reduction where the width matters; `int` values are integers
converted with `toS32` / `toU32`. Loops are recursive functions on the number of remaining
iterations. Global variables are the fields of `State`; the behaviour of the child process,
of the fork server pipes and of signals during a run is an input (`Exec`).
-/

namespace Treeline

/-! ## Definitions -/

/-- Value of a little-endian byte string: what a load of `n` bytes into an unsigned integer
yields on x86-64. -/
def leVal : List Nat → Nat
  | [] => 0
  | b :: bs => b + 256 * leVal bs

/-- The `n` low bytes of `w`, least significant first: what a store of an `n`-byte unsigned
integer writes on x86-64. -/
def leBytes : Nat → Nat → List Nat
  | 0, _ => []
  | n + 1, w => w % 256 :: leBytes n (w / 256)

/-- Byte `j` of the 64-bit word number `w` of a byte map (`((u8*)(ptr + w))[j]`). -/
def byteAt (m : List Nat) (w j : Nat) : Nat := m.getD (8 * w + j) 0

/-- The eight bytes of the 64-bit word number `w` of a byte map, in memory order. -/
def wordBytes (m : List Nat) (w : Nat) : List Nat :=
  [byteAt m w 0, byteAt m w 1, byteAt m w 2, byteAt m w 3,
   byteAt m w 4, byteAt m w 5, byteAt m w 6, byteAt m w 7]

/-- The `u64` read by `*current` / `*virgin` at word `w` (`has_new_bits` is compiled in its
`__x86_64__` flavour, so the load is little-endian). -/
def loadWord (m : List Nat) (w : Nat) : Nat := leVal (wordBytes m w)

/-- Write the bytes `bs` into the map from offset `p` on. -/
def storeBytes : List Nat → Nat → List Nat → List Nat
  | m, _, [] => m
  | m, p, b :: bs => storeBytes (m.set p b) (p + 1) bs

/-- The `u64` store `*virgin = x` at word `w`. -/
def storeWord (m : List Nat) (w x : Nat) : List Nat := storeBytes m (8 * w) (leBytes 8 x)

/-- The operator `~` on a `u64`. -/
def not64 (x : Nat) : Nat := 2 ^ 64 - 1 - x

/-- The eight-way test of `has_new_bits` (afl-treeline.c:1024-1027):
`(cur[0] && vir[0] == 0xff) || ... || (cur[7] && vir[7] == 0xff)`. -/
def pristineHit (cur vir : List Nat) (w : Nat) : Bool :=
  (byteAt cur w 0 != 0 && byteAt vir w 0 == 0xff) || (byteAt cur w 1 != 0 && byteAt vir w 1 == 0xff) ||
  (byteAt cur w 2 != 0 && byteAt vir w 2 == 0xff) || (byteAt cur w 3 != 0 && byteAt vir w 3 == 0xff) ||
  (byteAt cur w 4 != 0 && byteAt vir w 4 == 0xff) || (byteAt cur w 5 != 0 && byteAt vir w 5 == 0xff) ||
  (byteAt cur w 6 != 0 && byteAt vir w 6 == 0xff) || (byteAt cur w 7 != 0 && byteAt vir w 7 == 0xff)

/-- The loop `while (i--)` of `has_new_bits` (afl-treeline.c:1011-1052): `i` words remain, `w`
is the index of the word `current` and `virgin` point to, `ret` is the running result. The
virgin map is threaded through; the trace map is only read. -/
def has_new_bits_loop (trace_bits : List Nat) : Nat → Nat → List Nat → Nat → Nat × List Nat
  | 0, _, virgin, ret => (ret, virgin)
  | i + 1, w, virgin, ret =>
    let current := loadWord trace_bits w
    let vword := loadWord virgin w
    if current ≠ 0 ∧ current &&& vword ≠ 0 then
      let ret1 := if ret < 2 then (if pristineHit trace_bits virgin w then 2 else 1) else ret
      has_new_bits_loop trace_bits i (w + 1) (storeWord virgin w (vword &&& not64 current)) ret1
    else
      has_new_bits_loop trace_bits i (w + 1) virgin ret

/-- The function `has_new_bits(virgin_map)` for `MAP_SIZE` bytes: the returned `u8` and the virgin map it
leaves (afl-treeline.c:991-1058, without the update of `bitmap_changed`, which
`collect_feedback` performs for the call on `virgin_bits`). -/
def has_new_bits (MAP_SIZE : Nat) (trace_bits virgin_map : List Nat) : Nat × List Nat :=
  has_new_bits_loop trace_bits (MAP_SIZE >>> 3) 0 virgin_map 0

/-- Every cell of the map holds a byte. -/
def IsBytes (m : List Nat) : Prop := ∀ b ∈ m, b < 256

/-- Bytes of the word `*virgin & ~*current`. -/
def clearedBytes (cur vir : List Nat) (w : Nat) : List Nat :=
  List.zipWith (· &&& ·) (wordBytes vir w) ((wordBytes cur w).map (fun c => 255 - c))

/-- Some byte of the words `w .. w+i-1` is hit in the trace and still pristine in `vir`. -/
def NewIn (cur vir : List Nat) (w i : Nat) : Prop :=
  ∃ p, 8 * w ≤ p ∧ p < 8 * (w + i) ∧ cur.getD p 0 ≠ 0 ∧ vir.getD p 0 = 255

/-- Some byte of the words `w .. w+i-1` of the trace shares a bit with its virgin byte. -/
def HitIn (cur vir : List Nat) (w i : Nat) : Prop :=
  ∃ p, 8 * w ≤ p ∧ p < 8 * (w + i) ∧ cur.getD p 0 ≠ 0 ∧ cur.getD p 0 &&& vir.getD p 0 ≠ 0

/-- The byte-level reading of the result of `has_new_bits`, as the specification words it:
2 when some hit byte is pristine (0xFF) in the virgin map, else 1 when some hit byte shares a
bit with its virgin byte, else 0. -/
def has_new_bits_bytewise (MAP_SIZE : Nat) (C virgin : List Nat) : Nat :=
  if (List.range MAP_SIZE).any (fun i => C.getD i 0 != 0 && virgin.getD i 0 == 0xff) then 2
  else if (List.range MAP_SIZE).any
      (fun i => C.getD i 0 != 0 && (C.getD i 0 &&& virgin.getD i 0) != 0) then 1
  else 0

/-- The loop of `has_new_max` (afl-treeline.c:1067-1075): `n` iterations remain, `i` is the
loop index, `ret` the running result; `max_counts` is threaded through. -/
def has_new_max_loop (perf_bits : List Nat) : Nat → Nat → List Nat → Nat → Nat × List Nat
  | 0, _, max_counts, ret => (ret, max_counts)
  | n + 1, i, max_counts, ret =>
    if perf_bits.getD i 0 ≠ 0 then
      if perf_bits.getD i 0 > max_counts.getD i 0 then
        has_new_max_loop perf_bits n (i + 1) (max_counts.set i (perf_bits.getD i 0)) 1
      else has_new_max_loop perf_bits n (i + 1) max_counts ret
    else has_new_max_loop perf_bits n (i + 1) max_counts ret

/-- The function `has_new_max()`: `i` runs from 1 while `i < PERF_SIZE`; the `int` result is returned as
`u8` (afl-treeline.c:1064-1077). -/
def has_new_max (PERF_SIZE : Nat) (perf_bits max_counts : List Nat) : Nat × List Nat :=
  let r := has_new_max_loop perf_bits (PERF_SIZE - 1) 1 max_counts 0
  (r.1 % 256, r.2)

/-- Conversion of a 32-bit pattern to `int` (two's complement). -/
def toS32 (n : Nat) : Int :=
  if n % 2 ^ 32 < 2 ^ 31 then ((n % 2 ^ 32 : Nat) : Int) else ((n % 2 ^ 32 : Nat) : Int) - 2 ^ 32

/-- Conversion of an `int` to `u32` / `uint32_t`. -/
def toU32 (x : Int) : Nat := (x % 2 ^ 32).toNat

/-- The loop of `hotspot_count` (afl-treeline.c:1084-1088). `max_count` is an `int`; the test
`perf_bits[i] > max_count` compares as `u32`, and the assignment converts the `u32` back to
`int`. -/
def hotspot_count_loop (perf_bits : List Nat) : Nat → Nat → Int → Int
  | 0, _, max_count => max_count
  | n + 1, i, max_count =>
    if perf_bits.getD i 0 > toU32 max_count then
      hotspot_count_loop perf_bits n (i + 1) (toS32 (perf_bits.getD i 0))
    else hotspot_count_loop perf_bits n (i + 1) max_count

/-- The function `hotspot_count()`, returning `int` (afl-treeline.c:1080-1090). -/
def hotspot_count (PERF_SIZE : Nat) (perf_bits : List Nat) : Int :=
  hotspot_count_loop perf_bits (PERF_SIZE - 1) 1 0

/-- The table `count_class_lookup8[256]` with its designated range initialisers
(afl-treeline.c:1158-1170). -/
def count_class_lookup8 : List Nat :=
  [0, 1, 2, 4] ++ List.replicate 4 8 ++ List.replicate 8 16 ++ List.replicate 16 32 ++
    List.replicate 96 64 ++ List.replicate 128 128

/-- The bucket function as the specification words it: 0→0, 1→1, 2→2, 3→4, 4–7→8, 8–15→16,
16–31→32, 32–127→64, 128–255→128. -/
def bucket (n : Nat) : Nat :=
  if n = 0 then 0 else if n = 1 then 1 else if n = 2 then 2 else if n = 3 then 4
  else if n ≤ 7 then 8 else if n ≤ 15 then 16 else if n ≤ 31 then 32
  else if n ≤ 127 then 64 else 128

/-- The inner loop `for (b2 = 0; b2 < 256; b2++)` of `init_count_class16`, `n` iterations
remaining (afl-treeline.c:1180-1183). -/
def init_count_class16_inner (b1 : Nat) : Nat → Nat → List Nat → List Nat
  | 0, _, table => table
  | n + 1, b2, table =>
    init_count_class16_inner b1 n (b2 + 1)
      (table.set ((b1 <<< 8) + b2)
        ((count_class_lookup8.getD b1 0 <<< 8) ||| count_class_lookup8.getD b2 0))

/-- The outer loop `for (b1 = 0; b1 < 256; b1++)` of `init_count_class16`. -/
def init_count_class16_outer : Nat → Nat → List Nat → List Nat
  | 0, _, table => table
  | n + 1, b1, table =>
    init_count_class16_outer n (b1 + 1) (init_count_class16_inner b1 256 0 table)

/-- The function `init_count_class16()`, from the contents the table `count_class_lookup16` had before
(afl-treeline.c:1175-1185). -/
def init_count_class16 (count_class_lookup16 : List Nat) : List Nat :=
  init_count_class16_outer 256 0 count_class_lookup16

/-- Entry `(b1 << 8) + b2` of the 16-bit table once it is filled. -/
def class16 (b1 b2 : Nat) : Nat :=
  (count_class_lookup8.getD b1 0 <<< 8) ||| count_class_lookup8.getD b2 0

/-- The read `mem16[h]` of a `u16`; `be` selects the byte order of the machine. -/
def load16 (be : Bool) (mem : List Nat) (h : Nat) : Nat :=
  if be then 256 * mem.getD (2 * h) 0 + mem.getD (2 * h + 1) 0
  else mem.getD (2 * h) 0 + 256 * mem.getD (2 * h + 1) 0

/-- The write `mem16[h] = x` of a `u16`; `be` selects the byte order of the machine. -/
def store16 (be : Bool) (mem : List Nat) (h x : Nat) : List Nat :=
  if be then (mem.set (2 * h) (x / 256 % 256)).set (2 * h + 1) (x % 256)
  else (mem.set (2 * h) (x % 256)).set (2 * h + 1) (x / 256 % 256)

/-- The read `*mem` of a `u64` in `classify_counts`; `be` selects the byte order. -/
def load64 (be : Bool) (mem : List Nat) (w : Nat) : Nat :=
  if be then leVal (wordBytes mem w).reverse else leVal (wordBytes mem w)

/-- The loop `while (i--)` of the 64-bit `classify_counts` (afl-treeline.c:1194-1211): `i` words
remain, `w` is the index of the word `mem` points to. -/
def classify_counts_loop (be : Bool) (count_class_lookup16 : List Nat) :
    Nat → Nat → List Nat → List Nat
  | 0, _, mem => mem
  | i + 1, w, mem =>
    if load64 be mem w ≠ 0 then
      let m0 := store16 be mem (4 * w) (count_class_lookup16.getD (load16 be mem (4 * w)) 0)
      let m1 := store16 be m0 (4 * w + 1)
        (count_class_lookup16.getD (load16 be m0 (4 * w + 1)) 0)
      let m2 := store16 be m1 (4 * w + 2)
        (count_class_lookup16.getD (load16 be m1 (4 * w + 2)) 0)
      let m3 := store16 be m2 (4 * w + 3)
        (count_class_lookup16.getD (load16 be m2 (4 * w + 3)) 0)
      classify_counts_loop be count_class_lookup16 i (w + 1) m3
    else classify_counts_loop be count_class_lookup16 i (w + 1) mem

/-- The function `classify_counts(mem)` on a map of `MAP_SIZE` bytes (afl-treeline.c:1190-1213). -/
def classify_counts (be : Bool) (count_class_lookup16 : List Nat) (MAP_SIZE : Nat)
    (mem : List Nat) : List Nat :=
  classify_counts_loop be count_class_lookup16 (MAP_SIZE >>> 3) 0 mem

/-- The byte-by-byte bucket function applied to a whole map. -/
def classify_bytewise (mem : List Nat) : List Nat :=
  mem.map (fun b => count_class_lookup8.getD b 0)

/-- The table `count_class_lookup16` holds, for each pair of bytes, the pair of buckets. -/
def TableFilled (t : List Nat) : Prop :=
  ∀ b1 b2, b1 < 256 → b2 < 256 →
    t.getD (256 * b1 + b2) 0 =
      256 * count_class_lookup8.getD b1 0 + count_class_lookup8.getD b2 0

/-- Constants of `config.h` and the start-up configuration of the process. -/
structure Config where
  MAP_SIZE : Nat
  PERF_SIZE : Nat
  TMOUT_LIMIT : Nat
  EXEC_FAIL_SIG : Nat
  MSAN_ERROR : Nat
  max_ct_fuzzing : Bool
  zero_other_counts : Bool
  dumb_mode : Nat
  no_forkserver : Bool
  uses_asan : Bool
  post_handler : Option (List Nat → Option (List Nat))

/-- Lines written by `WARNF` in the code paths of the agent loop. -/
inductive LogMsg where
  | fault_tmout
  | fault_crash
  | too_many_timeouts_or_skipped
  | not_equal_rerun
  deriving DecidableEq

/-- The global variables the agent loop reads and writes. -/
structure State where
  trace_bits : List Nat
  perf_bits : List Nat
  virgin_bits : List Nat
  max_counts : List Nat
  count_class_lookup16 : List Nat
  bitmap_changed : Nat
  stop_soon : Nat
  skip_requested : Nat
  subseq_tmouts : Nat
  cur_skipped_paths : Nat
  total_execs : Nat
  child_timed_out : Nat
  prev_timed_out : Nat
  kill_signal : Nat
  child_pid : Int
  testcase : List Nat
  buff : List Nat
  log : List LogMsg
  deriving DecidableEq

/-- The ways the process ends through `FATAL`, `PFATAL`, `RPFATAL` or `exit(1)`. -/
inductive Abort where
  | fork_failed
  | forkserver_request
  | forkserver_misbehaving
  | waitpid_failed
  | forkserver_comm
  | fault_error
  | not_equal (attempts : Nat)
  | send_failed
  deriving DecidableEq

/-- Outcome of a call: a returned value or the end of the process, with the globals. -/
inductive Res (α : Type) where
  | ok (val : α) (st : State)
  | abort (e : Abort) (st : State)
  deriving DecidableEq

/-- The globals an outcome leaves. -/
def Res.state {α : Type} : Res α → State
  | .ok _ st => st
  | .abort _ st => st

/-- What the world outside the parent does during one call of `run_target`. -/
structure Exec where
  ctl_write_ok : Bool
  pid_read_ok : Bool
  child_pid : Int
  wait_ok : Bool
  status : Nat
  timed_out : Bool
  stop_signal : Bool
  skip_signal : Bool
  child : List Nat → List Nat → List Nat × List Nat

/-- Fault code 00 of the enumeration at afl-treeline.c:333-340. -/
def FAULT_NONE : Nat := 0
def FAULT_TMOUT : Nat := 1
def FAULT_CRASH : Nat := 2
def FAULT_ERROR : Nat := 3
def SIGKILL : Nat := 9
def BUFFSIZE : Nat := 1024

/-- The macro `WTERMSIG` of the C library. -/
def WTERMSIG (status : Nat) : Nat := status &&& 0x7f

/-- The macro `WIFSIGNALED` of the C library:
`((signed char) ((status & 0x7f) + 1) >> 1) > 0`. -/
def WIFSIGNALED (status : Nat) : Bool :=
  decide (1 ≤ status &&& 0x7f) && decide (status &&& 0x7f ≤ 126)

/-- The macro `WIFSTOPPED` of the C library. -/
def WIFSTOPPED (status : Nat) : Bool := (status &&& 0xff) == 0x7f

/-- The macro `WEXITSTATUS` of the C library. -/
def WEXITSTATUS (status : Nat) : Nat := (status &&& 0xff00) >>> 8

/-- The `u32` stored little-endian at offset `off` of a byte buffer. -/
def le32 (mem : List Nat) (off : Nat) : Nat :=
  leVal [mem.getD off 0, mem.getD (off + 1) 0, mem.getD (off + 2) 0, mem.getD (off + 3) 0]

/-- The part of `run_target` that follows the arrival of the wait status: bookkeeping,
`classify_counts`, the optional zeroing of the counters, and the fault code reported to the
caller (afl-treeline.c:2532-2584). -/
def run_target_report (cfg : Config) (ev : Exec) (s : State) : Res Nat :=
  let s1 := if WIFSTOPPED ev.status then s else { s with child_pid := 0 }
  let s2 := { s1 with total_execs := s1.total_execs + 1 }
  let tb4 := le32 s2.trace_bits 0
  let s3 := { s2 with
    trace_bits := classify_counts false s2.count_class_lookup16 cfg.MAP_SIZE s2.trace_bits }
  let s4 := if cfg.max_ct_fuzzing && cfg.zero_other_counts then
      { s3 with perf_bits := s3.perf_bits.take 1 ++ List.replicate (cfg.PERF_SIZE - 1) 0 }
    else s3
  let s5 := { s4 with prev_timed_out := s4.child_timed_out }
  if WIFSIGNALED ev.status && s5.stop_soon == 0 then
    let s6 := { s5 with kill_signal := WTERMSIG ev.status }
    if s6.child_timed_out != 0 && s6.kill_signal == SIGKILL then .ok FAULT_TMOUT s6
    else .ok FAULT_CRASH s6
  else if cfg.uses_asan && WEXITSTATUS ev.status == cfg.MSAN_ERROR then
    .ok FAULT_CRASH { s5 with kill_signal := 0 }
  else if (cfg.dumb_mode == 1 || cfg.no_forkserver) && tb4 == cfg.EXEC_FAIL_SIG then
    .ok FAULT_ERROR s5
  else .ok FAULT_NONE s5

/-- The child runs on the shared region; signals that arrive while the parent waits are
taken by their handlers (`handle_stop_sig`, `handle_skipreq`, `handle_timeout`). -/
def child_runs (ev : Exec) (s : State) : State :=
  { s with
    trace_bits := (ev.child s.trace_bits s.perf_bits).1
    perf_bits := (ev.child s.trace_bits s.perf_bits).2
    stop_soon := if ev.stop_signal then 1 else s.stop_soon
    skip_requested := if ev.skip_signal then 1 else s.skip_requested
    child_timed_out := if ev.timed_out then 1 else s.child_timed_out }

/-- The function `run_target(argv, timeout)` (afl-treeline.c:2380-2584): reset of the two telemetry
regions, then either the fork/waitpid cycle of dumb mode or the exchange with the fork
server, then `run_target_report`. -/
def run_target (cfg : Config) (ev : Exec) (s : State) : Res Nat :=
  let s1 := { s with child_timed_out := 0 }
  let s2 := { s1 with trace_bits := List.replicate cfg.MAP_SIZE 0 }
  let s3 := if cfg.max_ct_fuzzing then
      { s2 with perf_bits := List.replicate cfg.PERF_SIZE 0 } else s2
  if cfg.dumb_mode == 1 || cfg.no_forkserver then
    let s4 := { s3 with child_pid := ev.child_pid }
    if ev.child_pid < 0 then .abort .fork_failed s4
    else
      let s5 := child_runs ev s4
      if !ev.wait_ok then .abort .waitpid_failed s5
      else run_target_report cfg ev s5
  else
    if !ev.ctl_write_ok then
      if s3.stop_soon != 0 then .ok 0 s3 else .abort .forkserver_request s3
    else if !ev.pid_read_ok then
      if s3.stop_soon != 0 then .ok 0 s3 else .abort .forkserver_request s3
    else
      let s4 := { s3 with child_pid := ev.child_pid }
      if ev.child_pid ≤ 0 then .abort .forkserver_misbehaving s4
      else
        let s5 := child_runs ev s4
        if !ev.wait_ok then
          if s5.stop_soon != 0 then .ok 0 s5 else .abort .forkserver_comm s5
        else run_target_report cfg ev s5

/-- The function `write_to_testcase(mem, len)`: the test case file now holds `mem` (failures of the file
system are not modelled). -/
def write_to_testcase (mem : List Nat) (s : State) : State := { s with testcase := mem }

/-- The part of `common_fuzz_stuff` that follows `run_target` (afl-treeline.c:3775-3819). -/
def common_fuzz_stuff_after_run (cfg : Config) (fault : Nat) (s : State) : Res Nat :=
  if s.stop_soon != 0 then .ok 1 s
  else
    let bail := fault == FAULT_TMOUT && decide (s.subseq_tmouts > cfg.TMOUT_LIMIT)
    let s1 := if fault == FAULT_TMOUT then
        { s with subseq_tmouts := (s.subseq_tmouts + 1) % 2 ^ 32 }
      else { s with subseq_tmouts := 0 }
    if bail then .ok 1 { s1 with cur_skipped_paths := s1.cur_skipped_paths + 1 }
    else if s1.skip_requested != 0 then
      .ok 1 { s1 with skip_requested := 0, cur_skipped_paths := s1.cur_skipped_paths + 1 }
    else if fault == FAULT_TMOUT then .ok 0 { s1 with log := s1.log ++ [.fault_tmout] }
    else if fault == FAULT_CRASH then .ok 0 { s1 with log := s1.log ++ [.fault_crash] }
    else if fault == FAULT_ERROR then .abort .fault_error s1
    else .ok 0 s1

/-- The function `common_fuzz_stuff(argv, out_buf, len)` (afl-treeline.c:3762-3821). -/
def common_fuzz_stuff (cfg : Config) (ev : Exec) (out_buf : List Nat) (s : State) : Res Nat :=
  let processed : Option (List Nat) :=
    match cfg.post_handler with
    | none => some out_buf
    | some f =>
      match f out_buf with
      | none => none
      | some b => if b.length = 0 then none else some b
  match processed with
  | none => .ok 0 s
  | some buf =>
    match run_target cfg ev (write_to_testcase buf s) with
    | .abort e s1 => .abort e s1
    | .ok fault s1 => common_fuzz_stuff_after_run cfg fault s1

/-- The `strlen` of the C string that starts at offset `off` of a buffer. The value is that of
the C function whenever a NUL lies inside the buffer from `off` on. When none does, the C
function reads past the end of `buff` and its value is not determined by the buffer; the
scan of the model then stops at the end of the buffer, and the statements about the input
of a request are made for buffers that hold a NUL. -/
def c_strlen (mem : List Nat) (off : Nat) : Nat :=
  ((mem.drop off).takeWhile (fun b => b != 0)).length

/-- The loop `for (int i=1; i < PERF_SIZE; i++) sum += perf_bits[i]` of `main`, `sum` being
an `int` (afl-treeline.c:5210-5213). -/
def perf_sum_loop (perf_bits : List Nat) : Nat → Nat → Int → Int
  | 0, _, sum => sum
  | n + 1, i, sum => perf_sum_loop perf_bits n (i + 1) (toS32 (toU32 sum + perf_bits.getD i 0))

/-- The test `sum != current_cost` of the agent loop, on `int` values. -/
def not_equal (cfg : Config) (s : State) : Bool :=
  perf_sum_loop s.perf_bits (cfg.PERF_SIZE - 1) 1 0 != toS32 (s.perf_bits.getD 0 0)

/-- What the agent and the world outside supply for one pass of the request loop. -/
structure Request where
  frame : List Nat
  exec : Nat → Exec
  send_ok : Bool

/-- The loop `while (sum != current_cost)` of `main` (afl-treeline.c:5218-5228): `attempts`
counts the re-executions, the loop is left through `break` once `attempts > 10`. `fuel`
bounds the number of passes; `validate_cost` supplies 11, which the `break` never lets run
out. -/
def rerun_loop (cfg : Config) (exec : Nat → Exec) : Nat → Nat → State → Res Nat
  | 0, attempts, s => .ok attempts s
  | fuel + 1, attempts, s =>
    if not_equal cfg s then
      match run_target cfg (exec (attempts + 1)) s with
      | .abort e s1 => .abort e s1
      | .ok _ s1 =>
        if attempts + 1 > 10 then .ok (attempts + 1) s1
        else rerun_loop cfg exec fuel (attempts + 1) s1
    else .ok attempts s

/-- The validation of `perf_bits[0]` against the sum of the other counters in `main`
(afl-treeline.c:5207-5233). -/
def validate_cost (cfg : Config) (exec : Nat → Exec) (s : State) : Res Unit :=
  if not_equal cfg s then
    match rerun_loop cfg exec 11 0 { s with log := s.log ++ [.not_equal_rerun] } with
    | .abort e s1 => .abort e s1
    | .ok attempts s1 =>
      if not_equal cfg s1 then .abort (.not_equal (attempts + 1)) s1 else .ok () s1
  else .ok () s

/-- The test `strcmp(p->run_type, "wup") != 0` on the request buffer. -/
def run_type_not_wup (buff : List Nat) : Bool :=
  !(buff.getD 16 0 == 119 && buff.getD 17 0 == 117 && buff.getD 18 0 == 112 &&
    buff.getD 19 0 == 0)

/-- The values `hnb`, `hnm`, `hs` of one pass of the request loop. -/
structure Feedback where
  hnb : Nat
  hnm : Nat
  hs : Int
  deriving DecidableEq

/-- The block `if (strcmp(p->run_type, "wup") != 0) ...` of `main` with the initial values
`hnb = 0`, `hnm = 0`, `hs = 0` (afl-treeline.c:5236-5247), including the update of
`bitmap_changed` made by `has_new_bits(virgin_bits)`. -/
def collect_feedback (cfg : Config) (s : State) : Feedback × State :=
  if run_type_not_wup s.buff then
    let m := has_new_max cfg.PERF_SIZE s.perf_bits s.max_counts
    let s1 := { s with max_counts := m.2 }
    let hs := hotspot_count cfg.PERF_SIZE s1.perf_bits
    let b := has_new_bits cfg.MAP_SIZE s1.trace_bits s1.virgin_bits
    let s2 := { s1 with
      virgin_bits := b.2
      bitmap_changed := if b.1 != 0 then 1 else s1.bitmap_changed }
    ({ hnb := b.1, hnm := m.1, hs := hs }, s2)
  else ({ hnb := 0, hnm := 0, hs := 0 }, s)

/-- The assignments to `p->exec_cost`, `p->hnb`, `p->hnm`, `p->hs` on the request buffer. -/
def write_reply_fields (buff : List Nat) (current_cost : Int) (fb : Feedback) : List Nat :=
  let b1 := storeBytes buff 0 (leBytes 4 (toU32 current_cost))
  let b2 := storeBytes b1 12 (leBytes 4 fb.hnb)
  let b3 := b2.set 4 (fb.hnm % 256)
  storeBytes b3 8 (leBytes 4 (toU32 fb.hs))

/-- The globals after the feedback step of one pass of the request loop: the feedback is
collected and the four fields of the buffer are overwritten. -/
def reply_state (cfg : Config) (s : State) : State :=
  let current_cost := toS32 (s.perf_bits.getD 0 0)
  let fb := collect_feedback cfg s
  { fb.2 with buff := write_reply_fields fb.2.buff current_cost fb.1 }

/-- The tail of one pass of the request loop, once the cost is validated: collect the
feedback, overwrite the four fields and send `nread` bytes of the buffer back. -/
def reply_to_request (cfg : Config) (req : Request) (s : State) : Res (List Nat) :=
  let nread := req.frame.length
  let s1 := reply_state cfg s
  if req.send_ok then .ok (s1.buff.take nread) s1 else .abort .send_failed s1

/-- One pass of the loop `while ((nread = read(csock, buff, BUFFSIZE)) > 0)` of `main`
(afl-treeline.c:5156-5279) for the frame `req.frame`, whose length is `nread`. -/
def handle_request (cfg : Config) (req : Request) (s : State) : Res (List Nat) :=
  let s1 := { s with buff := storeBytes s.buff 0 req.frame }
  let len := c_strlen s1.buff 20
  let out_buf := (s1.buff.drop 20).take len
  match common_fuzz_stuff cfg (req.exec 0) out_buf s1 with
  | .abort e s2 => .abort e s2
  | .ok r s2 =>
    let s3 := if r != 0 then { s2 with log := s2.log ++ [.too_many_timeouts_or_skipped] }
      else s2
    match validate_cost cfg req.exec s3 with
    | .abort e s4 => .abort e s4
    | .ok _ s4 => reply_to_request cfg req s4

/-- What `main` does between `accept()` and the first `read()` of a connection
(afl-treeline.c:5138-5154). -/
def accept_connection (cfg : Config) (s : State) : State :=
  { s with
    buff := List.replicate BUFFSIZE 0
    max_counts := List.replicate cfg.PERF_SIZE 0
    virgin_bits := List.replicate cfg.MAP_SIZE 255 }

/-- A small configuration for examples: an 8-byte map and three counters. -/
def demoConfig : Config :=
  { MAP_SIZE := 8, PERF_SIZE := 3, TMOUT_LIMIT := 250, EXEC_FAIL_SIG := 0xfee1dead,
    MSAN_ERROR := 86, max_ct_fuzzing := true, zero_other_counts := false, dumb_mode := 0,
    no_forkserver := false, uses_asan := false, post_handler := none }

/-- A run that exits normally and leaves the counters `[5, 2, 3]` and an empty trace. -/
def demoExec : Exec :=
  { ctl_write_ok := true, pid_read_ok := true, child_pid := 77, wait_ok := true, status := 0,
    timed_out := false, stop_signal := false, skip_signal := false,
    child := fun _ _ => ([0, 0, 0, 0, 0, 0, 0, 0], [5, 2, 3]) }

/-- Globals in the middle of a connection: one edge seen, one counter raised. -/
def demoState : State :=
  { trace_bits := List.replicate 8 0, perf_bits := List.replicate 3 0,
    virgin_bits := [254, 255, 255, 255, 255, 255, 255, 255], max_counts := [0, 1, 0],
    count_class_lookup16 := init_count_class16 (List.replicate 65536 0),
    bitmap_changed := 0, stop_soon := 0, skip_requested := 0,
    subseq_tmouts := 0, cur_skipped_paths := 0, total_execs := 0, child_timed_out := 0,
    prev_timed_out := 0, kill_signal := 0, child_pid := 0, testcase := [],
    buff := List.replicate 1024 0, log := [] }

/-- A 21-byte frame with the given run type and the input `"A"`. -/
def demoRequest (run_type : List Nat) : Request :=
  { frame := List.replicate 16 9 ++ run_type ++ [65], exec := fun _ => demoExec,
    send_ok := true }

/-- The request buffer, the virgin map, the max counters and the lookup table are the same
in both states. -/
def SameRefs (s s1 : State) : Prop :=
  s1.buff = s.buff ∧ s1.virgin_bits = s.virgin_bits ∧ s1.max_counts = s.max_counts ∧
    s1.count_class_lookup16 = s.count_class_lookup16

/-- The frame carries the run type `"wup"`: bytes 16..19 are `'w'`, `'u'`, `'p'`, NUL. -/
@[reducible] def IsWarmupFrame (frame : List Nat) : Prop :=
  frame.getD 16 0 = 119 ∧ frame.getD 17 0 = 117 ∧ frame.getD 18 0 = 112 ∧ frame.getD 19 0 = 0

/-- The value a call returns, when it returns. -/
def Res.value {α : Type} : Res α → Option α
  | .ok v _ => some v
  | .abort _ _ => none

/-- The way a call ends the process, when it does. -/
def Res.aborted {α : Type} : Res α → Option Abort
  | .ok _ _ => none
  | .abort e _ => some e

/-- The exact sum `perf_bits[i] + ... + perf_bits[i + n - 1]` as an unbounded natural number,
the reading of `sum(P[1..K))` in the specification. -/
def counter_sum (perf_bits : List Nat) : Nat → Nat → Nat
  | 0, _ => 0
  | n + 1, i => perf_bits.getD i 0 + counter_sum perf_bits n (i + 1)

/-- The wait status of the run reaches `run_target`: `fork()` and `waitpid()` succeed in the
mode without fork server, or the three exchanges with the fork server succeed and the child
PID is positive. -/
def status_arrives (cfg : Config) (ev : Exec) : Bool :=
  if cfg.dumb_mode == 1 || cfg.no_forkserver then decide (0 ≤ ev.child_pid) && ev.wait_ok
  else ev.ctl_write_ok && ev.pid_read_ok && decide (0 < ev.child_pid) && ev.wait_ok

/-- The globals of `run_target` at the moment the wait status has arrived: both regions were
reset, the child PID is recorded and the child has run. -/
def state_at_status (cfg : Config) (ev : Exec) (s : State) : State :=
  let s1 := { s with child_timed_out := 0 }
  let s2 := { s1 with trace_bits := List.replicate cfg.MAP_SIZE 0 }
  let s3 := if cfg.max_ct_fuzzing then
      { s2 with perf_bits := List.replicate cfg.PERF_SIZE 0 } else s2
  child_runs ev { s3 with child_pid := ev.child_pid }

/-- A run that exits normally and leaves the given trace and counters. -/
def demoExecWith (trace perf : List Nat) : Exec :=
  { ctl_write_ok := true, pid_read_ok := true, child_pid := 77, wait_ok := true, status := 0,
    timed_out := false, stop_signal := false, skip_signal := false,
    child := fun _ _ => (trace, perf) }

/-- A frame with the run type `"nml"`, sixteen prefix bytes 9 and the given input bytes. -/
def demoFrame (input : List Nat) : List Nat :=
  List.replicate 16 9 ++ [110, 109, 108, 0] ++ input

/-- A request with the given frame whose every execution behaves as `ev`. -/
def demoRequestWith (frame : List Nat) (ev : Exec) : Request :=
  { frame := frame, exec := fun _ => ev, send_ok := true }

/-- The globals once `read()` has delivered the frame into `buff`. -/
def recv_state (s : State) (frame : List Nat) : State :=
  { s with buff := storeBytes s.buff 0 frame }

/-- The bytes `main` copies to `out_buf`: `strlen(p->input)` bytes from offset 20 of the
request buffer. -/
def request_input (buff : List Nat) : List Nat :=
  (buff.drop 20).take (c_strlen buff 20)

/-- The frame's run type differs from `"wup"` as `strcmp` sees it. -/
@[reducible] def IsActualFrame (frame : List Nat) : Prop := ¬ IsWarmupFrame frame

/-- The trace region as the child leaves it, before `classify_counts`: the child starts from
the regions `run_target` has just reset. -/
def raw_trace (cfg : Config) (ev : Exec) (s : State) : List Nat :=
  (ev.child (List.replicate cfg.MAP_SIZE 0)
    (if cfg.max_ct_fuzzing then List.replicate cfg.PERF_SIZE 0 else s.perf_bits)).1

/-- The configuration `demoConfig` with the fork server disabled (`AFL_NO_FORKSRV` set), so
that every run is a `fork()` / `waitpid()` cycle. -/
def demoConfigNoForkserver : Config := { demoConfig with no_forkserver := true }

/-- The bytes of `EXEC_FAIL_SIG` (`0xfee1dead`) in memory order, followed by four zero
bytes. -/
def demoExecFailTrace : List Nat := [0xad, 0xde, 0xe1, 0xfe, 0, 0, 0, 0]

/-- Globals after an actual run that hit two edges and left the counters `[5, 2, 3]`. -/
def demoStateAfterRun : State :=
  { demoState with
    trace_bits := [1, 0, 0, 0, 0, 2, 0, 0]
    perf_bits := [5, 2, 3]
    buff := demoFrame [65] ++ List.replicate 1003 0 }

/-- The loop `while ((nread = read(csock, buff, BUFFSIZE)) > 0)` of `main` over the frames
the agent sends on one connection (afl-treeline.c:5156-5279): every frame is handled in turn
on the globals the previous one left, until the agent closes the connection or a request
ends the process. The value is the list of the replies sent when the loop is left by the
end of the frames. -/
def request_loop (cfg : Config) : List Request → State → Res (List (List Nat))
  | [], s => .ok [] s
  | req :: rest, s =>
    match handle_request cfg req s with
    | .abort e s1 => .abort e s1
    | .ok reply s1 =>
      match request_loop cfg rest s1 with
      | .abort e s2 => .abort e s2
      | .ok replies s2 => .ok (reply :: replies) s2

/-- The function `strcmp` of the C library, for a string stored from offset `off` of a buffer
and a second string given with its terminating NUL: the difference of the first two bytes
that differ, 0 when both strings end together. -/
def c_strcmp (mem : List Nat) : Nat → List Nat → Int
  | _, [] => 0
  | off, b :: rest =>
    if mem.getD off 0 ≠ b then (mem.getD off 0 : Int) - (b : Int)
    else if b = 0 then 0
    else c_strcmp mem (off + 1) rest

/-- The string literal `"wup"` with its terminating NUL. -/
def wup_literal : List Nat := [119, 117, 112, 0]

/-- The trace map and the virgin map hold bytes and the classifier table is the one
`init_count_class16` builds. -/
def MapsWellFormed (s : State) : Prop :=
  IsBytes s.trace_bits ∧ IsBytes s.virgin_bits ∧ TableFilled s.count_class_lookup16

/-- Whatever the child of a request's runs finds in the trace region, it leaves bytes
there. -/
def ChildWritesBytes (req : Request) : Prop :=
  ∀ (n : Nat) (a b : List Nat), IsBytes ((req.exec n).child a b).1

/-- A run during which the user presses Ctrl-C: `handle_stop_sig` sets `stop_soon` and kills
the child with `SIGKILL`. -/
def demoExecStopSignal : Exec := { demoExec with stop_signal := true, status := 9 }

/-- A run attempted after `handle_stop_sig` killed the fork server: the write to the
control pipe fails. -/
def demoExecForkserverGone : Exec := { demoExec with ctl_write_ok := false }

/-- A run that is killed by `SIGKILL` after the timer fired. -/
def demoExecTimeout : Exec := { demoExec with status := 9, timed_out := true }

/-- Globals in the middle of a connection after `n` timeouts in a row. -/
def demoStateTimeouts (n : Nat) : State := { demoState with subseq_tmouts := n }

/-- The first step of `common_fuzz_stuff` (afl-treeline.c:3766-3771): without a
post-processing library the buffer is used as it is; with one, `afl_postprocess` is applied
and the call returns early when it yields no buffer or the length 0. -/
def post_processed (cfg : Config) (out_buf : List Nat) : Option (List Nat) :=
  match cfg.post_handler with
  | none => some out_buf
  | some f =>
    match f out_buf with
    | none => none
    | some b => if b.length = 0 then none else some b

/-- The configuration `demoConfig` with a post-processing library loaded (`AFL_POST_LIBRARY`
set) whose `afl_postprocess` appends the byte `'!'` to every input. -/
def demoConfigPostLibrary : Config :=
  { demoConfig with post_handler := some (fun b => some (b ++ [33])) }

/-- A run that is killed by `SIGSEGV` and leaves the inconsistent counters `[5, 2, 2]`. -/
def demoExecCrashInconsistent : Exec :=
  { demoExec with status := 11, child := fun _ _ => ([0, 0, 0, 0, 0, 0, 0, 0], [5, 2, 2]) }

/-- A request whose first run crashes with inconsistent counters and whose re-executions
exit normally with the counters `[5, 2, 3]`. -/
def demoRequestCrashThenRerun : Request :=
  { frame := demoFrame [65],
    exec := fun n => if n = 0 then demoExecCrashInconsistent else demoExec,
    send_ok := true }

/-! ## Auxiliary lemmas -/

theorem land_digit (a b r s : Nat) (ha : a < 256) (hb : b < 256) :
    (a + 256 * r) &&& (b + 256 * s) = (a &&& b) + 256 * (r &&& s) := by
  have h1 : ∀ (x y : Nat), x < 256 → x + 256 * y = 2 ^ 8 * y + x := by intros; omega
  have hab : a &&& b < 2 ^ 8 := Nat.lt_of_le_of_lt Nat.and_le_left ha
  rw [h1 a r ha, h1 b s hb, h1 _ _ hab]
  apply Nat.eq_of_testBit_eq
  intro i
  rw [Nat.testBit_and, Nat.testBit_mul_pow_two_add _ ha, Nat.testBit_mul_pow_two_add _ hb,
    Nat.testBit_mul_pow_two_add _ hab]
  split <;> simp

theorem leVal_land : ∀ (cs vs : List Nat), cs.length = vs.length → (∀ c ∈ cs, c < 256) →
    (∀ v ∈ vs, v < 256) → leVal cs &&& leVal vs = leVal (List.zipWith (· &&& ·) cs vs)
  | [], [], _, _, _ => by simp [leVal]
  | c :: cs, v :: vs, hl, hc, hv => by
    simp only [leVal, List.zipWith_cons_cons]
    rw [land_digit _ _ _ _ (hc c (by simp)) (hv v (by simp)),
      leVal_land cs vs (by simpa using hl) (fun x hx => hc x (by simp [hx]))
        (fun x hx => hv x (by simp [hx]))]

theorem leVal_lt : ∀ (cs : List Nat), (∀ c ∈ cs, c < 256) → leVal cs < 256 ^ cs.length
  | [], _ => by simp [leVal]
  | c :: cs, hc => by
    have h1 := leVal_lt cs (fun x hx => hc x (by simp [hx]))
    have h2 := hc c (by simp)
    simp only [leVal, List.length_cons, pow_succ]
    omega

theorem leVal_compl : ∀ (cs : List Nat), (∀ c ∈ cs, c < 256) →
    256 ^ cs.length - 1 - leVal cs = leVal (cs.map (fun c => 255 - c))
  | [], _ => by simp [leVal]
  | c :: cs, hc => by
    have h1 := leVal_lt cs (fun x hx => hc x (by simp [hx]))
    have h2 := hc c (by simp)
    have h3 := leVal_compl cs (fun x hx => hc x (by simp [hx]))
    simp only [leVal, List.length_cons, pow_succ, List.map_cons]
    rw [← h3]
    omega

theorem leBytes_leVal : ∀ (cs : List Nat), (∀ c ∈ cs, c < 256) →
    leBytes cs.length (leVal cs) = cs
  | [], _ => by simp [leBytes]
  | c :: cs, hc => by
    have h2 := hc c (by simp)
    have h3 := leBytes_leVal cs (fun x hx => hc x (by simp [hx]))
    simp only [leVal, List.length_cons, leBytes]
    have e1 : (c + 256 * leVal cs) % 256 = c := by omega
    have e2 : (c + 256 * leVal cs) / 256 = leVal cs := by omega
    rw [e1, e2, h3]

theorem leVal_eq_zero : ∀ (cs : List Nat), leVal cs = 0 ↔ ∀ c ∈ cs, c = 0
  | [] => by simp [leVal]
  | c :: cs => by
    have h := leVal_eq_zero cs
    simp only [leVal, List.mem_cons, forall_eq_or_imp]
    rw [← h]
    omega

/-- Clearing, in a byte `v`, the bits of a byte `c` that shares none with it changes nothing. -/
theorem land_compl_of_disjoint (c v : Nat) (hc : c < 256) (hv : v < 256) (h : c &&& v = 0) :
    v &&& (255 - c) = v := by
  apply Nat.eq_of_testBit_eq
  intro i
  have e : 255 - c = 2 ^ 8 - (c + 1) := by omega
  rw [Nat.testBit_and, e, Nat.testBit_two_pow_sub_succ (by simpa using hc)]
  have h0 : (c &&& v).testBit i = false := by rw [h]; simp
  rw [Nat.testBit_and] at h0
  by_cases hi : i < 8
  · cases hcb : c.testBit i <;> cases hvb : v.testBit i <;> simp_all
  · have h8 : (2 : Nat) ^ 8 ≤ 2 ^ i := Nat.pow_le_pow_right (by decide) (by omega)
    have hlt : v < 2 ^ i := by omega
    simp [Nat.testBit_lt_two_pow hlt]

theorem IsBytes.getD_lt {m : List Nat} (h : IsBytes m) (p : Nat) : m.getD p 0 < 256 := by
  rw [List.getD_eq_getElem?_getD]
  by_cases hp : p < m.length
  · rw [List.getElem?_eq_getElem hp]
    exact h _ (List.getElem_mem hp)
  · rw [List.getElem?_eq_none (by omega)]
    decide

theorem length_storeBytes : ∀ (bs m : List Nat) (p : Nat), (storeBytes m p bs).length = m.length
  | [], m, p => rfl
  | b :: bs, m, p => by
    rw [storeBytes, length_storeBytes bs, List.length_set]

theorem getD_storeBytes : ∀ (bs m : List Nat) (p q : Nat),
    (storeBytes m p bs).getD q 0 =
      if p ≤ q ∧ q < p + bs.length ∧ q < m.length then bs.getD (q - p) 0 else m.getD q 0
  | [], m, p, q => by
    rw [storeBytes, if_neg]
    simp only [List.length_nil]
    omega
  | b :: bs, m, p, q => by
    rw [storeBytes, getD_storeBytes bs]
    simp only [List.length_set, List.length_cons, List.getD_eq_getElem?_getD, List.getElem?_set]
    by_cases h1 : p + 1 ≤ q ∧ q < p + 1 + bs.length ∧ q < m.length
    · have h2 : p ≤ q ∧ q < p + (bs.length + 1) ∧ q < m.length := by omega
      rw [if_pos h1, if_pos h2]
      have : q - p = (q - (p + 1)) + 1 := by omega
      rw [this, List.getElem?_cons_succ]
    · rw [if_neg h1]
      by_cases h3 : p = q
      · subst h3
        by_cases h4 : p < m.length
        · simp [h4]
        · simp [h4]
          rw [List.getElem?_eq_none (by omega)]; rfl
      · have h2 : ¬ (p ≤ q ∧ q < p + (bs.length + 1) ∧ q < m.length) := by omega
        rw [if_neg h2, if_neg h3]

theorem isBytes_storeBytes : ∀ (bs m : List Nat) (p : Nat), IsBytes m → IsBytes bs →
    IsBytes (storeBytes m p bs)
  | [], m, p, hm, _ => hm
  | b :: bs, m, p, hm, hb => by
    rw [storeBytes]
    apply isBytes_storeBytes bs
    · intro x hx
      rcases List.mem_or_eq_of_mem_set hx with h | h
      · exact hm x h
      · rw [h]; exact hb b (by simp)
    · exact fun x hx => hb x (by simp [hx])

theorem wordBytes_isBytes {m : List Nat} (h : IsBytes m) (w : Nat) : IsBytes (wordBytes m w) := by
  intro b hb
  simp only [wordBytes, byteAt, List.mem_cons, List.mem_singleton, List.not_mem_nil, or_false] at hb
  rcases hb with h1 | h1 | h1 | h1 | h1 | h1 | h1 | h1 <;> rw [h1] <;> exact h.getD_lt _

theorem wordBytes_getD (m : List Nat) (w j : Nat) (hj : j < 8) :
    (wordBytes m w).getD j 0 = m.getD (8 * w + j) 0 := by
  interval_cases j <;> simp [wordBytes, byteAt]

theorem clearedBytes_eq {cur vir : List Nat} (hc : IsBytes cur) (hv : IsBytes vir) (w : Nat) :
    leBytes 8 (loadWord vir w &&& not64 (loadWord cur w)) = clearedBytes cur vir w := by
  have hcw := wordBytes_isBytes hc w
  have hvw := wordBytes_isBytes hv w
  have hn : IsBytes ((wordBytes cur w).map (fun c => 255 - c)) := by
    intro b hb
    rw [List.mem_map] at hb
    obtain ⟨a, _, rfl⟩ := hb
    omega
  have e1 : not64 (loadWord cur w) = leVal ((wordBytes cur w).map (fun c => 255 - c)) := by
    rw [← leVal_compl _ hcw, not64, loadWord]
    have hl : (wordBytes cur w).length = 8 := rfl
    have hp : (2 : Nat) ^ 64 = 256 ^ 8 := by norm_num
    rw [hl, hp]
  rw [e1, loadWord, leVal_land _ _ (by simp [wordBytes]) hvw hn]
  have hz : IsBytes (clearedBytes cur vir w) := by
    intro b hb
    simp only [clearedBytes, wordBytes, List.map_cons, List.map_nil, List.zipWith_cons_cons,
      List.zipWith_nil_right, List.mem_cons, List.mem_singleton, List.not_mem_nil, or_false] at hb
    rcases hb with h1 | h1 | h1 | h1 | h1 | h1 | h1 | h1 <;> rw [h1] <;>
      exact Nat.lt_of_le_of_lt Nat.and_le_left (hv.getD_lt _)
  have := leBytes_leVal _ hz
  rw [show (clearedBytes cur vir w).length = 8 by simp [clearedBytes, wordBytes]] at this
  exact this

theorem clearedBytes_getD (cur vir : List Nat) (w j : Nat) (hj : j < 8) :
    (clearedBytes cur vir w).getD j 0 = vir.getD (8 * w + j) 0 &&& (255 - cur.getD (8 * w + j) 0) := by
  interval_cases j <;> simp [clearedBytes, wordBytes, byteAt]

/-- The store `*virgin &= ~*current`, seen byte by byte. -/
theorem getD_storeWord_cleared {cur vir : List Nat} (hc : IsBytes cur) (hv : IsBytes vir)
    (w p : Nat) :
    (storeWord vir w (loadWord vir w &&& not64 (loadWord cur w))).getD p 0 =
      if 8 * w ≤ p ∧ p < 8 * w + 8 then vir.getD p 0 &&& (255 - cur.getD p 0)
      else vir.getD p 0 := by
  rw [storeWord, clearedBytes_eq hc hv, getD_storeBytes]
  have hl : (clearedBytes cur vir w).length = 8 := by simp [clearedBytes, wordBytes]
  rw [hl]
  by_cases h1 : 8 * w ≤ p ∧ p < 8 * w + 8
  · rw [if_pos h1]
    by_cases h2 : p < vir.length
    · rw [if_pos ⟨h1.1, h1.2, h2⟩, clearedBytes_getD _ _ _ _ (by omega)]
      have : 8 * w + (p - 8 * w) = p := by omega
      rw [this]
    · have h3 : ¬ (8 * w ≤ p ∧ p < 8 * w + 8 ∧ p < vir.length) := by omega
      rw [if_neg h3]
      have : vir.getD p 0 = 0 := by
        rw [List.getD_eq_getElem?_getD, List.getElem?_eq_none (by omega)]; rfl
      rw [this]; simp
  · have h3 : ¬ (8 * w ≤ p ∧ p < 8 * w + 8 ∧ p < vir.length) := by omega
    rw [if_neg h1, if_neg h3]

theorem isBytes_storeWord_cleared {cur vir : List Nat} (hc : IsBytes cur) (hv : IsBytes vir)
    (w : Nat) : IsBytes (storeWord vir w (loadWord vir w &&& not64 (loadWord cur w))) := by
  rw [storeWord, clearedBytes_eq hc hv]
  apply isBytes_storeBytes _ _ _ hv
  intro b hb
  simp only [clearedBytes, wordBytes, List.map_cons, List.map_nil, List.zipWith_cons_cons,
    List.zipWith_nil_right, List.mem_cons, List.mem_singleton, List.not_mem_nil, or_false] at hb
  rcases hb with h1 | h1 | h1 | h1 | h1 | h1 | h1 | h1 <;> rw [h1] <;>
    exact Nat.lt_of_le_of_lt Nat.and_le_left (hv.getD_lt _)

/-- The guard `*current && (*current & *virgin)` holds exactly when some byte of the word
shares a bit with its virgin byte. -/
theorem word_guard_iff {cur vir : List Nat} (hc : IsBytes cur) (hv : IsBytes vir) (w : Nat) :
    (loadWord cur w ≠ 0 ∧ loadWord cur w &&& loadWord vir w ≠ 0) ↔
      ∃ j, j < 8 ∧ cur.getD (8 * w + j) 0 &&& vir.getD (8 * w + j) 0 ≠ 0 := by
  have e : (loadWord cur w ≠ 0 ∧ loadWord cur w &&& loadWord vir w ≠ 0) ↔
      loadWord cur w &&& loadWord vir w ≠ 0 := by
    constructor
    · exact fun h => h.2
    · intro h
      refine ⟨?_, h⟩
      intro h0
      rw [h0] at h
      simp at h
  rw [e, loadWord, loadWord,
    leVal_land _ _ (by simp [wordBytes]) (wordBytes_isBytes hc w) (wordBytes_isBytes hv w),
    Ne, leVal_eq_zero]
  simp only [wordBytes, byteAt, List.zipWith_cons_cons, List.zipWith_nil_right, List.mem_cons,
    List.mem_singleton, List.not_mem_nil, or_false, forall_eq_or_imp, forall_eq, not_and_or]
  constructor
  · intro h
    simp only [Nat.add_zero] at h
    rcases h with h | h | h | h | h | h | h | h
    · exact ⟨0, by omega, h⟩
    · exact ⟨1, by omega, h⟩
    · exact ⟨2, by omega, h⟩
    · exact ⟨3, by omega, h⟩
    · exact ⟨4, by omega, h⟩
    · exact ⟨5, by omega, h⟩
    · exact ⟨6, by omega, h⟩
    · exact ⟨7, by omega, h⟩
  · rintro ⟨j, hj, h⟩
    interval_cases j <;> simp_all

theorem pristineHit_iff (cur vir : List Nat) (w : Nat) :
    pristineHit cur vir w = true ↔
      ∃ j, j < 8 ∧ cur.getD (8 * w + j) 0 ≠ 0 ∧ vir.getD (8 * w + j) 0 = 255 := by
  simp only [pristineHit, byteAt, Bool.or_eq_true, Bool.and_eq_true, bne_iff_ne, beq_iff_eq]
  constructor
  · intro h
    simp only [Nat.add_zero] at h
    rcases h with ((((((h | h) | h) | h) | h) | h) | h) | h
    · exact ⟨0, by omega, h⟩
    · exact ⟨1, by omega, h⟩
    · exact ⟨2, by omega, h⟩
    · exact ⟨3, by omega, h⟩
    · exact ⟨4, by omega, h⟩
    · exact ⟨5, by omega, h⟩
    · exact ⟨6, by omega, h⟩
    · exact ⟨7, by omega, h⟩
  · rintro ⟨j, hj, h⟩
    interval_cases j <;> simp_all

theorem has_new_bits_loop_virgin {cur : List Nat} (hc : IsBytes cur) :
    ∀ (i w : Nat) (vir : List Nat) (ret : Nat), IsBytes vir →
      (has_new_bits_loop cur i w vir ret).2.length = vir.length ∧
      ∀ p, (has_new_bits_loop cur i w vir ret).2.getD p 0 =
        if 8 * w ≤ p ∧ p < 8 * (w + i) then vir.getD p 0 &&& (255 - cur.getD p 0)
        else vir.getD p 0 := by
  intro i
  induction i with
  | zero =>
    intro w vir ret _
    refine ⟨rfl, fun p => ?_⟩
    rw [has_new_bits_loop, if_neg (by omega)]
  | succ i ih =>
    intro w vir ret hv
    rw [has_new_bits_loop]
    by_cases hg : loadWord cur w ≠ 0 ∧ loadWord cur w &&& loadWord vir w ≠ 0
    · simp only [if_pos hg]
      obtain ⟨hl, hp⟩ := ih (w + 1) _
        (if ret < 2 then (if pristineHit cur vir w then 2 else 1) else ret)
        (isBytes_storeWord_cleared hc hv w)
      refine ⟨by rw [hl, storeWord, length_storeBytes], fun p => ?_⟩
      rw [hp p, getD_storeWord_cleared hc hv]
      by_cases h1 : 8 * w ≤ p ∧ p < 8 * w + 8
      · rw [if_neg (by omega), if_pos h1, if_pos (by omega)]
      · rw [if_neg h1]
        by_cases h2 : 8 * (w + 1) ≤ p ∧ p < 8 * (w + 1 + i)
        · rw [if_pos h2, if_pos (by omega)]
        · rw [if_neg h2, if_neg (by omega)]
    · simp only [if_neg hg]
      obtain ⟨hl, hp⟩ := ih (w + 1) vir ret hv
      refine ⟨hl, fun p => ?_⟩
      rw [hp p]
      by_cases h1 : 8 * w ≤ p ∧ p < 8 * w + 8
      · rw [if_neg (by omega), if_pos (by omega)]
        rw [word_guard_iff hc hv] at hg
        have h0 : cur.getD p 0 &&& vir.getD p 0 = 0 := by
          by_contra hne
          apply hg
          refine ⟨p - 8 * w, by omega, ?_⟩
          have : 8 * w + (p - 8 * w) = p := by omega
          rw [this]
          exact hne
        exact (land_compl_of_disjoint _ _ (hc.getD_lt p) (hv.getD_lt p) h0).symm
      · by_cases h2 : 8 * (w + 1) ≤ p ∧ p < 8 * (w + 1 + i)
        · rw [if_pos h2, if_pos (by omega)]
        · rw [if_neg h2, if_neg (by omega)]

theorem land_255_ne_zero {c : Nat} (hc : c < 256) (h : c ≠ 0) : c &&& 255 ≠ 0 := by
  have e : c &&& 255 = c := Nat.and_pow_two_sub_one_of_lt_two_pow (n := 8) (by simpa using hc)
  rw [e]
  exact h

theorem land_ne_zero_left {c v : Nat} (h : c &&& v ≠ 0) : c ≠ 0 := by
  intro h0
  rw [h0] at h
  simp at h

theorem newIn_succ (cur vir : List Nat) (w i : Nat) :
    NewIn cur vir w (i + 1) ↔ (pristineHit cur vir w = true ∨ NewIn cur vir (w + 1) i) := by
  rw [pristineHit_iff]
  constructor
  · rintro ⟨p, h1, h2, h3, h4⟩
    by_cases hp : p < 8 * w + 8
    · left
      refine ⟨p - 8 * w, by omega, ?_⟩
      have : 8 * w + (p - 8 * w) = p := by omega
      rw [this]
      exact ⟨h3, h4⟩
    · right
      exact ⟨p, by omega, by omega, h3, h4⟩
  · rintro (⟨j, hj, h3, h4⟩ | ⟨p, h1, h2, h3, h4⟩)
    · exact ⟨8 * w + j, by omega, by omega, h3, h4⟩
    · exact ⟨p, by omega, by omega, h3, h4⟩

theorem hitIn_succ {cur vir : List Nat} (hc : IsBytes cur) (hv : IsBytes vir) (w i : Nat) :
    HitIn cur vir w (i + 1) ↔
      ((loadWord cur w ≠ 0 ∧ loadWord cur w &&& loadWord vir w ≠ 0) ∨
        HitIn cur vir (w + 1) i) := by
  rw [word_guard_iff hc hv]
  constructor
  · rintro ⟨p, h1, h2, h3, h4⟩
    by_cases hp : p < 8 * w + 8
    · left
      refine ⟨p - 8 * w, by omega, ?_⟩
      have : 8 * w + (p - 8 * w) = p := by omega
      rw [this]
      exact h4
    · right
      exact ⟨p, by omega, by omega, h3, h4⟩
  · rintro (⟨j, hj, h4⟩ | ⟨p, h1, h2, h3, h4⟩)
    · exact ⟨8 * w + j, by omega, by omega, land_ne_zero_left h4, h4⟩
    · exact ⟨p, by omega, by omega, h3, h4⟩

theorem newIn_congr {cur vir vir1 : List Nat} {w i : Nat}
    (h : ∀ p, 8 * w ≤ p → vir1.getD p 0 = vir.getD p 0) :
    NewIn cur vir1 w i ↔ NewIn cur vir w i := by
  constructor
  · rintro ⟨p, h1, h2, h3, h4⟩
    exact ⟨p, h1, h2, h3, by rw [← h p h1]; exact h4⟩
  · rintro ⟨p, h1, h2, h3, h4⟩
    exact ⟨p, h1, h2, h3, by rw [h p h1]; exact h4⟩

theorem hitIn_congr {cur vir vir1 : List Nat} {w i : Nat}
    (h : ∀ p, 8 * w ≤ p → vir1.getD p 0 = vir.getD p 0) :
    HitIn cur vir1 w i ↔ HitIn cur vir w i := by
  constructor
  · rintro ⟨p, h1, h2, h3, h4⟩
    exact ⟨p, h1, h2, h3, by rw [← h p h1]; exact h4⟩
  · rintro ⟨p, h1, h2, h3, h4⟩
    exact ⟨p, h1, h2, h3, by rw [h p h1]; exact h4⟩

theorem pristineHit_guard {cur vir : List Nat} (hc : IsBytes cur) (hv : IsBytes vir) (w : Nat)
    (h : pristineHit cur vir w = true) :
    loadWord cur w ≠ 0 ∧ loadWord cur w &&& loadWord vir w ≠ 0 := by
  rw [word_guard_iff hc hv]
  rw [pristineHit_iff] at h
  obtain ⟨j, hj, h3, h4⟩ := h
  refine ⟨j, hj, ?_⟩
  rw [h4]
  exact land_255_ne_zero (hc.getD_lt _) h3

theorem has_new_bits_loop_ret {cur : List Nat} (hc : IsBytes cur) :
    ∀ (i w : Nat) (vir : List Nat) (ret : Nat), IsBytes vir →
      (2 ≤ ret → (has_new_bits_loop cur i w vir ret).1 = ret) ∧
      (ret < 2 → NewIn cur vir w i → (has_new_bits_loop cur i w vir ret).1 = 2) ∧
      (ret < 2 → ¬ NewIn cur vir w i → (ret = 1 ∨ HitIn cur vir w i) →
        (has_new_bits_loop cur i w vir ret).1 = 1) ∧
      (ret = 0 → ¬ HitIn cur vir w i → (has_new_bits_loop cur i w vir ret).1 = 0) := by
  intro i
  induction i with
  | zero =>
    intro w vir ret _
    have hn : ¬ NewIn cur vir w 0 := by rintro ⟨p, h1, h2, _⟩; omega
    have hh : ¬ HitIn cur vir w 0 := by rintro ⟨p, h1, h2, _⟩; omega
    refine ⟨fun _ => rfl, fun _ h => absurd h hn, fun h1 _ h3 => ?_, fun h _ => ?_⟩
    · rcases h3 with h3 | h3
      · rw [has_new_bits_loop]; exact h3
      · exact absurd h3 hh
    · rw [has_new_bits_loop]; exact h
  | succ i ih =>
    intro w vir ret hv
    rw [has_new_bits_loop, newIn_succ, hitIn_succ hc hv]
    by_cases hg : loadWord cur w ≠ 0 ∧ loadWord cur w &&& loadWord vir w ≠ 0
    · simp only [if_pos hg]
      have hagree : ∀ p, 8 * (w + 1) ≤ p →
          (storeWord vir w (loadWord vir w &&& not64 (loadWord cur w))).getD p 0 =
            vir.getD p 0 := by
        intro p hp
        rw [getD_storeWord_cleared hc hv, if_neg (by omega)]
      obtain ⟨a1, a2, a3, a4⟩ := ih (w + 1) _
        (if ret < 2 then (if pristineHit cur vir w then 2 else 1) else ret)
        (isBytes_storeWord_cleared hc hv w)
      rw [newIn_congr hagree, hitIn_congr hagree] at *
      refine ⟨fun h => ?_, fun h hn => ?_, fun h hn _ => ?_, fun h hn => ?_⟩
      · rw [if_neg (by omega)] at a1 ⊢
        exact a1 h
      · rw [if_pos h] at a1 a2 ⊢
        by_cases hp : pristineHit cur vir w = true
        · rw [if_pos hp] at a1 ⊢
          exact a1 (le_refl 2)
        · rw [if_neg hp] at a2 ⊢
          rcases hn with hn | hn
          · exact absurd hn hp
          · exact a2 (by omega) hn
      · rw [if_pos h] at a3 ⊢
        have hp : ¬ pristineHit cur vir w = true := fun hp => hn (Or.inl hp)
        rw [if_neg hp] at a3 ⊢
        exact a3 (by omega) (fun h' => hn (Or.inr h')) (Or.inl rfl)
      · exact absurd (Or.inl hg) hn
    · simp only [if_neg hg]
      have hp : ¬ pristineHit cur vir w = true := fun hp => hg (pristineHit_guard hc hv w hp)
      obtain ⟨a1, a2, a3, a4⟩ := ih (w + 1) vir ret hv
      refine ⟨a1, fun h hn => ?_, fun h hn hh => ?_, fun h hn => ?_⟩
      · rcases hn with hn | hn
        · exact absurd hn hp
        · exact a2 h hn
      · refine a3 h (fun h' => hn (Or.inr h')) ?_
        rcases hh with hh | hh | hh
        · exact Or.inl hh
        · exact absurd hh hg
        · exact Or.inr hh
      · exact a4 h (fun h' => hn (Or.inr h'))

theorem land_compl_self (v c : Nat) (hc : c < 256) : (v &&& (255 - c)) &&& c = 0 := by
  apply Nat.eq_of_testBit_eq
  intro i
  have e : 255 - c = 2 ^ 8 - (c + 1) := by omega
  rw [Nat.testBit_and, Nat.testBit_and, e, Nat.testBit_two_pow_sub_succ (by simpa using hc)]
  cases c.testBit i <;> simp

theorem toU32_toS32 (n : Nat) (h : n < 2 ^ 32) : toU32 (toS32 n) = n := by
  unfold toU32 toS32
  have e : n % 2 ^ 32 = n := Nat.mod_eq_of_lt h
  rw [e]
  split <;> omega

theorem getD_set_nat (l : List Nat) (i p v : Nat) :
    (l.set i v).getD p 0 = if p = i ∧ i < l.length then v else l.getD p 0 := by
  simp only [List.getD_eq_getElem?_getD, List.getElem?_set]
  by_cases h : i = p
  · subst h
    by_cases h2 : i < l.length
    · simp [h2]
    · simp [h2]
      rw [List.getElem?_eq_none (by omega)]; rfl
  · rw [if_neg h, if_neg (by omega)]

theorem has_new_max_loop_spec (P : List Nat) :
    ∀ (n i : Nat) (mx : List Nat) (ret : Nat),
      (has_new_max_loop P n i mx ret).2.length = mx.length ∧
      (∀ p, (has_new_max_loop P n i mx ret).2.getD p 0 =
        if i ≤ p ∧ p < i + n ∧ p < mx.length then max (mx.getD p 0) (P.getD p 0)
        else mx.getD p 0) ∧
      ((∃ p, i ≤ p ∧ p < i + n ∧ P.getD p 0 > mx.getD p 0) →
        (has_new_max_loop P n i mx ret).1 = 1) ∧
      (¬ (∃ p, i ≤ p ∧ p < i + n ∧ P.getD p 0 > mx.getD p 0) →
        (has_new_max_loop P n i mx ret).1 = ret) := by
  intro n
  induction n with
  | zero =>
    intro i mx ret
    refine ⟨rfl, fun p => ?_, ?_, fun _ => rfl⟩
    · rw [has_new_max_loop, if_neg (by omega)]
    · rintro ⟨p, h1, h2, _⟩; omega
  | succ n ih =>
    intro i mx ret
    rw [has_new_max_loop]
    by_cases hgt : P.getD i 0 > mx.getD i 0
    · have hnz : P.getD i 0 ≠ 0 := by omega
      simp only [if_pos hnz, if_pos hgt]
      obtain ⟨a1, a2, a3, a4⟩ := ih (i + 1) (mx.set i (P.getD i 0)) 1
      refine ⟨by rw [a1, List.length_set], fun p => ?_, fun _ => ?_, fun h => ?_⟩
      · rw [a2 p, List.length_set, getD_set_nat]
        by_cases hp : p = i
        · subst hp
          have e : max (mx.getD p 0) (P.getD p 0) = P.getD p 0 := max_eq_right (le_of_lt hgt)
          rw [e]
          split_ifs <;> first | rfl | omega
        · split_ifs <;> first | rfl | omega
      · by_cases hex : ∃ p, i + 1 ≤ p ∧ p < i + 1 + n ∧
            P.getD p 0 > (mx.set i (P.getD i 0)).getD p 0
        · exact a3 hex
        · exact a4 hex
      · exact absurd ⟨i, le_refl i, by omega, hgt⟩ h
    · have hstep : (if P.getD i 0 ≠ 0 then
            if P.getD i 0 > mx.getD i 0 then
              has_new_max_loop P n (i + 1) (mx.set i (P.getD i 0)) 1
            else has_new_max_loop P n (i + 1) mx ret
          else has_new_max_loop P n (i + 1) mx ret) = has_new_max_loop P n (i + 1) mx ret := by
        rw [if_neg hgt]
        split <;> rfl
      rw [hstep]
      obtain ⟨a1, a2, a3, a4⟩ := ih (i + 1) mx ret
      refine ⟨a1, fun p => ?_, ?_, fun h => ?_⟩
      · rw [a2 p]
        by_cases hp : p = i
        · subst hp
          have e : max (mx.getD p 0) (P.getD p 0) = mx.getD p 0 := max_eq_left (by omega)
          rw [e]
          split_ifs <;> rfl
        · split_ifs <;> first | rfl | omega
      · rintro ⟨p, h1, h2, h3⟩
        apply a3
        by_cases hp : p = i
        · subst hp; exact absurd h3 hgt
        · exact ⟨p, by omega, by omega, h3⟩
      · apply a4
        rintro ⟨p, h1, h2, h3⟩
        exact h ⟨p, by omega, by omega, h3⟩

theorem hotspot_count_loop_spec (P : List Nat) (hP : ∀ p, P.getD p 0 < 2 ^ 32) :
    ∀ (n i m0 : Nat), m0 < 2 ^ 32 →
      ∃ m, hotspot_count_loop P n i (toS32 m0) = toS32 m ∧ m < 2 ^ 32 ∧ m0 ≤ m ∧
        (∀ p, i ≤ p → p < i + n → P.getD p 0 ≤ m) ∧
        (m = m0 ∨ ∃ p, i ≤ p ∧ p < i + n ∧ P.getD p 0 = m) := by
  intro n
  induction n with
  | zero =>
    intro i m0 h0
    exact ⟨m0, rfl, h0, le_refl _, fun p h1 h2 => by omega, Or.inl rfl⟩
  | succ n ih =>
    intro i m0 h0
    rw [hotspot_count_loop, toU32_toS32 m0 h0]
    by_cases hgt : P.getD i 0 > m0
    · rw [if_pos hgt]
      obtain ⟨m, e, b, h1, h2, h3⟩ := ih (i + 1) (P.getD i 0) (hP i)
      refine ⟨m, e, b, by omega, fun p q1 q2 => ?_, Or.inr ?_⟩
      · by_cases hp : p = i
        · subst hp; exact h1
        · exact h2 p (by omega) (by omega)
      · rcases h3 with h3 | ⟨p, q1, q2, q3⟩
        · exact ⟨i, le_refl i, by omega, h3.symm⟩
        · exact ⟨p, by omega, by omega, q3⟩
    · rw [if_neg hgt]
      obtain ⟨m, e, b, h1, h2, h3⟩ := ih (i + 1) m0 h0
      refine ⟨m, e, b, h1, fun p q1 q2 => ?_, ?_⟩
      · by_cases hp : p = i
        · subst hp; omega
        · exact h2 p (by omega) (by omega)
      · rcases h3 with h3 | ⟨p, q1, q2, q3⟩
        · exact Or.inl h3
        · exact Or.inr ⟨p, by omega, by omega, q3⟩

set_option maxRecDepth 100000 in
theorem l8_lt : ∀ n, n < 256 → count_class_lookup8.getD n 0 < 256 := by
  decide

theorem class16_eq (b1 b2 : Nat) (h2 : b2 < 256) :
    class16 b1 b2 = 256 * count_class_lookup8.getD b1 0 + count_class_lookup8.getD b2 0 := by
  have h := Nat.mul_add_lt_is_or (i := 8) (b := count_class_lookup8.getD b2 0)
    (by simpa using l8_lt b2 h2) (count_class_lookup8.getD b1 0)
  rw [class16, Nat.shiftLeft_eq, Nat.mul_comm]
  simpa using h.symm

theorem init_inner_spec (b1 : Nat) : ∀ (n b2 : Nat) (t : List Nat),
    (init_count_class16_inner b1 n b2 t).length = t.length ∧
    ∀ q, (init_count_class16_inner b1 n b2 t).getD q 0 =
      if 256 * b1 + b2 ≤ q ∧ q < 256 * b1 + b2 + n ∧ q < t.length then class16 b1 (q - 256 * b1)
      else t.getD q 0 := by
  intro n
  induction n with
  | zero =>
    intro b2 t
    refine ⟨rfl, fun q => ?_⟩
    rw [init_count_class16_inner, if_neg (by omega)]
  | succ n ih =>
    intro b2 t
    rw [init_count_class16_inner]
    obtain ⟨a1, a2⟩ := ih (b2 + 1) (t.set ((b1 <<< 8) + b2) (class16 b1 b2))
    refine ⟨by rw [← List.length_set t]; exact a1, fun q => ?_⟩
    have e : (b1 <<< 8) + b2 = 256 * b1 + b2 := by
      rw [Nat.shiftLeft_eq]; omega
    have a3 := a2 q
    rw [class16] at a3
    rw [a3, List.length_set, getD_set_nat, e]
    by_cases hq : q = 256 * b1 + b2
    · have e2 : q - 256 * b1 = b2 := by omega
      rw [e2, class16]
      split_ifs <;> first | rfl | omega
    · split_ifs <;> first | rfl | omega

theorem init_outer_spec : ∀ (n b1 : Nat) (t : List Nat),
    (init_count_class16_outer n b1 t).length = t.length ∧
    ∀ q, (init_count_class16_outer n b1 t).getD q 0 =
      if 256 * b1 ≤ q ∧ q < 256 * (b1 + n) ∧ q < t.length then class16 (q / 256) (q % 256)
      else t.getD q 0 := by
  intro n
  induction n with
  | zero =>
    intro b1 t
    refine ⟨rfl, fun q => ?_⟩
    rw [init_count_class16_outer, if_neg (by omega)]
  | succ n ih =>
    intro b1 t
    rw [init_count_class16_outer]
    obtain ⟨a1, a2⟩ := ih (b1 + 1) (init_count_class16_inner b1 256 0 t)
    obtain ⟨c1, c2⟩ := init_inner_spec b1 256 0 t
    refine ⟨by rw [a1, c1], fun q => ?_⟩
    rw [a2 q, c1, c2 q]
    by_cases hq : 256 * b1 ≤ q ∧ q < 256 * b1 + 256
    · have e1 : q / 256 = b1 := by omega
      have e2 : q % 256 = q - 256 * b1 := by omega
      rw [e1, e2]
      split_ifs <;> first | rfl | omega
    · split_ifs <;> first | rfl | omega

/-- After `init_count_class16` on the 65536-entry table, entry `(b1 << 8) + b2` holds
`(count_class_lookup8[b1] << 8) | count_class_lookup8[b2]`. -/
theorem init_count_class16_getD (t : List Nat) (ht : t.length = 65536) (b1 b2 : Nat)
    (h1 : b1 < 256) (h2 : b2 < 256) :
    (init_count_class16 t).getD (256 * b1 + b2) 0 =
      256 * count_class_lookup8.getD b1 0 + count_class_lookup8.getD b2 0 := by
  obtain ⟨-, a2⟩ := init_outer_spec 256 0 t
  rw [init_count_class16, a2, if_pos (by omega)]
  have e1 : (256 * b1 + b2) / 256 = b1 := by omega
  have e2 : (256 * b1 + b2) % 256 = b2 := by omega
  rw [e1, e2, class16_eq _ _ h2]

theorem getD_zero_of_le (m : List Nat) (p : Nat) (h : m.length ≤ p) : m.getD p 0 = 0 := by
  rw [List.getD_eq_getElem?_getD, List.getElem?_eq_none h]; rfl

theorem isBytes_set {m : List Nat} (hm : IsBytes m) (i v : Nat) (hv : v < 256) :
    IsBytes (m.set i v) := by
  intro x hx
  rcases List.mem_or_eq_of_mem_set hx with h | h
  · exact hm x h
  · rw [h]; exact hv

theorem store16_spec (be : Bool) {t : List Nat} (ht : TableFilled t) {m : List Nat}
    (hm : IsBytes m) (h : Nat) :
    IsBytes (store16 be m h (t.getD (load16 be m h) 0)) ∧
    (store16 be m h (t.getD (load16 be m h) 0)).length = m.length ∧
    ∀ p, (store16 be m h (t.getD (load16 be m h) 0)).getD p 0 =
      if p = 2 * h ∨ p = 2 * h + 1 then count_class_lookup8.getD (m.getD p 0) 0
      else m.getD p 0 := by
  have ha := hm.getD_lt (2 * h)
  have hb := hm.getD_lt (2 * h + 1)
  have la := l8_lt _ ha
  have lb := l8_lt _ hb
  have l0 : count_class_lookup8.getD 0 0 = 0 := by decide
  cases be
  · have e : load16 false m h = 256 * m.getD (2 * h + 1) 0 + m.getD (2 * h) 0 := by
      simp only [load16]; simp; omega
    rw [e, ht _ _ hb ha]
    simp only [store16]
    simp only [Bool.false_eq_true, if_false]
    refine ⟨isBytes_set (isBytes_set hm _ _ (by omega)) _ _ (by omega), by simp, fun p => ?_⟩
    rw [getD_set_nat, getD_set_nat, List.length_set]
    by_cases h1 : p = 2 * h
    · subst h1
      by_cases hl : 2 * h < m.length
      · rw [if_neg (by omega), if_pos ⟨rfl, hl⟩, if_pos (Or.inl rfl)]; omega
      · rw [if_neg (by omega), if_neg (by omega), if_pos (Or.inl rfl),
          getD_zero_of_le _ _ (by omega), l0]
    · by_cases h2 : p = 2 * h + 1
      · subst h2
        by_cases hl : 2 * h + 1 < m.length
        · rw [if_pos ⟨rfl, hl⟩, if_pos (Or.inr rfl)]; omega
        · rw [if_neg (by omega), if_neg (by omega), if_pos (Or.inr rfl),
            getD_zero_of_le _ _ (by omega), l0]
      · rw [if_neg (by omega), if_neg (by omega), if_neg (by omega)]
  · have e : load16 true m h = 256 * m.getD (2 * h) 0 + m.getD (2 * h + 1) 0 := by
      simp only [load16]; simp
    rw [e, ht _ _ ha hb]
    simp only [store16]
    simp only [if_true]
    refine ⟨isBytes_set (isBytes_set hm _ _ (by omega)) _ _ (by omega), by simp, fun p => ?_⟩
    rw [getD_set_nat, getD_set_nat, List.length_set]
    by_cases h1 : p = 2 * h
    · subst h1
      by_cases hl : 2 * h < m.length
      · rw [if_neg (by omega), if_pos ⟨rfl, hl⟩, if_pos (Or.inl rfl)]; omega
      · rw [if_neg (by omega), if_neg (by omega), if_pos (Or.inl rfl),
          getD_zero_of_le _ _ (by omega), l0]
    · by_cases h2 : p = 2 * h + 1
      · subst h2
        by_cases hl : 2 * h + 1 < m.length
        · rw [if_pos ⟨rfl, hl⟩, if_pos (Or.inr rfl)]; omega
        · rw [if_neg (by omega), if_neg (by omega), if_pos (Or.inr rfl),
            getD_zero_of_le _ _ (by omega), l0]
      · rw [if_neg (by omega), if_neg (by omega), if_neg (by omega)]

theorem getD_of_lt (l : List Nat) (i : Nat) (h : i < l.length) : l.getD i 0 = l[i] := by
  rw [List.getD_eq_getElem?_getD, List.getElem?_eq_getElem h]
  rfl

theorem load64_eq_zero (be : Bool) (m : List Nat) (w : Nat) (h : load64 be m w = 0) :
    ∀ j, j < 8 → m.getD (8 * w + j) 0 = 0 := by
  have h1 : ∀ c ∈ wordBytes m w, c = 0 := by
    cases be
    · simp only [load64, Bool.false_eq_true, if_false] at h
      exact (leVal_eq_zero _).1 h
    · simp only [load64, if_true] at h
      intro c hc
      exact (leVal_eq_zero _).1 h c (List.mem_reverse.2 hc)
  intro j hj
  rw [← wordBytes_getD m w j hj]
  have hl : j < (wordBytes m w).length := by simpa [wordBytes] using hj
  rw [List.getD_eq_getElem?_getD, List.getElem?_eq_getElem hl]
  exact h1 _ (List.getElem_mem hl)

/-- One pass of the loop body on a non-zero word: the four 16-bit lookups rewrite the
eight bytes of word `w` through `count_class_lookup8` and touch nothing else. -/
theorem classify_word_spec (be : Bool) {t : List Nat} (ht : TableFilled t) {m : List Nat}
    (hm : IsBytes m) (w : Nat) :
    let m0 := store16 be m (4 * w) (t.getD (load16 be m (4 * w)) 0)
    let m1 := store16 be m0 (4 * w + 1) (t.getD (load16 be m0 (4 * w + 1)) 0)
    let m2 := store16 be m1 (4 * w + 2) (t.getD (load16 be m1 (4 * w + 2)) 0)
    let m3 := store16 be m2 (4 * w + 3) (t.getD (load16 be m2 (4 * w + 3)) 0)
    IsBytes m3 ∧ m3.length = m.length ∧
    ∀ p, m3.getD p 0 =
      if 8 * w ≤ p ∧ p < 8 * w + 8 then count_class_lookup8.getD (m.getD p 0) 0
      else m.getD p 0 := by
  intro m0 m1 m2 m3
  obtain ⟨b0, l0, g0⟩ := store16_spec be ht hm (4 * w)
  obtain ⟨b1, l1, g1⟩ := store16_spec be ht b0 (4 * w + 1)
  obtain ⟨b2, l2, g2⟩ := store16_spec be ht b1 (4 * w + 2)
  obtain ⟨b3, l3, g3⟩ := store16_spec be ht b2 (4 * w + 3)
  refine ⟨b3, by rw [l3, l2, l1, l0], fun p => ?_⟩
  have e3 := g3 p
  have e2 := g2 p
  have e1 := g1 p
  have e0 := g0 p
  simp only [m3, m2, m1, m0]
  rw [e3, e2, e1, e0]
  split_ifs <;> first | rfl | omega

theorem classify_counts_loop_spec (be : Bool) {t : List Nat} (ht : TableFilled t) :
    ∀ (i w : Nat) (m : List Nat), IsBytes m →
      (classify_counts_loop be t i w m).length = m.length ∧
      ∀ p, (classify_counts_loop be t i w m).getD p 0 =
        if 8 * w ≤ p ∧ p < 8 * (w + i) then count_class_lookup8.getD (m.getD p 0) 0
        else m.getD p 0 := by
  intro i
  induction i with
  | zero =>
    intro w m _
    refine ⟨rfl, fun p => ?_⟩
    rw [classify_counts_loop, if_neg (by omega)]
  | succ i ih =>
    intro w m hm
    rw [classify_counts_loop]
    by_cases hz : load64 be m w ≠ 0
    · simp only [if_pos hz]
      obtain ⟨b, l, g⟩ := classify_word_spec be ht hm w
      obtain ⟨a1, a2⟩ := ih (w + 1) _ b
      refine ⟨by rw [a1, l], fun p => ?_⟩
      rw [a2 p, g p]
      split_ifs <;> first | rfl | omega
    · simp only [if_neg hz]
      obtain ⟨a1, a2⟩ := ih (w + 1) m hm
      refine ⟨a1, fun p => ?_⟩
      rw [a2 p]
      by_cases h1 : 8 * w ≤ p ∧ p < 8 * w + 8
      · have h0 : m.getD p 0 = 0 := by
          have := load64_eq_zero be m w (by simpa using hz) (p - 8 * w) (by omega)
          have e : 8 * w + (p - 8 * w) = p := by omega
          rw [e] at this
          exact this
        have l0 : count_class_lookup8.getD 0 0 = 0 := by decide
        rw [if_neg (by omega), if_pos (by omega), h0, l0]
      · split_ifs <;> first | rfl | omega

/-- With the table filled by `init_count_class16`, `classify_counts` is the byte-by-byte
bucket function. -/
theorem classify_counts_eq_map (be : Bool) (MAP_SIZE : Nat) (table0 C : List Nat)
    (ht : table0.length = 65536) (hM : 8 ∣ MAP_SIZE) (hC : C.length = MAP_SIZE)
    (hCb : IsBytes C) :
    classify_counts be (init_count_class16 table0) MAP_SIZE C = classify_bytewise C := by
  obtain ⟨k, rfl⟩ := hM
  have hk : (8 * k) >>> 3 = k := by
    rw [Nat.shiftRight_eq_div_pow]
    omega
  have hfill : TableFilled (init_count_class16 table0) :=
    fun b1 b2 h1 h2 => init_count_class16_getD table0 ht b1 b2 h1 h2
  obtain ⟨a1, a2⟩ := classify_counts_loop_spec be hfill k 0 C hCb
  rw [classify_counts, hk, classify_bytewise]
  apply List.ext_getElem
  · rw [a1, List.length_map]
  · intro i h1 h2
    have h3 : i < C.length := by rw [← a1]; exact h1
    have := a2 i
    rw [if_pos (by omega), getD_of_lt _ _ h1, getD_of_lt C _ h3] at this
    rw [List.getElem_map]
    exact this

theorem isBytes_classify_bytewise {C : List Nat} (hC : IsBytes C) :
    IsBytes (classify_bytewise C) := by
  intro b hb
  rw [classify_bytewise, List.mem_map] at hb
  obtain ⟨a, ha, rfl⟩ := hb
  exact l8_lt a (hC a ha)

set_option maxRecDepth 100000 in
theorem l8_twice_iff : ∀ n, n < 256 →
    (count_class_lookup8.getD (count_class_lookup8.getD n 0) 0 = count_class_lookup8.getD n 0 ↔
      (n ≤ 2 ∨ 32 ≤ n)) := by
  decide

theorem SameRefs.refl (s : State) : SameRefs s s := ⟨rfl, rfl, rfl, rfl⟩

theorem SameRefs.trans {a b c : State} (h1 : SameRefs a b) (h2 : SameRefs b c) :
    SameRefs a c :=
  ⟨h2.1.trans h1.1, h2.2.1.trans h1.2.1, h2.2.2.1.trans h1.2.2.1, h2.2.2.2.trans h1.2.2.2⟩

theorem run_target_report_sameRefs (cfg : Config) (ev : Exec) (s : State) :
    SameRefs s (run_target_report cfg ev s).state := by
  unfold run_target_report
  simp only []
  split_ifs <;> exact ⟨rfl, rfl, rfl, rfl⟩

theorem run_target_sameRefs (cfg : Config) (ev : Exec) (s : State) :
    SameRefs s (run_target cfg ev s).state := by
  unfold run_target
  simp only []
  split_ifs <;>
    first
    | exact ⟨rfl, rfl, rfl, rfl⟩
    | exact SameRefs.trans ⟨rfl, rfl, rfl, rfl⟩ (run_target_report_sameRefs _ _ _)

theorem common_fuzz_stuff_after_run_sameRefs (cfg : Config) (fault : Nat) (s : State) :
    SameRefs s (common_fuzz_stuff_after_run cfg fault s).state := by
  unfold common_fuzz_stuff_after_run
  simp only []
  split_ifs <;> exact ⟨rfl, rfl, rfl, rfl⟩

theorem common_fuzz_stuff_sameRefs (cfg : Config) (ev : Exec) (out_buf : List Nat)
    (s : State) : SameRefs s (common_fuzz_stuff cfg ev out_buf s).state := by
  unfold common_fuzz_stuff
  simp only []
  split
  · exact SameRefs.refl s
  · rename_i buf _
    have h := run_target_sameRefs cfg ev (write_to_testcase buf s)
    split
    · rename_i e s1 heq
      rw [heq] at h
      exact SameRefs.trans ⟨rfl, rfl, rfl, rfl⟩ h
    · rename_i fault s1 heq
      rw [heq] at h
      exact SameRefs.trans (SameRefs.trans ⟨rfl, rfl, rfl, rfl⟩ h)
        (common_fuzz_stuff_after_run_sameRefs cfg fault s1)

theorem rerun_loop_sameRefs (cfg : Config) (exec : Nat → Exec) :
    ∀ (fuel attempts : Nat) (s : State),
      SameRefs s (rerun_loop cfg exec fuel attempts s).state := by
  intro fuel
  induction fuel with
  | zero => intro attempts s; exact SameRefs.refl s
  | succ fuel ih =>
    intro attempts s
    rw [rerun_loop]
    by_cases h : not_equal cfg s = true
    · rw [if_pos h]
      have h1 := run_target_sameRefs cfg (exec (attempts + 1)) s
      cases hrt : run_target cfg (exec (attempts + 1)) s with
      | abort e s1 =>
        rw [hrt] at h1
        exact h1
      | ok v s1 =>
        rw [hrt] at h1
        simp only []
        by_cases h10 : attempts + 1 > 10
        · rw [if_pos h10]; exact h1
        · rw [if_neg h10]; exact SameRefs.trans h1 (ih _ _)
    · rw [if_neg h]
      exact SameRefs.refl s

theorem validate_cost_sameRefs (cfg : Config) (exec : Nat → Exec) (s : State) :
    SameRefs s (validate_cost cfg exec s).state := by
  unfold validate_cost
  split_ifs with h
  · have h1 := rerun_loop_sameRefs cfg exec 11 0 { s with log := s.log ++ [.not_equal_rerun] }
    split
    · rename_i e s1 heq
      rw [heq] at h1
      exact SameRefs.trans ⟨rfl, rfl, rfl, rfl⟩ h1
    · rename_i v s1 heq
      rw [heq] at h1
      split_ifs <;> exact SameRefs.trans ⟨rfl, rfl, rfl, rfl⟩ h1
  · exact SameRefs.refl s

theorem length_leBytes : ∀ (n x : Nat), (leBytes n x).length = n
  | 0, _ => rfl
  | n + 1, x => by rw [leBytes, List.length_cons, length_leBytes n]

theorem getD_take_nat (l : List Nat) (n p : Nat) (h : p < n) :
    (l.take n).getD p 0 = l.getD p 0 := by
  rw [List.getD_eq_getElem?_getD, List.getD_eq_getElem?_getD, List.getElem?_take, if_pos h]

theorem write_reply_fields_length (buff : List Nat) (cost : Int) (fb : Feedback) :
    (write_reply_fields buff cost fb).length = buff.length := by
  simp only [write_reply_fields, length_storeBytes, List.length_set]

theorem write_reply_fields_getD (buff : List Nat) (cost : Int) (fb : Feedback)
    (hl : 16 ≤ buff.length) (p : Nat) :
    (write_reply_fields buff cost fb).getD p 0 =
      if p < 4 then (leBytes 4 (toU32 cost)).getD p 0
      else if p = 4 then fb.hnm % 256
      else if 8 ≤ p ∧ p < 12 then (leBytes 4 (toU32 fb.hs)).getD (p - 8) 0
      else if 12 ≤ p ∧ p < 16 then (leBytes 4 fb.hnb).getD (p - 12) 0
      else buff.getD p 0 := by
  simp only [write_reply_fields, getD_storeBytes, getD_set_nat, length_storeBytes,
    List.length_set, length_leBytes]
  split_ifs <;> first | rfl | omega

theorem le32_leBytes (x : Nat) :
    leVal [(leBytes 4 x).getD 0 0, (leBytes 4 x).getD 1 0, (leBytes 4 x).getD 2 0,
      (leBytes 4 x).getD 3 0] = x % 2 ^ 32 := by
  simp only [leBytes, leVal, List.getD_cons_zero, List.getD_cons_succ]
  omega

theorem recv_getD (buff frame : List Nat) (p : Nat) (h1 : p < frame.length)
    (h2 : frame.length ≤ buff.length) : (storeBytes buff 0 frame).getD p 0 = frame.getD p 0 := by
  rw [getD_storeBytes, if_pos (by omega)]
  rfl

theorem run_type_wup_of_frame (buff frame : List Nat) (h1 : 20 ≤ frame.length)
    (h2 : frame.length ≤ buff.length) (hw : IsWarmupFrame frame) :
    run_type_not_wup (storeBytes buff 0 frame) = false := by
  obtain ⟨a, b, c, d⟩ := hw
  simp only [run_type_not_wup, recv_getD buff frame _ (show 16 < frame.length by omega) h2,
    recv_getD buff frame _ (show 17 < frame.length by omega) h2,
    recv_getD buff frame _ (show 18 < frame.length by omega) h2,
    recv_getD buff frame _ (show 19 < frame.length by omega) h2, a, b, c, d]
  rfl

/-- A request either ends the process on the execution path, or reaches the reply step;
either way the buffer still holds the received frame and the virgin map, the max counters
and the lookup table are those from before the request. -/
theorem handle_request_cases (cfg : Config) (req : Request) (s : State) :
    (SameRefs { s with buff := storeBytes s.buff 0 req.frame } (handle_request cfg req s).state ∧
      ∃ e, handle_request cfg req s = .abort e (handle_request cfg req s).state) ∨
    ∃ s4, SameRefs { s with buff := storeBytes s.buff 0 req.frame } s4 ∧
      handle_request cfg req s = reply_to_request cfg req s4 := by
  unfold handle_request
  simp only []
  have h1 := common_fuzz_stuff_sameRefs cfg (req.exec 0)
    (List.take (c_strlen (storeBytes s.buff 0 req.frame) 20)
      (List.drop 20 (storeBytes s.buff 0 req.frame)))
    { s with buff := storeBytes s.buff 0 req.frame }
  cases hc : common_fuzz_stuff cfg (req.exec 0)
    (List.take (c_strlen (storeBytes s.buff 0 req.frame) 20)
      (List.drop 20 (storeBytes s.buff 0 req.frame)))
    { s with buff := storeBytes s.buff 0 req.frame } with
  | abort e s2 =>
    rw [hc] at h1
    exact Or.inl ⟨h1, e, rfl⟩
  | ok r s2 =>
    rw [hc] at h1
    simp only []
    have h2 := validate_cost_sameRefs cfg req.exec
      (if (r != 0) = true then { s2 with log := s2.log ++ [.too_many_timeouts_or_skipped] }
        else s2)
    have h3 : SameRefs s2
        (if (r != 0) = true then { s2 with log := s2.log ++ [.too_many_timeouts_or_skipped] }
          else s2) := by
      split_ifs <;> exact ⟨rfl, rfl, rfl, rfl⟩
    cases hv : validate_cost cfg req.exec
      (if (r != 0) = true then { s2 with log := s2.log ++ [.too_many_timeouts_or_skipped] }
        else s2) with
    | abort e s4 =>
      rw [hv] at h2
      exact Or.inl ⟨SameRefs.trans h1 (SameRefs.trans h3 h2), e, rfl⟩
    | ok u s4 =>
      rw [hv] at h2
      exact Or.inr ⟨s4, SameRefs.trans h1 (SameRefs.trans h3 h2), rfl⟩

theorem reply_to_request_state (cfg : Config) (req : Request) (s : State) :
    (reply_to_request cfg req s).state = reply_state cfg s := by
  unfold reply_to_request
  simp only []
  split_ifs <;> rfl

theorem reply_to_request_ok (cfg : Config) (req : Request) (s : State) (reply : List Nat)
    (s1 : State) (h : reply_to_request cfg req s = .ok reply s1) :
    reply = (reply_state cfg s).buff.take req.frame.length ∧ s1 = reply_state cfg s := by
  unfold reply_to_request at h
  simp only [] at h
  split_ifs at h
  injection h with h1 h2
  exact ⟨h1.symm, h2.symm⟩

/-- On a warmup frame the feedback step changes nothing but the four fields of the buffer,
which receive the cost and zero feedback. -/
theorem reply_state_warmup (cfg : Config) (s : State)
    (hw : run_type_not_wup s.buff = false) :
    reply_state cfg s =
      { s with buff := write_reply_fields s.buff (toS32 (s.perf_bits.getD 0 0)) ⟨0, 0, 0⟩ } := by
  have hfb : collect_feedback cfg s = ({ hnb := 0, hnm := 0, hs := 0 }, s) := by
    rw [collect_feedback, hw]
    rfl
  rw [reply_state]
  simp only [hfb]

theorem le32_take (l : List Nat) (n off : Nat) (h : off + 4 ≤ n) :
    le32 (l.take n) off = le32 l off := by
  simp only [le32, getD_take_nat l n off (by omega), getD_take_nat l n (off + 1) (by omega),
    getD_take_nat l n (off + 2) (by omega), getD_take_nat l n (off + 3) (by omega)]

theorem reply_field_exec_cost (buff : List Nat) (cost : Int) (fb : Feedback)
    (hl : 16 ≤ buff.length) : le32 (write_reply_fields buff cost fb) 0 = toU32 cost % 2 ^ 32 := by
  simp only [le32, write_reply_fields_getD _ _ _ hl]
  norm_num
  exact le32_leBytes _

theorem reply_field_hs (buff : List Nat) (cost : Int) (fb : Feedback)
    (hl : 16 ≤ buff.length) : le32 (write_reply_fields buff cost fb) 8 = toU32 fb.hs % 2 ^ 32 := by
  simp only [le32, write_reply_fields_getD _ _ _ hl]
  norm_num
  exact le32_leBytes _

theorem reply_field_hnb (buff : List Nat) (cost : Int) (fb : Feedback)
    (hl : 16 ≤ buff.length) : le32 (write_reply_fields buff cost fb) 12 = fb.hnb % 2 ^ 32 := by
  simp only [le32, write_reply_fields_getD _ _ _ hl]
  norm_num
  exact le32_leBytes _

theorem reply_field_hnm (buff : List Nat) (cost : Int) (fb : Feedback)
    (hl : 16 ≤ buff.length) : (write_reply_fields buff cost fb).getD 4 0 = fb.hnm % 256 := by
  rw [write_reply_fields_getD _ _ _ hl]
  norm_num

theorem demoState_buff_length : demoState.buff.length = 1024 := List.length_replicate _ _

/-! ### The executor once the wait status has arrived -/

theorem run_target_of_status_arrives (cfg : Config) (ev : Exec) (s : State)
    (h : status_arrives cfg ev = true) :
    run_target cfg ev s = run_target_report cfg ev (state_at_status cfg ev s) := by
  unfold status_arrives at h
  unfold run_target state_at_status
  simp only []
  by_cases hm : (cfg.dumb_mode == 1 || cfg.no_forkserver) = true
  · rw [if_pos hm] at h
    rw [if_pos hm]
    simp only [Bool.and_eq_true, decide_eq_true_eq] at h
    have h1 : ¬ ev.child_pid < 0 := not_lt.2 h.1
    simp only [h1, h.2, if_false, Bool.not_true, Bool.false_eq_true]
  · rw [if_neg hm] at h
    rw [if_neg hm]
    simp only [Bool.and_eq_true, decide_eq_true_eq] at h
    obtain ⟨⟨⟨h1, h2⟩, h3⟩, h4⟩ := h
    have h5 : ¬ ev.child_pid ≤ 0 := not_le.2 h3
    simp only [h1, h2, h4, h5, if_false, Bool.not_true, Bool.false_eq_true]

theorem state_at_status_fields (cfg : Config) (ev : Exec) (s : State) :
    (state_at_status cfg ev s).stop_soon = (if ev.stop_signal then 1 else s.stop_soon) ∧
    (state_at_status cfg ev s).child_timed_out = (if ev.timed_out then 1 else 0) ∧
    (state_at_status cfg ev s).total_execs = s.total_execs ∧
    (state_at_status cfg ev s).trace_bits =
      (ev.child (List.replicate cfg.MAP_SIZE 0)
        (if cfg.max_ct_fuzzing then List.replicate cfg.PERF_SIZE 0 else s.perf_bits)).1 ∧
    (state_at_status cfg ev s).perf_bits =
      (ev.child (List.replicate cfg.MAP_SIZE 0)
        (if cfg.max_ct_fuzzing then List.replicate cfg.PERF_SIZE 0 else s.perf_bits)).2 := by
  unfold state_at_status child_runs
  simp only []
  split_ifs <;> exact ⟨rfl, rfl, rfl, rfl, rfl⟩

/-- The fault code `run_target` reports once the wait status has arrived, with the tests in
the order of the code. -/
theorem run_target_report_value (cfg : Config) (ev : Exec) (s : State) :
    (run_target_report cfg ev s).value =
      some (if (WIFSIGNALED ev.status && s.stop_soon == 0) = true then
          (if (s.child_timed_out != 0 && WTERMSIG ev.status == SIGKILL) = true then FAULT_TMOUT
            else FAULT_CRASH)
        else if (cfg.uses_asan && WEXITSTATUS ev.status == cfg.MSAN_ERROR) = true then
          FAULT_CRASH
        else if ((cfg.dumb_mode == 1 || cfg.no_forkserver) &&
            le32 s.trace_bits 0 == cfg.EXEC_FAIL_SIG) = true then FAULT_ERROR
        else FAULT_NONE) := by
  unfold run_target_report
  simp only []
  by_cases hw : WIFSTOPPED ev.status = true <;>
    by_cases hz : (cfg.max_ct_fuzzing && cfg.zero_other_counts) = true <;>
    simp only [hw, hz, if_true, if_false] <;>
    split_ifs <;> rfl

/-- Once the wait status has arrived `run_target` returns to its caller after counting
the execution; the counters are those the child left, or only the aggregate slot when
`zero_other_counts` is set. -/
theorem run_target_report_state (cfg : Config) (ev : Exec) (s : State) :
    (run_target_report cfg ev s).aborted = none ∧
    (run_target_report cfg ev s).state.total_execs = s.total_execs + 1 ∧
    (run_target_report cfg ev s).state.stop_soon = s.stop_soon ∧
    (run_target_report cfg ev s).state.skip_requested = s.skip_requested ∧
    (run_target_report cfg ev s).state.subseq_tmouts = s.subseq_tmouts ∧
    (run_target_report cfg ev s).state.log = s.log ∧
    (run_target_report cfg ev s).state.testcase = s.testcase ∧
    (run_target_report cfg ev s).state.perf_bits =
      (if (cfg.max_ct_fuzzing && cfg.zero_other_counts) = true then
        s.perf_bits.take 1 ++ List.replicate (cfg.PERF_SIZE - 1) 0 else s.perf_bits) := by
  unfold run_target_report
  simp only []
  by_cases hw : WIFSTOPPED ev.status = true <;>
    by_cases hz : (cfg.max_ct_fuzzing && cfg.zero_other_counts) = true <;>
    simp only [hw, hz, if_true, if_false] <;>
    split_ifs <;> exact ⟨rfl, rfl, rfl, rfl, rfl, rfl, rfl, rfl⟩

theorem Res.eq_ok_of_aborted_none {α : Type} (r : Res α) (h : r.aborted = none) :
    ∃ v, r = .ok v r.state := by
  cases r with
  | ok v st => exact ⟨v, rfl⟩
  | abort e st => exact Option.noConfusion h

theorem Res.value_of_eq_ok {α : Type} (r : Res α) (v : α) (st : State) (h : r = .ok v st) :
    r.value = some v := by
  rw [h]
  rfl

/-! ### The validation of the cost -/

theorem toS32_mod (n : Nat) : toS32 (n % 2 ^ 32) = toS32 n := by
  unfold toS32
  rw [Nat.mod_mod]

theorem toU32_toS32_mod (n : Nat) : toU32 (toS32 n) = n % 2 ^ 32 := by
  rw [← toS32_mod, toU32_toS32 _ (Nat.mod_lt _ (by norm_num))]

theorem toS32_inj (a b : Nat) (h : toS32 a = toS32 b) : a % 2 ^ 32 = b % 2 ^ 32 := by
  have := congrArg toU32 h
  rw [toU32_toS32_mod, toU32_toS32_mod] at this
  exact this

/-- The `int` accumulated by the summing loop is the exact sum reduced modulo `2^32` and read
as a signed number. -/
theorem perf_sum_loop_eq (P : List Nat) :
    ∀ (n i a : Nat), perf_sum_loop P n i (toS32 a) = toS32 (a + counter_sum P n i) := by
  intro n
  induction n with
  | zero => intro i a; rfl
  | succ n ih =>
    intro i a
    rw [perf_sum_loop, toU32_toS32_mod, ← toS32_mod (a % 2 ^ 32 + P.getD i 0), Nat.mod_add_mod,
      toS32_mod, ih, counter_sum, Nat.add_assoc]

theorem not_equal_eq_false_iff (cfg : Config) (s : State) :
    not_equal cfg s = false ↔
      counter_sum s.perf_bits (cfg.PERF_SIZE - 1) 1 % 2 ^ 32 = s.perf_bits.getD 0 0 % 2 ^ 32 := by
  have e0 : (0 : Int) = toS32 0 := by decide
  unfold not_equal
  rw [e0, perf_sum_loop_eq, Nat.zero_add]
  constructor
  · intro h
    apply toS32_inj
    simpa using h
  · intro h
    rw [← toS32_mod, h, toS32_mod]
    simp

/-- The 11 passes that `validate_cost` allows are never used up: with more fuel the loop
behaves the same. -/
theorem rerun_loop_fuel (cfg : Config) (exec : Nat → Exec) :
    ∀ (fuel attempts : Nat) (s : State), attempts ≤ 10 → 11 ≤ attempts + fuel →
      rerun_loop cfg exec (fuel + 1) attempts s = rerun_loop cfg exec fuel attempts s := by
  intro fuel
  induction fuel with
  | zero => intro attempts s h1 h2; omega
  | succ fuel ih =>
    intro attempts s h1 h2
    rw [rerun_loop, rerun_loop.eq_def cfg exec (fuel + 1)]
    simp only []
    by_cases hne : not_equal cfg s = true
    · rw [if_pos hne, if_pos hne]
      cases hrt : run_target cfg (exec (attempts + 1)) s with
      | abort e s1 => rfl
      | ok v s1 =>
        simp only []
        by_cases h10 : attempts + 1 > 10
        · rw [if_pos h10, if_pos h10]
        · rw [if_neg h10, if_neg h10]
          exact ih (attempts + 1) s1 (by omega) (by omega)
    · rw [if_neg hne, if_neg hne]

theorem rerun_loop_fuel_ge (cfg : Config) (exec : Nat → Exec) (s : State) :
    ∀ n, rerun_loop cfg exec (11 + n) 0 s = rerun_loop cfg exec 11 0 s := by
  intro n
  induction n with
  | zero => rfl
  | succ n ih =>
    rw [← ih]
    exact rerun_loop_fuel cfg exec (11 + n) 0 s (by omega) (by omega)

theorem not_equal_congr (cfg : Config) (s s1 : State) (h : s1.perf_bits = s.perf_bits) :
    not_equal cfg s1 = not_equal cfg s := by
  unfold not_equal
  rw [h]

/-- What `common_fuzz_stuff` leaves alone after the run. -/
theorem common_fuzz_stuff_after_run_fields (cfg : Config) (fault : Nat) (s : State) :
    (common_fuzz_stuff_after_run cfg fault s).state.perf_bits = s.perf_bits ∧
    (common_fuzz_stuff_after_run cfg fault s).state.trace_bits = s.trace_bits ∧
    (common_fuzz_stuff_after_run cfg fault s).state.total_execs = s.total_execs ∧
    (common_fuzz_stuff_after_run cfg fault s).state.testcase = s.testcase ∧
    (common_fuzz_stuff_after_run cfg fault s).state.stop_soon = s.stop_soon := by
  unfold common_fuzz_stuff_after_run
  simp only []
  split_ifs <;> exact ⟨rfl, rfl, rfl, rfl, rfl⟩

theorem common_fuzz_stuff_after_run_no_abort (cfg : Config) (fault : Nat) (s : State)
    (h : fault ≠ FAULT_ERROR) : (common_fuzz_stuff_after_run cfg fault s).aborted = none := by
  unfold common_fuzz_stuff_after_run
  simp only []
  have hf : (fault == FAULT_ERROR) = false := by simpa using h
  split_ifs <;> first | rfl | simp_all

/-- In the run of a request all of whose executions reach the wait status and leave
inconsistent counters, the loop re-executes the target 11 times and returns with
`attempts == 11`. -/
theorem rerun_loop_all_inconsistent (cfg : Config) (exec : Nat → Exec)
    (harr : ∀ k, status_arrives cfg (exec k) = true)
    (hbad : ∀ k s1, not_equal cfg (run_target cfg (exec k) s1).state = true) :
    ∀ (fuel attempts : Nat) (s : State), attempts + fuel = 11 → not_equal cfg s = true →
      ∃ s1, rerun_loop cfg exec fuel attempts s = .ok 11 s1 ∧
        s1.total_execs = s.total_execs + fuel ∧ not_equal cfg s1 = true := by
  intro fuel
  induction fuel with
  | zero =>
    intro attempts s h1 h2
    have : attempts = 11 := by omega
    subst this
    exact ⟨s, rfl, rfl, h2⟩
  | succ fuel ih =>
    intro attempts s h1 h2
    rw [rerun_loop, if_pos h2]
    have hb := hbad (attempts + 1) s
    have hrt := run_target_of_status_arrives cfg (exec (attempts + 1)) s (harr _)
    obtain ⟨a1, a2, -⟩ := run_target_report_state cfg (exec (attempts + 1))
      (state_at_status cfg (exec (attempts + 1)) s)
    rw [← hrt] at a1 a2
    rw [(state_at_status_fields cfg (exec (attempts + 1)) s).2.2.1] at a2
    obtain ⟨v, hv⟩ := Res.eq_ok_of_aborted_none _ a1
    rw [hv]
    simp only []
    by_cases h10 : attempts + 1 > 10
    · rw [if_pos h10]
      have h11 : attempts + 1 = 11 := by omega
      refine ⟨_, by rw [h11], ?_, hb⟩
      rw [a2]
      omega
    · rw [if_neg h10]
      obtain ⟨s1, e1, e2, e3⟩ := ih (attempts + 1) _ (by omega) hb
      exact ⟨s1, e1, by rw [e2, a2]; omega, e3⟩

theorem validate_cost_all_inconsistent (cfg : Config) (exec : Nat → Exec)
    (harr : ∀ k, status_arrives cfg (exec k) = true)
    (hbad : ∀ k s1, not_equal cfg (run_target cfg (exec k) s1).state = true)
    (s : State) (hs : not_equal cfg s = true) :
    ∃ s1, validate_cost cfg exec s = .abort (.not_equal 12) s1 ∧
      s1.total_execs = s.total_execs + 11 := by
  obtain ⟨s1, e1, e2, e3⟩ := rerun_loop_all_inconsistent cfg exec harr hbad 11 0
    { s with log := s.log ++ [.not_equal_rerun] } rfl
    ((not_equal_congr cfg s _ rfl).trans hs)
  refine ⟨s1, ?_, e2⟩
  rw [validate_cost, if_pos hs, e1]
  simp only []
  rw [if_pos e3]

/-! ### The first run of a request -/

theorem handle_request_eq (cfg : Config) (req : Request) (s : State) :
    handle_request cfg req s =
      match common_fuzz_stuff cfg (req.exec 0) (request_input (recv_state s req.frame).buff)
          (recv_state s req.frame) with
      | .abort e s2 => .abort e s2
      | .ok r s2 =>
        match validate_cost cfg req.exec
            (if r != 0 then { s2 with log := s2.log ++ [.too_many_timeouts_or_skipped] }
              else s2) with
        | .abort e s4 => .abort e s4
        | .ok _ s4 => reply_to_request cfg req s4 := rfl

theorem common_fuzz_stuff_no_post (cfg : Config) (ev : Exec) (buf : List Nat) (s : State)
    (h : cfg.post_handler = none) :
    common_fuzz_stuff cfg ev buf s =
      match run_target cfg ev (write_to_testcase buf s) with
      | .abort e s1 => .abort e s1
      | .ok fault s1 => common_fuzz_stuff_after_run cfg fault s1 := by
  unfold common_fuzz_stuff
  simp only [h]

/-- With the fork server in use `run_target` never reports `FAULT_ERROR`. -/
theorem run_target_report_ne_error (cfg : Config) (ev : Exec) (s : State)
    (hmode : (cfg.dumb_mode == 1 || cfg.no_forkserver) = false) :
    (run_target_report cfg ev s).value ≠ some FAULT_ERROR := by
  rw [run_target_report_value, hmode]
  simp only [Bool.false_and, Bool.false_eq_true, if_false]
  split_ifs <;> decide

theorem handle_request_all_inconsistent (cfg : Config) (req : Request) (s : State)
    (hmode : (cfg.dumb_mode == 1 || cfg.no_forkserver) = false)
    (hpost : cfg.post_handler = none)
    (harr : ∀ k, status_arrives cfg (req.exec k) = true)
    (hbad : ∀ k s1, not_equal cfg (run_target cfg (req.exec k) s1).state = true) :
    (handle_request cfg req s).aborted = some (.not_equal 12) ∧
    (handle_request cfg req s).state.total_execs = s.total_execs + 12 := by
  rw [handle_request_eq, common_fuzz_stuff_no_post _ _ _ _ hpost]
  have hb := hbad 0 (write_to_testcase (request_input (recv_state s req.frame).buff)
    (recv_state s req.frame))
  have hrt := run_target_of_status_arrives cfg (req.exec 0)
    (write_to_testcase (request_input (recv_state s req.frame).buff) (recv_state s req.frame))
    (harr 0)
  obtain ⟨a1, a2, -⟩ := run_target_report_state cfg (req.exec 0)
    (state_at_status cfg (req.exec 0)
      (write_to_testcase (request_input (recv_state s req.frame).buff) (recv_state s req.frame)))
  have a3 := run_target_report_ne_error cfg (req.exec 0)
    (state_at_status cfg (req.exec 0)
      (write_to_testcase (request_input (recv_state s req.frame).buff) (recv_state s req.frame)))
    hmode
  rw [← hrt] at a1 a2 a3
  rw [(state_at_status_fields cfg (req.exec 0) _).2.2.1] at a2
  obtain ⟨fault, hv⟩ := Res.eq_ok_of_aborted_none _ a1
  generalize (run_target cfg (req.exec 0)
    (write_to_testcase (request_input (recv_state s req.frame).buff)
      (recv_state s req.frame))).state = s2 at hv hb a2
  rw [hv] at a3 ⊢
  simp only []
  have hf : fault ≠ FAULT_ERROR := fun h => a3 (by rw [h]; rfl)
  obtain ⟨r, hr⟩ := Res.eq_ok_of_aborted_none _
    (common_fuzz_stuff_after_run_no_abort cfg fault s2 hf)
  obtain ⟨f1, -, f3, -, -⟩ := common_fuzz_stuff_after_run_fields cfg fault s2
  generalize (common_fuzz_stuff_after_run cfg fault s2).state = s3 at hr f1 f3
  rw [hr]
  simp only []
  have hs3 : not_equal cfg
      (if (r != 0) = true then { s3 with log := s3.log ++ [.too_many_timeouts_or_skipped] }
        else s3) = true := by
    rw [not_equal_congr cfg s2 _ (by split_ifs <;> exact f1)]
    exact hb
  obtain ⟨s4, e1, e2⟩ := validate_cost_all_inconsistent cfg req.exec harr hbad _ hs3
  rw [e1]
  refine ⟨rfl, ?_⟩
  show s4.total_execs = _
  rw [e2]
  have : (if (r != 0) = true then
      { s3 with log := s3.log ++ [LogMsg.too_many_timeouts_or_skipped] } else s3).total_execs =
      s3.total_execs := by
    split_ifs <;> rfl
  rw [this, f3, a2]
  rfl

theorem run_target_perf_bits (cfg : Config) (ev : Exec) (s : State)
    (h : status_arrives cfg ev = true) (hz : cfg.zero_other_counts = false) :
    (run_target cfg ev s).state.perf_bits =
      (ev.child (List.replicate cfg.MAP_SIZE 0)
        (if cfg.max_ct_fuzzing then List.replicate cfg.PERF_SIZE 0 else s.perf_bits)).2 := by
  rw [run_target_of_status_arrives cfg ev s h,
    (run_target_report_state cfg ev (state_at_status cfg ev s)).2.2.2.2.2.2.2, hz,
    Bool.and_false, if_neg (by decide), (state_at_status_fields cfg ev s).2.2.2.2]

theorem validate_cost_ok (cfg : Config) (exec : Nat → Exec) (s s4 : State) (u : Unit)
    (h : validate_cost cfg exec s = .ok u s4) : not_equal cfg s4 = false := by
  unfold validate_cost at h
  by_cases hne : not_equal cfg s = true
  · rw [if_pos hne] at h
    cases hr : rerun_loop cfg exec 11 0 { s with log := s.log ++ [.not_equal_rerun] } with
    | abort e s1 =>
      rw [hr] at h
      exact Res.noConfusion h
    | ok attempts s1 =>
      rw [hr] at h
      simp only [] at h
      by_cases h2 : not_equal cfg s1 = true
      · rw [if_pos h2] at h
        exact Res.noConfusion h
      · rw [if_neg h2] at h
        injection h with h3 h4
        rw [← h4]
        simpa using h2
  · rw [if_neg hne] at h
    injection h with h3 h4
    rw [← h4]
    simpa using hne

/-- An answered request went through the three stages: first run, validated cost, reply. -/
theorem handle_request_ok (cfg : Config) (req : Request) (s : State) (reply : List Nat)
    (s1 : State) (h : handle_request cfg req s = .ok reply s1) :
    ∃ r s2 s4,
      common_fuzz_stuff cfg (req.exec 0) (request_input (recv_state s req.frame).buff)
        (recv_state s req.frame) = .ok r s2 ∧
      validate_cost cfg req.exec
        (if r != 0 then { s2 with log := s2.log ++ [.too_many_timeouts_or_skipped] }
          else s2) = .ok () s4 ∧
      reply_to_request cfg req s4 = .ok reply s1 := by
  rw [handle_request_eq] at h
  cases hc : common_fuzz_stuff cfg (req.exec 0) (request_input (recv_state s req.frame).buff)
      (recv_state s req.frame) with
  | abort e s2 =>
    rw [hc] at h
    exact Res.noConfusion h
  | ok r s2 =>
    rw [hc] at h
    simp only [] at h
    cases hv : validate_cost cfg req.exec
        (if r != 0 then { s2 with log := s2.log ++ [.too_many_timeouts_or_skipped] }
          else s2) with
    | abort e s4 =>
      rw [hv] at h
      exact Res.noConfusion h
    | ok u s4 =>
      rw [hv] at h
      exact ⟨r, s2, s4, rfl, hv, h⟩

/-- What the feedback step leaves alone. -/
theorem collect_feedback_fields (cfg : Config) (s : State) :
    (collect_feedback cfg s).2.perf_bits = s.perf_bits ∧
    (collect_feedback cfg s).2.trace_bits = s.trace_bits ∧
    (collect_feedback cfg s).2.buff = s.buff ∧
    (collect_feedback cfg s).2.testcase = s.testcase ∧
    (collect_feedback cfg s).2.total_execs = s.total_execs := by
  unfold collect_feedback
  split_ifs <;> exact ⟨rfl, rfl, rfl, rfl, rfl⟩

theorem reply_state_fields (cfg : Config) (s : State) :
    (reply_state cfg s).perf_bits = s.perf_bits ∧
    (reply_state cfg s).trace_bits = s.trace_bits ∧
    (reply_state cfg s).testcase = s.testcase ∧
    (reply_state cfg s).virgin_bits = (collect_feedback cfg s).2.virgin_bits ∧
    (reply_state cfg s).max_counts = (collect_feedback cfg s).2.max_counts ∧
    (reply_state cfg s).buff =
      write_reply_fields s.buff (toS32 (s.perf_bits.getD 0 0)) (collect_feedback cfg s).1 := by
  obtain ⟨a, b, c, d, -⟩ := collect_feedback_fields cfg s
  unfold reply_state
  simp only [a, b, c, d, and_self]

/-! ### The test case of a request -/

theorem run_target_report_testcase (cfg : Config) (ev : Exec) (s : State) :
    (run_target_report cfg ev s).state.testcase = s.testcase :=
  (run_target_report_state cfg ev s).2.2.2.2.2.2.1

theorem run_target_testcase (cfg : Config) (ev : Exec) (s : State) :
    (run_target cfg ev s).state.testcase = s.testcase := by
  unfold run_target
  simp only []
  split_ifs <;>
    first
    | rfl
    | exact (run_target_report_testcase _ _ _).trans rfl

theorem rerun_loop_testcase (cfg : Config) (exec : Nat → Exec) :
    ∀ (fuel attempts : Nat) (s : State),
      (rerun_loop cfg exec fuel attempts s).state.testcase = s.testcase := by
  intro fuel
  induction fuel with
  | zero => intro attempts s; rfl
  | succ fuel ih =>
    intro attempts s
    rw [rerun_loop]
    by_cases h : not_equal cfg s = true
    · rw [if_pos h]
      have h1 := run_target_testcase cfg (exec (attempts + 1)) s
      cases hrt : run_target cfg (exec (attempts + 1)) s with
      | abort e s1 =>
        rw [hrt] at h1
        exact h1
      | ok v s1 =>
        rw [hrt] at h1
        simp only []
        by_cases h10 : attempts + 1 > 10
        · rw [if_pos h10]; exact h1
        · rw [if_neg h10]; exact (ih _ _).trans h1
    · rw [if_neg h]
      rfl

theorem validate_cost_testcase (cfg : Config) (exec : Nat → Exec) (s : State) :
    (validate_cost cfg exec s).state.testcase = s.testcase := by
  unfold validate_cost
  by_cases h : not_equal cfg s = true
  · rw [if_pos h]
    have h1 := rerun_loop_testcase cfg exec 11 0 { s with log := s.log ++ [.not_equal_rerun] }
    cases hr : rerun_loop cfg exec 11 0 { s with log := s.log ++ [.not_equal_rerun] } with
    | abort e s1 =>
      rw [hr] at h1
      exact h1
    | ok v s1 =>
      rw [hr] at h1
      simp only []
      split_ifs <;> exact h1
  · rw [if_neg h]
    rfl

/-- Without a post-processing library, the test case file holds from the first run of a
request to its end the bytes copied out of the request buffer. -/
theorem handle_request_testcase (cfg : Config) (req : Request) (s : State)
    (hpost : cfg.post_handler = none) :
    (handle_request cfg req s).state.testcase =
      request_input (recv_state s req.frame).buff := by
  rw [handle_request_eq, common_fuzz_stuff_no_post _ _ _ _ hpost]
  have h1 := run_target_testcase cfg (req.exec 0)
    (write_to_testcase (request_input (recv_state s req.frame).buff) (recv_state s req.frame))
  cases hrt : run_target cfg (req.exec 0)
      (write_to_testcase (request_input (recv_state s req.frame).buff)
        (recv_state s req.frame)) with
  | abort e s1 =>
    rw [hrt] at h1
    exact h1
  | ok fault s1 =>
    rw [hrt] at h1
    simp only []
    have h2 := (common_fuzz_stuff_after_run_fields cfg fault s1).2.2.2.1
    cases ha : common_fuzz_stuff_after_run cfg fault s1 with
    | abort e s2 =>
      rw [ha] at h2
      exact h2.trans h1
    | ok r s2 =>
      rw [ha] at h2
      simp only []
      have h3 := validate_cost_testcase cfg req.exec
        (if (r != 0) = true then { s2 with log := s2.log ++ [.too_many_timeouts_or_skipped] }
          else s2)
      have h4 : (if (r != 0) = true then
          { s2 with log := s2.log ++ [LogMsg.too_many_timeouts_or_skipped] }
          else s2).testcase = s2.testcase := by
        split_ifs <;> rfl
      cases hv : validate_cost cfg req.exec
        (if (r != 0) = true then { s2 with log := s2.log ++ [.too_many_timeouts_or_skipped] }
          else s2) with
      | abort e s4 =>
        rw [hv] at h3
        exact h3.trans (h4.trans (h2.trans h1))
      | ok u s4 =>
        rw [hv] at h3
        simp only []
        rw [reply_to_request_state, (reply_state_fields cfg s4).2.2.1]
        exact h3.trans (h4.trans (h2.trans h1))

/-! ### The input copied out of the request buffer -/

theorem list_ext_getD (l1 l2 : List Nat) (hl : l1.length = l2.length)
    (h : ∀ p, l1.getD p 0 = l2.getD p 0) : l1 = l2 := by
  apply List.ext_getElem hl
  intro i h1 h2
  have := h i
  rw [getD_of_lt l1 i h1, getD_of_lt l2 i h2] at this
  exact this

/-- The function `read()` overwrites the first `nread` bytes of the buffer and leaves the
rest. -/
theorem storeBytes_zero_eq (buff frame : List Nat) (h : frame.length ≤ buff.length) :
    storeBytes buff 0 frame = frame ++ buff.drop frame.length := by
  apply list_ext_getD
  · rw [length_storeBytes, List.length_append, List.length_drop]
    omega
  · intro p
    rw [getD_storeBytes]
    simp only [List.getD_eq_getElem?_getD]
    by_cases hp : p < frame.length
    · rw [if_pos (by omega), List.getElem?_append_left hp]
      rfl
    · rw [if_neg (by omega), List.getElem?_append_right (by omega), List.getElem?_drop]
      congr 2
      omega

theorem take_length_takeWhile (p : Nat → Bool) :
    ∀ l : List Nat, l.take (l.takeWhile p).length = l.takeWhile p
  | [] => rfl
  | a :: l => by
    by_cases h : p a = true
    · rw [List.takeWhile_cons_of_pos h, List.length_cons, List.take_succ_cons,
        take_length_takeWhile p l]
    · rw [List.takeWhile_cons_of_neg h]
      rfl

theorem request_input_eq (buff : List Nat) :
    request_input buff = (buff.drop 20).takeWhile (fun b => b != 0) := by
  unfold request_input c_strlen
  exact take_length_takeWhile _ _

theorem takeWhile_append_of_not_mem (l1 l2 : List Nat) (h : 0 ∉ l1) :
    (l1 ++ l2).takeWhile (fun b => b != 0) = l1 ++ l2.takeWhile (fun b => b != 0) := by
  induction l1 with
  | nil => rfl
  | cons a l ih =>
    have ha : a ≠ 0 := fun e => h (by rw [e]; exact List.mem_cons_self _ _)
    have e : ∀ t : List Nat, (a :: t).takeWhile (fun b => b != 0) =
        a :: t.takeWhile (fun b => b != 0) := fun t => by simp [List.takeWhile_cons, ha]
    rw [List.cons_append, e, List.cons_append,
      ih (fun hm => h (List.mem_cons_of_mem _ hm))]

/-- The input `main` runs for a frame: the frame's bytes from offset 20 followed by the
bytes the buffer held beyond the frame, up to the first zero byte. -/
theorem request_input_recv (s : State) (frame : List Nat) (h20 : 20 ≤ frame.length)
    (hb : frame.length ≤ s.buff.length) :
    request_input (recv_state s frame).buff =
      (frame.drop 20 ++ s.buff.drop frame.length).takeWhile (fun b => b != 0) := by
  rw [request_input_eq]
  show List.takeWhile _ (List.drop 20 (storeBytes s.buff 0 frame)) = _
  rw [storeBytes_zero_eq _ _ hb, List.drop_append_of_le_length h20]

theorem takeWhile_nil_of_head_zero (l : List Nat) (h : l.getD 0 0 = 0) :
    l.takeWhile (fun b => b != 0) = [] := by
  cases l with
  | nil => rfl
  | cons a t =>
    have ha : a = 0 := h
    subst ha
    rfl

theorem getD_drop_zero (l : List Nat) (n : Nat) : (l.drop n).getD 0 0 = l.getD n 0 := by
  simp only [List.getD_eq_getElem?_getD, List.getElem?_drop, Nat.add_zero]

theorem has_new_bits_loop_le (cur : List Nat) :
    ∀ (i w : Nat) (vir : List Nat) (ret : Nat), ret ≤ 2 →
      (has_new_bits_loop cur i w vir ret).1 ≤ 2 := by
  intro i
  induction i with
  | zero => intro w vir ret h; exact h
  | succ i ih =>
    intro w vir ret h
    rw [has_new_bits_loop]
    simp only []
    split_ifs
    all_goals apply ih
    all_goals omega

theorem has_new_bits_le (M : Nat) (C V : List Nat) : (has_new_bits M C V).1 ≤ 2 :=
  has_new_bits_loop_le C _ 0 V 0 (by omega)

theorem run_type_not_wup_of_frame (buff frame : List Nat) (h1 : 20 ≤ frame.length)
    (h2 : frame.length ≤ buff.length) (hw : IsActualFrame frame) :
    run_type_not_wup (storeBytes buff 0 frame) = true := by
  by_contra hc
  apply hw
  simp only [run_type_not_wup, recv_getD buff frame _ (show 16 < frame.length by omega) h2,
    recv_getD buff frame _ (show 17 < frame.length by omega) h2,
    recv_getD buff frame _ (show 18 < frame.length by omega) h2,
    recv_getD buff frame _ (show 19 < frame.length by omega) h2] at hc
  simp only [Bool.not_eq_true', Bool.not_eq_false, Bool.and_eq_true, beq_iff_eq,
    Bool.not_eq_true] at hc
  exact ⟨hc.1.1.1, hc.1.1.2, hc.1.2, hc.2⟩

/-- An answered request: the state the reply is computed from holds the received frame in
its buffer and the virgin map and max counters from before the request; the reply is the
first `nread` bytes of the buffer after the four fields are written. -/
theorem handle_request_reply (cfg : Config) (req : Request) (s : State) (reply : List Nat)
    (s1 : State) (h : handle_request cfg req s = .ok reply s1) :
    ∃ s4, s4.buff = storeBytes s.buff 0 req.frame ∧ s4.virgin_bits = s.virgin_bits ∧
      s4.max_counts = s.max_counts ∧ s1 = reply_state cfg s4 ∧
      reply = (write_reply_fields s4.buff (toS32 (s4.perf_bits.getD 0 0))
        (collect_feedback cfg s4).1).take req.frame.length := by
  rcases handle_request_cases cfg req s with ⟨-, e, he⟩ | ⟨s4, hs, heq⟩
  · rw [h] at he
    exact Res.noConfusion he
  · rw [heq] at h
    obtain ⟨hr, hs1⟩ := reply_to_request_ok cfg req s4 reply s1 h
    rw [(reply_state_fields cfg s4).2.2.2.2.2] at hr
    exact ⟨s4, hs.1, hs.2.1, hs.2.2.1, hs1, hr⟩

theorem collect_feedback_actual (cfg : Config) (s : State)
    (h : run_type_not_wup s.buff = true) :
    (collect_feedback cfg s).1 =
      { hnb := (has_new_bits cfg.MAP_SIZE s.trace_bits s.virgin_bits).1,
        hnm := (has_new_max cfg.PERF_SIZE s.perf_bits s.max_counts).1,
        hs := hotspot_count cfg.PERF_SIZE s.perf_bits } ∧
    (collect_feedback cfg s).2.virgin_bits =
      (has_new_bits cfg.MAP_SIZE s.trace_bits s.virgin_bits).2 ∧
    (collect_feedback cfg s).2.max_counts =
      (has_new_max cfg.PERF_SIZE s.perf_bits s.max_counts).2 := by
  unfold collect_feedback
  rw [if_pos h]
  exact ⟨rfl, rfl, rfl⟩

theorem toU32_lt (x : Int) : toU32 x < 2 ^ 32 := by
  unfold toU32
  omega

theorem run_target_value (cfg : Config) (ev : Exec) (s : State)
    (h : status_arrives cfg ev = true) :
    (run_target cfg ev s).value =
      some (if (WIFSIGNALED ev.status &&
            (if ev.stop_signal then 1 else s.stop_soon) == 0) = true then
          (if ((if ev.timed_out then 1 else 0) != 0 && WTERMSIG ev.status == SIGKILL) = true
            then FAULT_TMOUT else FAULT_CRASH)
        else if (cfg.uses_asan && WEXITSTATUS ev.status == cfg.MSAN_ERROR) = true then
          FAULT_CRASH
        else if ((cfg.dumb_mode == 1 || cfg.no_forkserver) &&
            le32 (raw_trace cfg ev s) 0 == cfg.EXEC_FAIL_SIG) = true then FAULT_ERROR
        else FAULT_NONE) := by
  obtain ⟨a, b, -, d, -⟩ := state_at_status_fields cfg ev s
  rw [run_target_of_status_arrives cfg ev s h, run_target_report_value, a, b, d]
  rfl

/-- After a run reported as timeout or crash `common_fuzz_stuff` returns to `main`, and
between the two of them one warning is logged: the line of the fault when 0 is returned,
the line on too many timeouts or a skipped input when 1 is returned. -/
theorem common_fuzz_stuff_after_run_logged (cfg : Config) (fault : Nat) (s : State)
    (hf : fault = FAULT_TMOUT ∨ fault = FAULT_CRASH) :
    ∃ r s3, common_fuzz_stuff_after_run cfg fault s = .ok r s3 ∧
      (if (r != 0) = true then { s3 with log := s3.log ++ [.too_many_timeouts_or_skipped] }
        else s3).log =
        s.log ++ [if r = 0 then (if fault = FAULT_TMOUT then LogMsg.fault_tmout
          else LogMsg.fault_crash) else LogMsg.too_many_timeouts_or_skipped] := by
  unfold common_fuzz_stuff_after_run
  simp only []
  rcases hf with hf | hf <;> subst hf <;> split_ifs <;>
    first
    | exact ⟨1, _, rfl, rfl⟩
    | exact ⟨0, _, rfl, rfl⟩
    | (exfalso; simp_all [FAULT_TMOUT, FAULT_CRASH, FAULT_ERROR])

theorem common_fuzz_stuff_after_run_error (cfg : Config) (s : State)
    (hstop : s.stop_soon = 0) (hskip : s.skip_requested = 0) :
    common_fuzz_stuff_after_run cfg FAULT_ERROR s =
      .abort .fault_error { s with subseq_tmouts := 0 } := by
  unfold common_fuzz_stuff_after_run
  simp [hstop, hskip, FAULT_ERROR, FAULT_TMOUT, FAULT_CRASH]

theorem validate_cost_of_consistent (cfg : Config) (exec : Nat → Exec) (s : State)
    (h : not_equal cfg s = false) : validate_cost cfg exec s = .ok () s := by
  unfold validate_cost
  rw [h]
  rfl

/-! ### The feedback step applied again -/

theorem isBytes_of_getD {l : List Nat} (h : ∀ p, l.getD p 0 < 256) : IsBytes l := by
  intro b hb
  obtain ⟨i, hi, rfl⟩ := List.getElem_of_mem hb
  have := h i
  rw [getD_of_lt l i hi] at this
  exact this

/-- The virgin map `has_new_bits` leaves, byte by byte, with the bounds that make a second
call see no common bit. -/
theorem has_new_bits_virgin_getD (M : Nat) (C V : List Nat) (hC : IsBytes C) (hV : IsBytes V) :
    (has_new_bits M C V).2.length = V.length ∧ IsBytes (has_new_bits M C V).2 ∧
    ∀ p, p < 8 * (M >>> 3) → C.getD p 0 &&& (has_new_bits M C V).2.getD p 0 = 0 := by
  obtain ⟨hl, hp⟩ := has_new_bits_loop_virgin hC (M >>> 3) 0 V 0 hV
  refine ⟨hl, ?_, fun p hlt => ?_⟩
  · apply isBytes_of_getD
    intro p
    rw [has_new_bits, hp p]
    split_ifs
    · exact Nat.lt_of_le_of_lt Nat.and_le_left (hV.getD_lt p)
    · exact hV.getD_lt p
  · rw [has_new_bits, hp p, if_pos (by omega), Nat.and_comm]
    exact land_compl_self _ _ (hC.getD_lt p)

/-- A second call of `has_new_bits` on the same trace returns 0 and leaves the virgin map
as the first call left it. -/
theorem has_new_bits_again (M : Nat) (C V : List Nat) (hC : IsBytes C) (hV : IsBytes V) :
    (has_new_bits M C (has_new_bits M C V).2).1 = 0 ∧
    (has_new_bits M C (has_new_bits M C V).2).2 = (has_new_bits M C V).2 := by
  obtain ⟨-, hb, hd⟩ := has_new_bits_virgin_getD M C V hC hV
  generalize (has_new_bits M C V).2 = V1 at hb hd
  obtain ⟨-, -, -, a4⟩ := has_new_bits_loop_ret hC (M >>> 3) 0 V1 0 hb
  obtain ⟨hl, hp⟩ := has_new_bits_loop_virgin hC (M >>> 3) 0 V1 0 hb
  constructor
  · apply a4 rfl
    rintro ⟨p, -, h2, -, h4⟩
    exact h4 (hd p (by omega))
  · apply list_ext_getD _ _ hl
    intro p
    rw [hp p]
    by_cases hlt : p < 8 * (M >>> 3)
    · rw [if_pos (by omega)]
      exact land_compl_of_disjoint _ _ (hC.getD_lt p) (hb.getD_lt p) (hd p hlt)
    · rw [if_neg (by omega)]

/-- A second call of `has_new_max` on the same counters returns 0 and leaves the max
counters as the first call left them. -/
theorem has_new_max_again (K : Nat) (P MAX : List Nat) (hK : K ≤ MAX.length) :
    (has_new_max K P (has_new_max K P MAX).2).1 = 0 ∧
    (has_new_max K P (has_new_max K P MAX).2).2 = (has_new_max K P MAX).2 := by
  obtain ⟨l1, g1, -, -⟩ := has_new_max_loop_spec P (K - 1) 1 MAX 0
  have hge : ∀ p, 1 ≤ p → p < 1 + (K - 1) →
      P.getD p 0 ≤ (has_new_max K P MAX).2.getD p 0 := by
    intro p h1 h2
    show _ ≤ (has_new_max_loop P (K - 1) 1 MAX 0).2.getD p 0
    rw [g1 p, if_pos ⟨h1, h2, by omega⟩]
    exact le_max_right _ _
  have hlen : (has_new_max K P MAX).2.length = MAX.length := l1
  generalize (has_new_max K P MAX).2 = M1 at hge hlen
  obtain ⟨l2, g2, -, a4⟩ := has_new_max_loop_spec P (K - 1) 1 M1 0
  have hno : ¬ ∃ p, 1 ≤ p ∧ p < 1 + (K - 1) ∧ P.getD p 0 > M1.getD p 0 := by
    rintro ⟨p, h1, h2, h3⟩
    have := hge p h1 h2
    omega
  constructor
  · show (has_new_max_loop P (K - 1) 1 M1 0).1 % 256 = 0
    rw [a4 hno]
  · apply list_ext_getD _ _ l2
    intro p
    show (has_new_max_loop P (K - 1) 1 M1 0).2.getD p 0 = _
    rw [g2 p]
    split_ifs with hc
    · exact max_eq_left (hge p hc.1 hc.2.1)
    · rfl

theorem getD_replicate_nat (n v p : Nat) (h : p < n) : (List.replicate n v).getD p 0 = v := by
  rw [getD_of_lt _ _ (by rw [List.length_replicate]; exact h), List.getElem_replicate]

/-! ### The request loop of one connection -/

theorem request_loop_cons_state (cfg : Config) (req : Request) (rest : List Request)
    (s : State) :
    (request_loop cfg (req :: rest) s).state =
      match handle_request cfg req s with
      | .abort _ s1 => s1
      | .ok _ s1 => (request_loop cfg rest s1).state := by
  rw [request_loop]
  cases handle_request cfg req s with
  | abort e s1 => rfl
  | ok reply s1 =>
    simp only []
    cases request_loop cfg rest s1 <;> rfl

theorem request_loop_cons_ok (cfg : Config) (req : Request) (rest : List Request)
    (s : State) (replies : List (List Nat)) (s2 : State)
    (h : request_loop cfg (req :: rest) s = .ok replies s2) :
    ∃ reply s1 tail, handle_request cfg req s = .ok reply s1 ∧
      request_loop cfg rest s1 = .ok tail s2 ∧ replies = reply :: tail := by
  rw [request_loop] at h
  cases hr : handle_request cfg req s with
  | abort e s1 =>
    rw [hr] at h
    exact Res.noConfusion h
  | ok reply s1 =>
    rw [hr] at h
    simp only [] at h
    cases hl : request_loop cfg rest s1 with
    | abort e s3 =>
      rw [hl] at h
      exact Res.noConfusion h
    | ok tail s3 =>
      rw [hl] at h
      injection h with h1 h2
      exact ⟨reply, s1, tail, rfl, by rw [← h2, hl], h1.symm⟩

/-- The request buffer keeps its size over a request. -/
theorem handle_request_buff_length (cfg : Config) (req : Request) (s : State) :
    (handle_request cfg req s).state.buff.length = s.buff.length := by
  rcases handle_request_cases cfg req s with ⟨hs, -, -⟩ | ⟨s4, hs, heq⟩
  · rw [hs.1, length_storeBytes]
  · rw [heq, reply_to_request_state, (reply_state_fields cfg s4).2.2.2.2.2,
      write_reply_fields_length, hs.1, length_storeBytes]

/-! ### The max counters over a connection -/

theorem has_new_max_ge (K : Nat) (P MAX : List Nat) (p : Nat) :
    MAX.getD p 0 ≤ (has_new_max K P MAX).2.getD p 0 := by
  obtain ⟨-, g, -, -⟩ := has_new_max_loop_spec P (K - 1) 1 MAX 0
  show _ ≤ (has_new_max_loop P (K - 1) 1 MAX 0).2.getD p 0
  rw [g p]
  split_ifs
  · exact le_max_left _ _
  · exact le_refl _

theorem collect_feedback_max_ge (cfg : Config) (s : State) (p : Nat) :
    s.max_counts.getD p 0 ≤ (collect_feedback cfg s).2.max_counts.getD p 0 := by
  unfold collect_feedback
  split_ifs
  · exact has_new_max_ge _ _ _ _
  · exact le_refl _

theorem handle_request_max_ge (cfg : Config) (req : Request) (s : State) (p : Nat) :
    s.max_counts.getD p 0 ≤ (handle_request cfg req s).state.max_counts.getD p 0 := by
  rcases handle_request_cases cfg req s with ⟨hs, -, -⟩ | ⟨s4, hs, heq⟩
  · rw [hs.2.2.1]
  · rw [heq, reply_to_request_state, (reply_state_fields cfg s4).2.2.2.2.1]
    have := collect_feedback_max_ge cfg s4 p
    rw [hs.2.2.1] at this
    exact this

theorem request_loop_max_ge (cfg : Config) :
    ∀ (reqs : List Request) (s : State) (p : Nat),
      s.max_counts.getD p 0 ≤ (request_loop cfg reqs s).state.max_counts.getD p 0 := by
  intro reqs
  induction reqs with
  | nil => intro s p; exact le_refl _
  | cons req rest ih =>
    intro s p
    rw [request_loop_cons_state]
    have h1 := handle_request_max_ge cfg req s p
    cases hr : handle_request cfg req s with
    | abort e s1 =>
      rw [hr] at h1
      exact h1
    | ok reply s1 =>
      rw [hr] at h1
      exact le_trans h1 (ih s1 p)

/-! ### Warmup requests at the head of a connection -/

theorem handle_request_warmup_keeps (cfg : Config) (req : Request) (s : State)
    (reply : List Nat) (s1 : State) (h : handle_request cfg req s = .ok reply s1)
    (hw : IsWarmupFrame req.frame) (h20 : 20 ≤ req.frame.length)
    (hb : req.frame.length ≤ s.buff.length) :
    s1.max_counts = s.max_counts ∧ s1.virgin_bits = s.virgin_bits := by
  obtain ⟨s4, hbuf, hv, hm, hs1, -⟩ := handle_request_reply cfg req s reply s1 h
  have hwup : run_type_not_wup s4.buff = false := by
    rw [hbuf]
    exact run_type_wup_of_frame _ _ h20 hb hw
  rw [hs1, reply_state_warmup cfg s4 hwup]
  exact ⟨hm, hv⟩

theorem request_loop_warmups_keep (cfg : Config) :
    ∀ (warmups : List Request) (s : State) (replies : List (List Nat)) (sw : State),
      (∀ r ∈ warmups, IsWarmupFrame r.frame ∧ 20 ≤ r.frame.length ∧
        r.frame.length ≤ s.buff.length) →
      request_loop cfg warmups s = .ok replies sw →
      sw.max_counts = s.max_counts ∧ sw.virgin_bits = s.virgin_bits ∧
        sw.buff.length = s.buff.length := by
  intro warmups
  induction warmups with
  | nil =>
    intro s replies sw _ h
    rw [request_loop] at h
    injection h with h1 h2
    rw [← h2]
    exact ⟨rfl, rfl, rfl⟩
  | cons req rest ih =>
    intro s replies sw hw h
    obtain ⟨reply, s1, tail, h1, h2, -⟩ := request_loop_cons_ok cfg req rest s replies sw h
    obtain ⟨w1, w2, w3⟩ := hw req (List.mem_cons_self _ _)
    obtain ⟨a1, a2⟩ := handle_request_warmup_keeps cfg req s reply s1 h1 w1 w2 w3
    have a3 : s1.buff.length = s.buff.length := by
      have := handle_request_buff_length cfg req s
      rw [h1] at this
      exact this
    obtain ⟨b1, b2, b3⟩ := ih s1 tail sw
      (fun r hr => by
        obtain ⟨c1, c2, c3⟩ := hw r (List.mem_cons_of_mem _ hr)
        exact ⟨c1, c2, by rw [a3]; exact c3⟩) h2
    exact ⟨b1.trans a1, b2.trans a2, b3.trans a3⟩

theorem counter_sum_pos (P : List Nat) :
    ∀ (n i : Nat), counter_sum P n i ≠ 0 → ∃ p, i ≤ p ∧ p < i + n ∧ P.getD p 0 ≠ 0 := by
  intro n
  induction n with
  | zero => intro i h; exact absurd rfl h
  | succ n ih =>
    intro i h
    rw [counter_sum] at h
    by_cases h0 : P.getD i 0 = 0
    · rw [h0, Nat.zero_add] at h
      obtain ⟨p, h1, h2, h3⟩ := ih (i + 1) h
      exact ⟨p, by omega, by omega, h3⟩
    · exact ⟨i, le_refl _, by omega, h0⟩

theorem counter_sum_ge (P : List Nat) :
    ∀ (n i p : Nat), i ≤ p → p < i + n → P.getD p 0 ≤ counter_sum P n i := by
  intro n
  induction n with
  | zero => intro i p h1 h2; omega
  | succ n ih =>
    intro i p h1 h2
    rw [counter_sum]
    by_cases hp : p = i
    · rw [hp]
      exact Nat.le_add_right _ _
    · exact le_trans (ih (i + 1) p (by omega) (by omega)) (Nat.le_add_left _ _)

/-- On max counters that are all zero, an answered actual request with a non-zero cost
field reports a new maximum. -/
theorem handle_request_first_actual (cfg : Config) (req : Request) (s : State)
    (reply : List Nat) (s1 : State) (h : handle_request cfg req s = .ok reply s1)
    (hact : IsActualFrame req.frame) (h20 : 20 ≤ req.frame.length)
    (hb : req.frame.length ≤ s.buff.length) (hz : ∀ p, s.max_counts.getD p 0 = 0)
    (hcost : le32 reply 0 ≠ 0) : reply.getD 4 0 = 1 := by
  obtain ⟨s4, hbuf, hv, hm, hs1, hr⟩ := handle_request_reply cfg req s reply s1 h
  obtain ⟨r, s2, s5, -, hval, hrep⟩ := handle_request_ok cfg req s reply s1 h
  have hne := validate_cost_ok cfg req.exec _ s5 () hval
  obtain ⟨-, hs5⟩ := reply_to_request_ok cfg req s5 reply s1 hrep
  have hp : s4.perf_bits = s5.perf_bits := by
    rw [← (reply_state_fields cfg s4).1, ← (reply_state_fields cfg s5).1, ← hs1, ← hs5]
  rw [← not_equal_congr cfg s5 s4 hp, not_equal_eq_false_iff] at hne
  have hl : 16 ≤ s4.buff.length := by
    rw [hbuf, length_storeBytes]
    omega
  have hnw : run_type_not_wup s4.buff = true := by
    rw [hbuf]
    exact run_type_not_wup_of_frame _ _ h20 hb hact
  obtain ⟨f1, -, -⟩ := collect_feedback_actual cfg s4 hnw
  rw [f1] at hr
  rw [hr, le32_take _ _ _ (by omega), reply_field_exec_cost _ _ _ hl, toU32_toS32_mod,
    Nat.mod_mod, ← hne] at hcost
  have hsum : counter_sum s4.perf_bits (cfg.PERF_SIZE - 1) 1 ≠ 0 := by
    intro h0
    rw [h0] at hcost
    exact hcost rfl
  obtain ⟨p, p1, p2, p3⟩ := counter_sum_pos _ _ _ hsum
  obtain ⟨-, -, g, -⟩ := has_new_max_loop_spec s4.perf_bits (cfg.PERF_SIZE - 1) 1 s4.max_counts 0
  have hret := g ⟨p, p1, p2, by rw [hm, hz p]; omega⟩
  rw [hr, getD_take_nat _ _ _ (by omega), reply_field_hnm _ _ _ hl]
  show (has_new_max_loop s4.perf_bits (cfg.PERF_SIZE - 1) 1 s4.max_counts 0).1 % 256 % 256 = 1
  rw [hret]

/-! ### The trace map holds bytes all along a request -/

theorem isBytes_replicate (n v : Nat) (h : v < 256) : IsBytes (List.replicate n v) := by
  intro b hb
  rw [List.eq_of_mem_replicate hb]
  exact h

theorem classify_counts_isBytes (be : Bool) (t : List Nat) (M : Nat) (m : List Nat)
    (ht : TableFilled t) (hm : IsBytes m) : IsBytes (classify_counts be t M m) := by
  obtain ⟨-, g⟩ := classify_counts_loop_spec be ht (M >>> 3) 0 m hm
  apply isBytes_of_getD
  intro p
  rw [classify_counts, g p]
  split_ifs
  · exact l8_lt _ (hm.getD_lt p)
  · exact hm.getD_lt p

theorem run_target_report_trace (cfg : Config) (ev : Exec) (s : State) :
    (run_target_report cfg ev s).state.trace_bits =
      classify_counts false s.count_class_lookup16 cfg.MAP_SIZE s.trace_bits := by
  unfold run_target_report
  simp only []
  by_cases hw : WIFSTOPPED ev.status = true <;>
    by_cases hz : (cfg.max_ct_fuzzing && cfg.zero_other_counts) = true <;>
    simp only [hw, hz, if_true, if_false] <;>
    split_ifs <;> rfl

theorem run_target_trace_isBytes (cfg : Config) (ev : Exec) (s : State)
    (ht : TableFilled s.count_class_lookup16)
    (hc : ∀ a b, IsBytes (ev.child a b).1) :
    IsBytes (run_target cfg ev s).state.trace_bits := by
  have hrep : ∀ s5 : State, s5.count_class_lookup16 = s.count_class_lookup16 →
      IsBytes s5.trace_bits → IsBytes (run_target_report cfg ev s5).state.trace_bits := by
    intro s5 h1 h2
    rw [run_target_report_trace, h1]
    exact classify_counts_isBytes _ _ _ _ ht h2
  unfold run_target
  simp only []
  split_ifs <;>
    first
    | exact isBytes_replicate _ _ (by norm_num)
    | exact hc _ _
    | exact hrep _ rfl (hc _ _)

theorem rerun_loop_trace_isBytes (cfg : Config) (exec : Nat → Exec)
    (hc : ∀ n a b, IsBytes ((exec n).child a b).1) :
    ∀ (fuel attempts : Nat) (s : State), TableFilled s.count_class_lookup16 →
      IsBytes s.trace_bits → IsBytes (rerun_loop cfg exec fuel attempts s).state.trace_bits := by
  intro fuel
  induction fuel with
  | zero => intro attempts s _ hs; exact hs
  | succ fuel ih =>
    intro attempts s ht hs
    rw [rerun_loop]
    by_cases h : not_equal cfg s = true
    · rw [if_pos h]
      have h1 := run_target_trace_isBytes cfg (exec (attempts + 1)) s ht (hc _)
      have h2 := (run_target_sameRefs cfg (exec (attempts + 1)) s).2.2.2
      cases hrt : run_target cfg (exec (attempts + 1)) s with
      | abort e s1 =>
        rw [hrt] at h1
        exact h1
      | ok v s1 =>
        rw [hrt] at h1 h2
        simp only []
        by_cases h10 : attempts + 1 > 10
        · rw [if_pos h10]; exact h1
        · rw [if_neg h10]
          exact ih _ _ (by rw [show s1.count_class_lookup16 = s.count_class_lookup16 from h2]
                           exact ht) h1
    · rw [if_neg h]
      exact hs

theorem validate_cost_trace_isBytes (cfg : Config) (exec : Nat → Exec) (s : State)
    (hc : ∀ n a b, IsBytes ((exec n).child a b).1)
    (ht : TableFilled s.count_class_lookup16) (hs : IsBytes s.trace_bits) :
    IsBytes (validate_cost cfg exec s).state.trace_bits := by
  unfold validate_cost
  by_cases h : not_equal cfg s = true
  · rw [if_pos h]
    have h1 := rerun_loop_trace_isBytes cfg exec hc 11 0
      { s with log := s.log ++ [.not_equal_rerun] } ht hs
    cases hr : rerun_loop cfg exec 11 0 { s with log := s.log ++ [.not_equal_rerun] } with
    | abort e s1 =>
      rw [hr] at h1
      exact h1
    | ok v s1 =>
      rw [hr] at h1
      simp only []
      split_ifs <;> exact h1
  · rw [if_neg h]
    exact hs

theorem common_fuzz_stuff_trace_isBytes (cfg : Config) (ev : Exec) (out_buf : List Nat)
    (s : State) (hc : ∀ a b, IsBytes (ev.child a b).1)
    (ht : TableFilled s.count_class_lookup16) (hs : IsBytes s.trace_bits) :
    IsBytes (common_fuzz_stuff cfg ev out_buf s).state.trace_bits := by
  unfold common_fuzz_stuff
  simp only []
  split
  · exact hs
  · rename_i buf _
    have h := run_target_trace_isBytes cfg ev (write_to_testcase buf s) ht hc
    split
    · rename_i e s1 heq
      rw [heq] at h
      exact h
    · rename_i fault s1 heq
      rw [heq] at h
      rw [(common_fuzz_stuff_after_run_fields cfg fault s1).2.1]
      exact h

/-- All along a request the trace map holds bytes, when it did before and the child writes
bytes. -/
theorem handle_request_trace_isBytes (cfg : Config) (req : Request) (s : State)
    (hc : ChildWritesBytes req) (ht : TableFilled s.count_class_lookup16)
    (hs : IsBytes s.trace_bits) :
    IsBytes (handle_request cfg req s).state.trace_bits := by
  rw [handle_request_eq]
  have h1 := common_fuzz_stuff_trace_isBytes cfg (req.exec 0)
    (request_input (recv_state s req.frame).buff) (recv_state s req.frame) (hc 0) ht hs
  have t1 := (common_fuzz_stuff_sameRefs cfg (req.exec 0)
    (request_input (recv_state s req.frame).buff) (recv_state s req.frame)).2.2.2
  cases hcf : common_fuzz_stuff cfg (req.exec 0) (request_input (recv_state s req.frame).buff)
      (recv_state s req.frame) with
  | abort e s2 =>
    rw [hcf] at h1
    exact h1
  | ok r s2 =>
    rw [hcf] at h1 t1
    simp only []
    have t2 : TableFilled s2.count_class_lookup16 := by
      rw [show s2.count_class_lookup16 = s.count_class_lookup16 from t1]
      exact ht
    have h3 := validate_cost_trace_isBytes cfg req.exec
      (if (r != 0) = true then { s2 with log := s2.log ++ [.too_many_timeouts_or_skipped] }
        else s2) hc (by split_ifs <;> exact t2) (by split_ifs <;> exact h1)
    cases hv : validate_cost cfg req.exec
      (if (r != 0) = true then { s2 with log := s2.log ++ [.too_many_timeouts_or_skipped] }
        else s2) with
    | abort e s4 =>
      rw [hv] at h3
      exact h3
    | ok u s4 =>
      rw [hv] at h3
      simp only []
      rw [reply_to_request_state, (reply_state_fields cfg s4).2.1]
      exact h3

/-! ### The virgin map over a request -/

theorem has_new_bits_virgin_mono (M : Nat) (C V : List Nat) (hC : IsBytes C) (hV : IsBytes V)
    (p k : Nat) (h : ((has_new_bits M C V).2.getD p 0).testBit k = true) :
    (V.getD p 0).testBit k = true := by
  obtain ⟨-, g⟩ := has_new_bits_loop_virgin hC (M >>> 3) 0 V 0 hV
  rw [has_new_bits, g p] at h
  split_ifs at h
  · rw [Nat.testBit_land, Bool.and_eq_true] at h
    exact h.1
  · exact h

theorem collect_feedback_virgin (cfg : Config) (s : State) (hC : IsBytes s.trace_bits)
    (hV : IsBytes s.virgin_bits) :
    IsBytes (collect_feedback cfg s).2.virgin_bits ∧
    ∀ p k, ((collect_feedback cfg s).2.virgin_bits.getD p 0).testBit k = true →
      (s.virgin_bits.getD p 0).testBit k = true := by
  unfold collect_feedback
  split_ifs
  · exact ⟨(has_new_bits_virgin_getD _ _ _ hC hV).2.1,
      fun p k h => has_new_bits_virgin_mono _ _ _ hC hV p k h⟩
  · exact ⟨hV, fun p k h => h⟩

theorem handle_request_virgin (cfg : Config) (req : Request) (s : State)
    (hs : MapsWellFormed s) (hc : ChildWritesBytes req) :
    MapsWellFormed (handle_request cfg req s).state ∧
    ∀ p k, ((handle_request cfg req s).state.virgin_bits.getD p 0).testBit k = true →
      (s.virgin_bits.getD p 0).testBit k = true := by
  obtain ⟨hC, hV, ht⟩ := hs
  have htr := handle_request_trace_isBytes cfg req s hc ht hC
  rcases handle_request_cases cfg req s with ⟨hr, -, -⟩ | ⟨s4, hr, heq⟩
  · obtain ⟨-, r2, -, r4⟩ := hr
    have e2 : (handle_request cfg req s).state.virgin_bits = s.virgin_bits := r2
    have e4 : (handle_request cfg req s).state.count_class_lookup16 =
        s.count_class_lookup16 := r4
    refine ⟨⟨htr, by rw [e2]; exact hV, by rw [e4]; exact ht⟩, fun p k h => ?_⟩
    rw [e2] at h
    exact h
  · obtain ⟨-, r2, -, r4⟩ := hr
    have e2 : s4.virgin_bits = s.virgin_bits := r2
    have e4 : s4.count_class_lookup16 = s.count_class_lookup16 := r4
    have h4 : IsBytes s4.trace_bits := by
      rw [heq, reply_to_request_state, (reply_state_fields cfg s4).2.1] at htr
      exact htr
    obtain ⟨b1, b2⟩ := collect_feedback_virgin cfg s4 h4 (by rw [e2]; exact hV)
    have e5 : (handle_request cfg req s).state.virgin_bits =
        (collect_feedback cfg s4).2.virgin_bits := by
      rw [heq, reply_to_request_state, (reply_state_fields cfg s4).2.2.2.1]
    have e6 : (handle_request cfg req s).state.count_class_lookup16 =
        s.count_class_lookup16 := by
      rw [heq, reply_to_request_state, ← e4]
      unfold reply_state collect_feedback
      split_ifs <;> rfl
    refine ⟨⟨htr, by rw [e5]; exact b1, by rw [e6]; exact ht⟩, fun p k h => ?_⟩
    rw [e5] at h
    have := b2 p k h
    rw [e2] at this
    exact this

theorem tableFilled_init (t : List Nat) (ht : t.length = 65536) :
    TableFilled (init_count_class16 t) :=
  fun b1 b2 h1 h2 => init_count_class16_getD t ht b1 b2 h1 h2

theorem demoState_tableFilled : TableFilled demoState.count_class_lookup16 := by
  unfold demoState
  dsimp only
  exact tableFilled_init _ (List.length_replicate _ _)

theorem demoState_wellFormed : MapsWellFormed demoState := by
  refine ⟨?_, ?_, demoState_tableFilled⟩
  · show IsBytes (List.replicate 8 0)
    exact isBytes_replicate _ _ (by norm_num)
  · show IsBytes [254, 255, 255, 255, 255, 255, 255, 255]
    simp [IsBytes]

theorem demoRequest_childWritesBytes (run_type : List Nat) :
    ChildWritesBytes (demoRequest run_type) := by
  intro n a b
  show IsBytes [0, 0, 0, 0, 0, 0, 0, 0]
  simp [IsBytes]

/-! ### The comparison of the run type with the literal -/

/-- The function `strcmp` finds the run type equal to `"wup"` exactly when the four bytes at offsets
16 to 19 are `'w'`, `'u'`, `'p'` and NUL. -/
theorem c_strcmp_wup (buff : List Nat) :
    c_strcmp buff 16 wup_literal = 0 ↔
      (buff.getD 16 0 = 119 ∧ buff.getD 17 0 = 117 ∧ buff.getD 18 0 = 112 ∧
        buff.getD 19 0 = 0) := by
  unfold wup_literal
  simp only [c_strcmp, Nat.reduceAdd]
  generalize buff.getD 16 0 = a
  generalize buff.getD 17 0 = b
  generalize buff.getD 18 0 = c
  generalize buff.getD 19 0 = d
  split_ifs <;> first | omega | contradiction

/-- The test of the model on the four bytes of the run type is the test
`strcmp(p->run_type, "wup") != 0`. -/
theorem run_type_not_wup_eq_strcmp (buff : List Nat) :
    run_type_not_wup buff = decide (c_strcmp buff 16 wup_literal ≠ 0) := by
  have h := c_strcmp_wup buff
  unfold run_type_not_wup
  by_cases hw : buff.getD 16 0 = 119 ∧ buff.getD 17 0 = 117 ∧ buff.getD 18 0 = 112 ∧
      buff.getD 19 0 = 0
  · have h0 := h.2 hw
    obtain ⟨a, b, c, d⟩ := hw
    rw [h0, a, b, c, d]
    rfl
  · have h0 : c_strcmp buff 16 wup_literal ≠ 0 := fun h1 => hw (h.1 h1)
    rw [decide_eq_true h0]
    simp only [Bool.not_eq_true', Bool.and_eq_false_iff, beq_eq_false_iff_ne, ne_eq]
    by_contra hc
    apply hw
    push_neg at hc
    exact ⟨hc.1.1.1, hc.1.1.2, hc.1.2, hc.2⟩

theorem isWarmupFrame_recv (buff frame : List Nat) (h20 : 20 ≤ frame.length)
    (hb : frame.length ≤ buff.length) :
    (c_strcmp (storeBytes buff 0 frame) 16 wup_literal = 0 ↔ IsWarmupFrame frame) := by
  rw [c_strcmp_wup, recv_getD buff frame _ (show 16 < frame.length by omega) hb,
    recv_getD buff frame _ (show 17 < frame.length by omega) hb,
    recv_getD buff frame _ (show 18 < frame.length by omega) hb,
    recv_getD buff frame _ (show 19 < frame.length by omega) hb]

/-! ### The return value of `has_new_bits` and the change of the virgin map -/

theorem has_new_bits_ne_zero_iff (M : Nat) (C V : List Nat) (hC : IsBytes C)
    (hV : IsBytes V) : (has_new_bits M C V).1 ≠ 0 ↔ HitIn C V 0 (M >>> 3) := by
  obtain ⟨-, a2, a3, a4⟩ := has_new_bits_loop_ret hC (M >>> 3) 0 V 0 hV
  constructor
  · intro h
    by_contra hn
    exact h (a4 rfl hn)
  · intro h
    by_cases hn : NewIn C V 0 (M >>> 3)
    · show (has_new_bits_loop C (M >>> 3) 0 V 0).1 ≠ 0
      rw [a2 (by omega) hn]
      decide
    · show (has_new_bits_loop C (M >>> 3) 0 V 0).1 ≠ 0
      rw [a3 (by omega) hn (Or.inr h)]
      decide

/-- A byte of the virgin map that shares a bit with its trace byte loses that bit. -/
theorem has_new_bits_clears_bit (M : Nat) (C V : List Nat) (hC : IsBytes C) (hV : IsBytes V)
    (p : Nat) (hp : p < 8 * (M >>> 3)) (h : C.getD p 0 &&& V.getD p 0 ≠ 0) :
    ∃ k, (V.getD p 0).testBit k = true ∧
      ((has_new_bits M C V).2.getD p 0).testBit k = false := by
  obtain ⟨k, hk⟩ := Nat.ne_zero_implies_bit_true h
  rw [Nat.testBit_land, Bool.and_eq_true] at hk
  refine ⟨k, hk.2, ?_⟩
  have h0 := (has_new_bits_virgin_getD M C V hC hV).2.2 p hp
  have h1 : (C.getD p 0 &&& (has_new_bits M C V).2.getD p 0).testBit k = false := by
    rw [h0]
    exact Nat.zero_testBit k
  rw [Nat.testBit_land, hk.1, Bool.true_and] at h1
  exact h1

theorem has_new_bits_changed_iff (M : Nat) (C V : List Nat) (hC : IsBytes C)
    (hV : IsBytes V) :
    (HitIn C V 0 (M >>> 3) → ∃ p k, (V.getD p 0).testBit k = true ∧
      ((has_new_bits M C V).2.getD p 0).testBit k = false) ∧
    ((has_new_bits M C V).2 ≠ V → HitIn C V 0 (M >>> 3)) := by
  obtain ⟨hl, g⟩ := has_new_bits_loop_virgin hC (M >>> 3) 0 V 0 hV
  constructor
  · rintro ⟨p, -, h2, -, h4⟩
    obtain ⟨k, hk⟩ := has_new_bits_clears_bit M C V hC hV p (by omega) h4
    exact ⟨p, k, hk⟩
  · intro hne
    by_contra hn
    apply hne
    apply list_ext_getD _ _ hl
    intro p
    show (has_new_bits_loop C (M >>> 3) 0 V 0).2.getD p 0 = _
    rw [g p]
    split_ifs with hc
    · apply land_compl_of_disjoint _ _ (hC.getD_lt p) (hV.getD_lt p)
      by_contra h0
      exact hn ⟨p, hc.1, hc.2, land_ne_zero_left h0, h0⟩
    · rfl

/-! ### The buffer a request leaves to the next one -/

theorem getD_drop_nat (l : List Nat) (n p : Nat) : (l.drop n).getD p 0 = l.getD (n + p) 0 := by
  rw [List.getD_eq_getElem?_getD, List.getD_eq_getElem?_getD, List.getElem?_drop]

/-- From offset 16 on, the buffer holds after a request what `read()` put there: the frame,
followed by what the buffer held beyond it. -/
theorem handle_request_buff_drop (cfg : Config) (req : Request) (s : State)
    (hb : req.frame.length ≤ s.buff.length) :
    (handle_request cfg req s).state.buff.drop 16 =
      (req.frame ++ s.buff.drop req.frame.length).drop 16 := by
  rw [← storeBytes_zero_eq _ _ hb]
  rcases handle_request_cases cfg req s with ⟨hs, -, -⟩ | ⟨s4, hs, heq⟩
  · rw [hs.1]
  · rw [heq, reply_to_request_state, (reply_state_fields cfg s4).2.2.2.2.2]
    have e4 : s4.buff = storeBytes s.buff 0 req.frame := hs.1
    rw [e4]
    apply list_ext_getD
    · rw [List.length_drop, List.length_drop, write_reply_fields_length]
    · intro p
      rw [getD_drop_nat, getD_drop_nat]
      by_cases hl : 16 ≤ (storeBytes s.buff 0 req.frame).length
      · rw [write_reply_fields_getD _ _ _ hl, if_neg (by omega), if_neg (by omega),
          if_neg (by omega), if_neg (by omega)]
      · rw [getD_zero_of_le _ _ (by rw [write_reply_fields_length]; omega),
          getD_zero_of_le _ _ (by omega)]

theorem drop_drop_nat (l : List Nat) (a b : Nat) (h : a ≤ b) :
    l.drop b = (l.drop a).drop (b - a) := by
  rw [List.drop_drop]
  congr 1
  omega

/-! ### The post-processing step of `common_fuzz_stuff` -/

theorem common_fuzz_stuff_eq (cfg : Config) (ev : Exec) (buf : List Nat) (s : State) :
    common_fuzz_stuff cfg ev buf s =
      match post_processed cfg buf with
      | none => .ok 0 s
      | some b =>
        match run_target cfg ev (write_to_testcase b s) with
        | .abort e s1 => .abort e s1
        | .ok fault s1 => common_fuzz_stuff_after_run cfg fault s1 := rfl

theorem post_processed_none (cfg : Config) (buf : List Nat) (h : cfg.post_handler = none) :
    post_processed cfg buf = some buf := by
  unfold post_processed
  rw [h]

/-- The test case file after a call of `common_fuzz_stuff`: the post-processed buffer, or
what the file held before when the post-processing yields nothing to run. -/
theorem common_fuzz_stuff_testcase (cfg : Config) (ev : Exec) (buf : List Nat) (s : State) :
    (common_fuzz_stuff cfg ev buf s).state.testcase =
      (post_processed cfg buf).getD s.testcase := by
  rw [common_fuzz_stuff_eq]
  cases hp : post_processed cfg buf with
  | none => rfl
  | some b =>
    simp only []
    have h1 := run_target_testcase cfg ev (write_to_testcase b s)
    cases hrt : run_target cfg ev (write_to_testcase b s) with
    | abort e s1 =>
      rw [hrt] at h1
      exact h1
    | ok fault s1 =>
      rw [hrt] at h1
      simp only []
      exact ((common_fuzz_stuff_after_run_fields cfg fault s1).2.2.2.1).trans h1

/-- The test case file after a request, for every configuration: the post-processed input
copied out of the request buffer. -/
theorem handle_request_testcase_eq (cfg : Config) (req : Request) (s : State) :
    (handle_request cfg req s).state.testcase =
      (post_processed cfg (request_input (recv_state s req.frame).buff)).getD s.testcase := by
  have h0 := common_fuzz_stuff_testcase cfg (req.exec 0)
    (request_input (recv_state s req.frame).buff) (recv_state s req.frame)
  rw [handle_request_eq]
  cases hcf : common_fuzz_stuff cfg (req.exec 0) (request_input (recv_state s req.frame).buff)
      (recv_state s req.frame) with
  | abort e s2 =>
    rw [hcf] at h0
    exact h0
  | ok r s2 =>
    rw [hcf] at h0
    simp only []
    have h3 := validate_cost_testcase cfg req.exec
      (if (r != 0) = true then { s2 with log := s2.log ++ [.too_many_timeouts_or_skipped] }
        else s2)
    have h4 : (if (r != 0) = true then
        { s2 with log := s2.log ++ [LogMsg.too_many_timeouts_or_skipped] }
        else s2).testcase = s2.testcase := by
      split_ifs <;> rfl
    cases hv : validate_cost cfg req.exec
      (if (r != 0) = true then { s2 with log := s2.log ++ [.too_many_timeouts_or_skipped] }
        else s2) with
    | abort e s4 =>
      rw [hv] at h3
      exact h3.trans (h4.trans h0)
    | ok u s4 =>
      rw [hv] at h3
      simp only []
      rw [reply_to_request_state, (reply_state_fields cfg s4).2.2.1]
      exact h3.trans (h4.trans h0)

/-- A request whose post-processed input is run and whose run returns to `common_fuzz_stuff`:
the rest of the request is the part of `common_fuzz_stuff` after the run, the validation
of the cost and the reply. -/
theorem handle_request_of_run (cfg : Config) (req : Request) (s : State) (buf : List Nat)
    (fault : Nat) (s2 : State)
    (hproc : post_processed cfg (request_input (recv_state s req.frame).buff) = some buf)
    (hrun : run_target cfg (req.exec 0) (write_to_testcase buf (recv_state s req.frame)) =
      .ok fault s2) :
    common_fuzz_stuff cfg (req.exec 0) (request_input (recv_state s req.frame).buff)
      (recv_state s req.frame) = common_fuzz_stuff_after_run cfg fault s2 := by
  rw [common_fuzz_stuff_eq, hproc]
  simp only []
  rw [hrun]

/-- The test case file after a request whose input, as copied out of the buffer, is `input`. -/
theorem handle_request_testcase_of_input (cfg : Config) (req : Request) (s : State)
    (input : List Nat) (h : request_input (recv_state s req.frame).buff = input) :
    (handle_request cfg req s).state.testcase =
      (post_processed cfg input).getD s.testcase ∧
    (cfg.post_handler = none → (handle_request cfg req s).state.testcase = input) := by
  rw [handle_request_testcase_eq, h]
  refine ⟨rfl, fun hpost => ?_⟩
  rw [post_processed_none _ _ hpost]
  rfl

/-! ## The claims -/

/-- C1: on maps of `MAP_SIZE` bytes (a multiple of 8), the word-at-a-time scan of
`has_new_bits` returns exactly the byte-level result: 2 if some byte with `C[i] != 0` has
`virgin[i] == 0xFF`, otherwise 1 if some byte has `C[i] != 0` and `C[i] & virgin[i] != 0`,
otherwise 0. -/
theorem has_new_bits_refines_bytewise (MAP_SIZE : Nat) (C virgin : List Nat)
    (hM : 8 ∣ MAP_SIZE) (hC : C.length = MAP_SIZE) (hV : virgin.length = MAP_SIZE)
    (hCb : IsBytes C) (hVb : IsBytes virgin) :
    (has_new_bits MAP_SIZE C virgin).1 = has_new_bits_bytewise MAP_SIZE C virgin := by
  obtain ⟨k, rfl⟩ := hM
  have hk : (8 * k) >>> 3 = k := by
    rw [Nat.shiftRight_eq_div_pow]
    omega
  obtain ⟨-, a2, a3, a4⟩ := has_new_bits_loop_ret hCb k 0 virgin 0 hVb
  have hnew : (List.range (8 * k)).any (fun i => C.getD i 0 != 0 && virgin.getD i 0 == 0xff)
      = true ↔ NewIn C virgin 0 k := by
    simp only [List.any_eq_true, List.mem_range, Bool.and_eq_true, bne_iff_ne, beq_iff_eq, NewIn]
    constructor
    · rintro ⟨p, h1, h2, h3⟩
      exact ⟨p, by omega, by omega, h2, h3⟩
    · rintro ⟨p, _, h1, h2, h3⟩
      exact ⟨p, by omega, h2, h3⟩
  have hhit : (List.range (8 * k)).any
      (fun i => C.getD i 0 != 0 && (C.getD i 0 &&& virgin.getD i 0) != 0) = true ↔
        HitIn C virgin 0 k := by
    simp only [List.any_eq_true, List.mem_range, Bool.and_eq_true, bne_iff_ne, HitIn]
    constructor
    · rintro ⟨p, h1, h2, h3⟩
      exact ⟨p, by omega, by omega, h2, h3⟩
    · rintro ⟨p, _, h1, h2, h3⟩
      exact ⟨p, by omega, h2, h3⟩
  rw [has_new_bits, has_new_bits_bytewise, hk]
  by_cases h1 : NewIn C virgin 0 k
  · rw [if_pos (hnew.2 h1)]
    exact a2 (by omega) h1
  · rw [if_neg (fun h => h1 (hnew.1 h))]
    by_cases h2 : HitIn C virgin 0 k
    · rw [if_pos (hhit.2 h2)]
      exact a3 (by omega) h1 (Or.inr h2)
    · rw [if_neg (fun h => h2 (hhit.1 h))]
      exact a4 rfl h2

/-- Witness for C1: a 16-byte map whose second word carries a refined edge. -/
theorem has_new_bits_refines_bytewise_witness :
    (8 ∣ 16 ∧ IsBytes [0, 0, 0, 1, 0, 0, 0, 0, 1, 0, 0, 0, 0, 0, 0, 3]) ∧
    (has_new_bits 16 [0, 0, 0, 1, 0, 0, 0, 0, 1, 0, 0, 0, 0, 0, 0, 3]
        [254, 255, 255, 254, 255, 255, 255, 255, 254, 255, 255, 255, 255, 255, 255, 253]).1 =
      has_new_bits_bytewise 16 [0, 0, 0, 1, 0, 0, 0, 0, 1, 0, 0, 0, 0, 0, 0, 3]
        [254, 255, 255, 254, 255, 255, 255, 255, 254, 255, 255, 255, 255, 255, 255, 253] :=
  ⟨⟨by decide, by simp [IsBytes]⟩,
    has_new_bits_refines_bytewise 16 _ _ (by decide) (by decide) (by decide)
      (by simp [IsBytes]) (by simp [IsBytes])⟩

/-- C2: after `has_new_bits(virgin)` the virgin map holds `virgin[i] & ~C[i]` at every
position: the bits of `C[i]` are cleared, and a position with `C[i] & virgin[i] == 0` keeps
its value. -/
theorem has_new_bits_clears_virgin (MAP_SIZE : Nat) (C virgin : List Nat)
    (hM : 8 ∣ MAP_SIZE) (hC : C.length = MAP_SIZE) (hV : virgin.length = MAP_SIZE)
    (hCb : IsBytes C) (hVb : IsBytes virgin) :
    (has_new_bits MAP_SIZE C virgin).2 = List.zipWith (fun v c => v &&& (255 - c)) virgin C ∧
    (∀ i, (has_new_bits MAP_SIZE C virgin).2.getD i 0 &&& C.getD i 0 = 0) ∧
    (∀ i, C.getD i 0 &&& virgin.getD i 0 = 0 →
      (has_new_bits MAP_SIZE C virgin).2.getD i 0 = virgin.getD i 0) := by
  obtain ⟨k, rfl⟩ := hM
  have hk : (8 * k) >>> 3 = k := by
    rw [Nat.shiftRight_eq_div_pow]
    omega
  obtain ⟨hl, hp⟩ := has_new_bits_loop_virgin hCb k 0 virgin 0 hVb
  rw [has_new_bits, hk]
  have hget : ∀ i, (has_new_bits_loop C k 0 virgin 0).2.getD i 0 =
      virgin.getD i 0 &&& (255 - C.getD i 0) := by
    intro i
    rw [hp i]
    by_cases hi : i < 8 * k
    · rw [if_pos (by omega)]
    · rw [if_neg (by omega)]
      have : virgin.getD i 0 = 0 := by
        rw [List.getD_eq_getElem?_getD, List.getElem?_eq_none (by omega)]; rfl
      rw [this]; simp
  refine ⟨?_, fun i => ?_, fun i h => ?_⟩
  · apply List.ext_getElem
    · rw [hl, List.length_zipWith, hC, hV]; simp
    · intro i h1 h2
      have := hget i
      rw [List.getD_eq_getElem?_getD, List.getElem?_eq_getElem h1] at this
      rw [List.length_zipWith] at h2
      rw [List.getElem_zipWith]
      simp only [Option.getD_some] at this
      rw [this, List.getD_eq_getElem?_getD, List.getD_eq_getElem?_getD,
        List.getElem?_eq_getElem (by omega), List.getElem?_eq_getElem (by omega)]
      rfl
  · rw [hget i]
    exact land_compl_self _ _ (hCb.getD_lt i)
  · rw [hget i]
    exact land_compl_of_disjoint _ _ (hCb.getD_lt i) (hVb.getD_lt i) h

/-- Witness for C2: an 8-byte map with two hit edges. -/
theorem has_new_bits_clears_virgin_witness :
    (8 ∣ 8 ∧ IsBytes [0, 0, 0, 1, 0, 0, 0, 3]) ∧
    (has_new_bits 8 [0, 0, 0, 1, 0, 0, 0, 3] [254, 255, 255, 254, 255, 255, 255, 255]).2 =
      List.zipWith (fun v c => v &&& (255 - c)) [254, 255, 255, 254, 255, 255, 255, 255]
        [0, 0, 0, 1, 0, 0, 0, 3] :=
  ⟨⟨by decide, by simp [IsBytes]⟩,
    (has_new_bits_clears_virgin 8 _ _ (by decide) (by decide) (by decide)
      (by simp [IsBytes]) (by simp [IsBytes])).1⟩

/-- C3: `has_new_max()` leaves in `max_counts[i]` the larger of the old value and
`perf_bits[i]` for every `1 <= i < PERF_SIZE`, leaves `max_counts[0]` as it was, and returns 1
exactly when some such `i` had `perf_bits[i] > max_counts[i]` before the call (0 otherwise). -/
theorem has_new_max_spec (PERF_SIZE : Nat) (P MAX : List Nat)
    (hP : P.length = PERF_SIZE) (hM : MAX.length = PERF_SIZE) :
    (has_new_max PERF_SIZE P MAX).2.length = PERF_SIZE ∧
    (∀ i, 1 ≤ i → i < PERF_SIZE →
      (has_new_max PERF_SIZE P MAX).2.getD i 0 = max (MAX.getD i 0) (P.getD i 0)) ∧
    (has_new_max PERF_SIZE P MAX).2.getD 0 0 = MAX.getD 0 0 ∧
    ((has_new_max PERF_SIZE P MAX).1 = 1 ↔
      ∃ i, 1 ≤ i ∧ i < PERF_SIZE ∧ P.getD i 0 > MAX.getD i 0) ∧
    ((has_new_max PERF_SIZE P MAX).1 = 0 ∨ (has_new_max PERF_SIZE P MAX).1 = 1) := by
  have _ := hP
  obtain ⟨a1, a2, a3, a4⟩ := has_new_max_loop_spec P (PERF_SIZE - 1) 1 MAX 0
  simp only [has_new_max]
  have hiff : (∃ p, 1 ≤ p ∧ p < 1 + (PERF_SIZE - 1) ∧ P.getD p 0 > MAX.getD p 0) ↔
      ∃ i, 1 ≤ i ∧ i < PERF_SIZE ∧ P.getD i 0 > MAX.getD i 0 := by
    constructor
    · rintro ⟨p, h1, h2, h3⟩
      exact ⟨p, h1, by omega, h3⟩
    · rintro ⟨p, h1, h2, h3⟩
      exact ⟨p, h1, by omega, h3⟩
  rw [hiff] at a3 a4
  refine ⟨by rw [a1, hM], fun i h1 h2 => ?_, ?_, ?_, ?_⟩
  · rw [a2 i, if_pos (by omega)]
  · rw [a2 0, if_neg (by omega)]
  · by_cases hex : ∃ i, 1 ≤ i ∧ i < PERF_SIZE ∧ P.getD i 0 > MAX.getD i 0
    · rw [a3 hex]
      exact ⟨fun _ => hex, fun _ => rfl⟩
    · rw [a4 hex]
      exact ⟨fun h => absurd h (by decide), fun h => absurd h hex⟩
  · by_cases hex : ∃ i, 1 ≤ i ∧ i < PERF_SIZE ∧ P.getD i 0 > MAX.getD i 0
    · rw [a3 hex]; exact Or.inr rfl
    · rw [a4 hex]; exact Or.inl rfl

/-- Witness for C3: four counters, one of them above its recorded maximum. -/
theorem has_new_max_spec_witness :
    ([9, 1, 5, 0].length = 4 ∧ [7, 0, 6, 0].length = 4) ∧
    ((has_new_max 4 [9, 1, 5, 0] [7, 0, 6, 0]).1 = 1 ↔
      ∃ i, 1 ≤ i ∧ i < 4 ∧ [9, 1, 5, 0].getD i 0 > [7, 0, 6, 0].getD i 0) :=
  ⟨⟨by decide, by decide⟩, (has_new_max_spec 4 _ _ (by decide) (by decide)).2.2.2.1⟩

/-- C4 (counterexample): with `perf_bits[1] = 2^31` the `int` result of `hotspot_count()` is
`-2^31`, not the maximum `2^31` of the counters. -/
theorem hotspot_count_not_max :
    hotspot_count 2 [0, 2147483648] = -2147483648 ∧
    hotspot_count 2 [0, 2147483648] ≠ ((([0, 2147483648] : List Nat).getD 1 0 : Nat) : Int) := by
  decide

/-- C4 (amended): the value that `p->hs = hotspot_count()` places in the 32-bit hotspot field
is the maximum of `perf_bits[1 .. PERF_SIZE-1]` (0 when they are all zero or there are none),
and the `int` that `hotspot_count()` returns is that maximum read as a signed 32-bit number,
hence the maximum itself whenever it is below `2^31`. -/
theorem hotspot_count_field_is_max (PERF_SIZE : Nat) (P : List Nat)
    (hP : ∀ c ∈ P, c < 2 ^ 32) :
    (∀ i, 1 ≤ i → i < PERF_SIZE → P.getD i 0 ≤ toU32 (hotspot_count PERF_SIZE P)) ∧
    (toU32 (hotspot_count PERF_SIZE P) = 0 ∨
      ∃ i, 1 ≤ i ∧ i < PERF_SIZE ∧ P.getD i 0 = toU32 (hotspot_count PERF_SIZE P)) ∧
    ((∀ i, 1 ≤ i → i < PERF_SIZE → P.getD i 0 = 0) → toU32 (hotspot_count PERF_SIZE P) = 0) ∧
    hotspot_count PERF_SIZE P = toS32 (toU32 (hotspot_count PERF_SIZE P)) ∧
    (toU32 (hotspot_count PERF_SIZE P) < 2 ^ 31 →
      hotspot_count PERF_SIZE P = (toU32 (hotspot_count PERF_SIZE P) : Int)) ∧
    (∀ (buff : List Nat) (cost : Int) (hnb hnm : Nat), 16 ≤ buff.length →
      le32 (write_reply_fields buff cost ⟨hnb, hnm, hotspot_count PERF_SIZE P⟩) 8 =
        toU32 (hotspot_count PERF_SIZE P)) := by
  have hP1 : ∀ p, P.getD p 0 < 2 ^ 32 := by
    intro p
    rw [List.getD_eq_getElem?_getD]
    by_cases hp : p < P.length
    · rw [List.getElem?_eq_getElem hp]
      exact hP _ (List.getElem_mem hp)
    · rw [List.getElem?_eq_none (by omega)]
      decide
  obtain ⟨m, e, b, -, h2, h3⟩ := hotspot_count_loop_spec P hP1 (PERF_SIZE - 1) 1 0 (by decide)
  have e0 : toS32 0 = 0 := by decide
  rw [e0] at e
  have hm : toU32 (hotspot_count PERF_SIZE P) = m := by
    rw [hotspot_count, e, toU32_toS32 m b]
  rw [hm]
  refine ⟨fun i h1 hi => h2 i h1 (by omega), ?_, fun hz => ?_, ?_, fun hlt => ?_,
    fun buff cost hnb hnm hl => ?_⟩
  · rcases h3 with h3 | ⟨p, q1, q2, q3⟩
    · exact Or.inl h3
    · exact Or.inr ⟨p, q1, by omega, q3⟩
  · rcases h3 with h3 | ⟨p, q1, q2, q3⟩
    · exact h3
    · rw [← q3]; exact hz p q1 (by omega)
  · rw [hotspot_count, e]
  · rw [hotspot_count, e, toS32, Nat.mod_eq_of_lt b, if_pos hlt]
  · rw [reply_field_hs _ _ _ hl]
    show toU32 (hotspot_count PERF_SIZE P) % 2 ^ 32 = m
    rw [hm, Nat.mod_eq_of_lt b]

/-- Witness for C4: four counters with maximum 5 after the aggregate slot. -/
theorem hotspot_count_field_is_max_witness :
    (∀ c ∈ [9, 1, 5, 0], c < 2 ^ 32) ∧
    (∀ i, 1 ≤ i → i < 4 → [9, 1, 5, 0].getD i 0 ≤ toU32 (hotspot_count 4 [9, 1, 5, 0])) :=
  ⟨by decide, (hotspot_count_field_is_max 4 [9, 1, 5, 0] (by decide)).1⟩

set_option maxRecDepth 100000 in
/-- C5: for every byte value `n` the table `count_class_lookup8` holds the bucket of `n`:
0 for 0, 1 for 1, 2 for 2, 4 for 3, 8 for 4..7, 16 for 8..15, 32 for 16..31, 64 for 32..127,
128 for 128..255; the table has 256 entries. -/
theorem count_class_lookup8_eq_bucket (n : Nat) (h : n < 256) :
    count_class_lookup8.getD n 0 = bucket n ∧ count_class_lookup8.length = 256 := by
  revert n
  decide

/-- Witness for C5: the raw count 37. -/
theorem count_class_lookup8_eq_bucket_witness :
    37 < 256 ∧ count_class_lookup8.getD 37 0 = bucket 37 :=
  ⟨by decide, (count_class_lookup8_eq_bucket 37 (by decide)).1⟩

/-- C6: after `init_count_class16`, `classify_counts` rewrites every byte `C[i]` of a map of
`MAP_SIZE` bytes into `count_class_lookup8[C[i]]`: the four 16-bit lookups per 64-bit word,
with all-zero words skipped, equal the byte-by-byte bucket function, for either byte order. -/
theorem classify_counts_refines_bytewise (be : Bool) (MAP_SIZE : Nat) (table0 C : List Nat)
    (ht : table0.length = 65536) (hM : 8 ∣ MAP_SIZE) (hC : C.length = MAP_SIZE)
    (hCb : IsBytes C) :
    classify_counts be (init_count_class16 table0) MAP_SIZE C = classify_bytewise C ∧
    ∀ i, i < MAP_SIZE →
      (classify_counts be (init_count_class16 table0) MAP_SIZE C).getD i 0 =
        count_class_lookup8.getD (C.getD i 0) 0 := by
  have h := classify_counts_eq_map be MAP_SIZE table0 C ht hM hC hCb
  refine ⟨h, fun i hi => ?_⟩
  rw [h, classify_bytewise, getD_of_lt _ _ (by rw [List.length_map]; omega),
    getD_of_lt C i (by omega), List.getElem_map]

/-- Witness for C6: an 8-byte map classified in big-endian order. -/
theorem classify_counts_refines_bytewise_witness :
    (8 ∣ 8 ∧ IsBytes [3, 0, 17, 0, 0, 0, 255, 1]) ∧
    classify_counts true (init_count_class16 (List.replicate 65536 0)) 8
        [3, 0, 17, 0, 0, 0, 255, 1] = classify_bytewise [3, 0, 17, 0, 0, 0, 255, 1] :=
  ⟨⟨by decide, by simp [IsBytes]⟩,
    (classify_counts_refines_bytewise true 8 _ _ (List.length_replicate _ _) (by decide)
      (by decide) (by simp [IsBytes])).1⟩

/-- C7 (counterexample): a byte holding the raw count 3 becomes 4 under one pass of
`classify_counts` and 8 under a second pass, so the second pass changes the array. -/
theorem classify_counts_not_idempotent :
    classify_counts false (init_count_class16 (List.replicate 65536 0)) 8
        (classify_counts false (init_count_class16 (List.replicate 65536 0)) 8
          [3, 0, 0, 0, 0, 0, 0, 0]) ≠
      classify_counts false (init_count_class16 (List.replicate 65536 0)) 8
        [3, 0, 0, 0, 0, 0, 0, 0] ∧
    classify_counts false (init_count_class16 (List.replicate 65536 0)) 8
        (classify_counts false (init_count_class16 (List.replicate 65536 0)) 8
          [3, 0, 0, 0, 0, 0, 0, 0]) = [8, 0, 0, 0, 0, 0, 0, 0] ∧
    classify_counts false (init_count_class16 (List.replicate 65536 0)) 8
        [3, 0, 0, 0, 0, 0, 0, 0] = [4, 0, 0, 0, 0, 0, 0, 0] := by
  have h1 : classify_counts false (init_count_class16 (List.replicate 65536 0)) 8
      [3, 0, 0, 0, 0, 0, 0, 0] = [4, 0, 0, 0, 0, 0, 0, 0] := by
    rw [classify_counts_eq_map false 8 _ _ (List.length_replicate _ _) (by decide) (by decide)
      (by simp [IsBytes])]
    decide
  rw [h1, classify_counts_eq_map false 8 _ _ (List.length_replicate _ _) (by decide) (by decide)
    (by simp [IsBytes])]
  exact ⟨by decide, by decide, rfl⟩

/-- C7 (amended): on a map of `MAP_SIZE` bytes, a second pass of `classify_counts` leaves the
result of the first pass unchanged exactly when every byte of the map is 0, 1, 2 or at
least 32; a byte in 3..31 is moved on to the next bucket by the second pass. -/
theorem classify_counts_twice_iff (be : Bool) (MAP_SIZE : Nat) (table0 x : List Nat)
    (ht : table0.length = 65536) (hM : 8 ∣ MAP_SIZE) (hx : x.length = MAP_SIZE)
    (hxb : IsBytes x) :
    classify_counts be (init_count_class16 table0) MAP_SIZE
        (classify_counts be (init_count_class16 table0) MAP_SIZE x) =
      classify_counts be (init_count_class16 table0) MAP_SIZE x ↔
    ∀ b ∈ x, b ≤ 2 ∨ 32 ≤ b := by
  rw [classify_counts_eq_map be MAP_SIZE table0 x ht hM hx hxb,
    classify_counts_eq_map be MAP_SIZE table0 _ ht hM
      (by rw [classify_bytewise, List.length_map]; exact hx) (isBytes_classify_bytewise hxb)]
  simp only [classify_bytewise, List.map_map, List.map_inj_left, Function.comp]
  constructor
  · intro h b hb
    exact (l8_twice_iff b (hxb b hb)).1 (h b hb)
  · intro h b hb
    exact (l8_twice_iff b (hxb b hb)).2 (h b hb)

/-- Witness for C7: a map whose bytes are all 0, 1, 2 or at least 32. -/
theorem classify_counts_twice_iff_witness :
    (8 ∣ 8 ∧ IsBytes [40, 0, 1, 2, 200, 0, 0, 0]) ∧
    (classify_counts true (init_count_class16 (List.replicate 65536 0)) 8
        (classify_counts true (init_count_class16 (List.replicate 65536 0)) 8
          [40, 0, 1, 2, 200, 0, 0, 0]) =
      classify_counts true (init_count_class16 (List.replicate 65536 0)) 8
        [40, 0, 1, 2, 200, 0, 0, 0] ↔
    ∀ b ∈ [40, 0, 1, 2, 200, 0, 0, 0], b ≤ 2 ∨ 32 ≤ b) :=
  ⟨⟨by decide, by simp [IsBytes]⟩,
    classify_counts_twice_iff true 8 _ _ (List.length_replicate _ _) (by decide) (by decide) (by simp [IsBytes])⟩

/-- C8: handling a request whose run type is `"wup"` leaves `virgin_bits` and `max_counts`
exactly as they were, whatever the child writes, whatever the wait status, through every
retry of the consistency check, and also when the process ends on the way. -/
theorem warmup_leaves_virgin_and_max (cfg : Config) (req : Request) (s : State)
    (hn : 20 ≤ req.frame.length) (hb : req.frame.length ≤ s.buff.length)
    (hw : IsWarmupFrame req.frame) :
    (handle_request cfg req s).state.virgin_bits = s.virgin_bits ∧
    (handle_request cfg req s).state.max_counts = s.max_counts := by
  rcases handle_request_cases cfg req s with ⟨h, -⟩ | ⟨s4, h, heq⟩
  · exact ⟨h.2.1, h.2.2.1⟩
  · have hw4 : run_type_not_wup s4.buff = false := by
      rw [h.1]
      exact run_type_wup_of_frame s.buff req.frame hn hb hw
    rw [heq, reply_to_request_state, reply_state_warmup cfg s4 hw4]
    exact ⟨h.2.1, h.2.2.1⟩

/-- Witness for C8: a 21-byte warmup frame handled in the middle of a connection. -/
theorem warmup_leaves_virgin_and_max_witness :
    (20 ≤ (demoRequest [119, 117, 112, 0]).frame.length ∧
      IsWarmupFrame (demoRequest [119, 117, 112, 0]).frame) ∧
    (handle_request demoConfig (demoRequest [119, 117, 112, 0]) demoState).state.virgin_bits =
      demoState.virgin_bits :=
  ⟨⟨by decide, by decide⟩,
    (warmup_leaves_virgin_and_max demoConfig (demoRequest [119, 117, 112, 0]) demoState
      (by decide) (by rw [demoState_buff_length]; decide) (by decide)).1⟩

/-- C9: the reply to a warmup request carries `has_new_bits == 0`, `has_new_max == 0` and
`hotspot == 0` whatever the run produced, and `exec_cost` holds `perf_bits[0]`. -/
theorem warmup_reply_fields (cfg : Config) (req : Request) (s : State)
    (hn : 20 ≤ req.frame.length) (hb : req.frame.length ≤ s.buff.length)
    (hw : IsWarmupFrame req.frame) (reply : List Nat) (s1 : State)
    (h : handle_request cfg req s = .ok reply s1) (hP : s1.perf_bits.getD 0 0 < 2 ^ 32) :
    reply.length = req.frame.length ∧ le32 reply 12 = 0 ∧ reply.getD 4 0 = 0 ∧
    le32 reply 8 = 0 ∧ le32 reply 0 = s1.perf_bits.getD 0 0 := by
  rcases handle_request_cases cfg req s with ⟨-, e, he⟩ | ⟨s4, hs, heq⟩
  · rw [h] at he
    exact Res.noConfusion he
  · have hw4 : run_type_not_wup s4.buff = false := by
      rw [hs.1]
      exact run_type_wup_of_frame s.buff req.frame hn hb hw
    have hl4 : 16 ≤ s4.buff.length := by
      rw [hs.1]
      have : (storeBytes s.buff 0 req.frame).length = s.buff.length := length_storeBytes _ _ _
      show 16 ≤ (storeBytes s.buff 0 req.frame).length
      omega
    rw [heq] at h
    obtain ⟨hr, hs1⟩ := reply_to_request_ok cfg req s4 reply s1 h
    rw [reply_state_warmup cfg s4 hw4] at hr hs1
    simp only [] at hr
    have hP4 : s4.perf_bits.getD 0 0 < 2 ^ 32 := by
      rw [hs1] at hP
      exact hP
    refine ⟨?_, ?_, ?_, ?_, ?_⟩
    · rw [hr, List.length_take, write_reply_fields_length]
      have : (storeBytes s.buff 0 req.frame).length = s.buff.length := length_storeBytes _ _ _
      rw [hs.1]
      show min req.frame.length (storeBytes s.buff 0 req.frame).length = _
      omega
    · rw [hr, le32_take _ _ _ (by omega), reply_field_hnb _ _ _ hl4]
      rfl
    · rw [hr, getD_take_nat _ _ _ (by omega), reply_field_hnm _ _ _ hl4]
      rfl
    · rw [hr, le32_take _ _ _ (by omega), reply_field_hs _ _ _ hl4]
      rfl
    · rw [hr, le32_take _ _ _ (by omega), reply_field_exec_cost _ _ _ hl4, toU32_toS32 _ hP4,
        Nat.mod_eq_of_lt hP4, hs1]

/-- Witness for C9: the reply to a 21-byte warmup frame whose run costs 5. -/
theorem warmup_reply_fields_witness :
    (20 ≤ (demoRequest [119, 117, 112, 0]).frame.length ∧
      IsWarmupFrame (demoRequest [119, 117, 112, 0]).frame) ∧
    le32 [5, 0, 0, 0, 0, 9, 9, 9, 0, 0, 0, 0, 0, 0, 0, 0, 119, 117, 112, 0, 65] 12 = 0 :=
  ⟨⟨by decide, by decide⟩,
    (warmup_reply_fields demoConfig (demoRequest [119, 117, 112, 0]) demoState
      (by decide) (by rw [demoState_buff_length]; decide) (by decide)
      [5, 0, 0, 0, 0, 9, 9, 9, 0, 0, 0, 0, 0, 0, 0, 0, 119, 117, 112, 0, 65]
      (handle_request demoConfig (demoRequest [119, 117, 112, 0]) demoState).state
      (by rfl) (by decide)).2.1⟩

/-- C10: accepting a connection leaves every byte of `virgin_bits` at 0xFF and every max
counter at 0, whatever the globals held before (the end of the previous connection or the
state left by the dry run). -/
theorem accept_connection_resets (cfg : Config) (s : State) :
    (accept_connection cfg s).virgin_bits = List.replicate cfg.MAP_SIZE 0xff ∧
    (accept_connection cfg s).max_counts = List.replicate cfg.PERF_SIZE 0 ∧
    (accept_connection cfg s).buff = List.replicate BUFFSIZE 0 :=
  ⟨rfl, rfl, rfl⟩

/-- C11: a request whose first run and every re-execution leave the counters `[5, 2, 2]`
(`perf_bits[0] = 5`, sum of the others 4) is re-executed 11 times, not 10: the process ends
with `attempts + 1 == 12` in the diagnostic and 12 executions counted in `total_execs`. -/
theorem rerun_eleven_times_before_abort :
    (handle_request demoConfig
      (demoRequestWith (demoFrame [65]) (demoExecWith [0, 0, 0, 0, 0, 0, 0, 0] [5, 2, 2]))
      demoState).aborted = some (.not_equal 12) ∧
    (handle_request demoConfig
      (demoRequestWith (demoFrame [65]) (demoExecWith [0, 0, 0, 0, 0, 0, 0, 0] [5, 2, 2]))
      demoState).state.total_execs = demoState.total_execs + 12 := by
  refine handle_request_all_inconsistent demoConfig
    (demoRequestWith (demoFrame [65]) (demoExecWith [0, 0, 0, 0, 0, 0, 0, 0] [5, 2, 2]))
    demoState rfl rfl (fun k => rfl) (fun k s1 => ?_)
  have h : (run_target demoConfig (demoExecWith [0, 0, 0, 0, 0, 0, 0, 0] [5, 2, 2])
      s1).state.perf_bits = [5, 2, 2] :=
    run_target_perf_bits demoConfig (demoExecWith [0, 0, 0, 0, 0, 0, 0, 0] [5, 2, 2]) s1 rfl rfl
  have h2 := not_equal_congr demoConfig { demoState with perf_bits := [5, 2, 2] }
    (run_target demoConfig (demoExecWith [0, 0, 0, 0, 0, 0, 0, 0] [5, 2, 2]) s1).state h
  exact h2.trans (by decide)

/-- C12 (counterexample): with `PERF_SIZE = 3` and the counters `[0, 2^31, 2^31]` the `int`
sum wraps to 0, the check passes and the request is answered, although the exact sum of
`perf_bits[1]` and `perf_bits[2]` is `2^32`, not `perf_bits[0] = 0`. -/
theorem reply_with_wrapped_sum :
    (handle_request demoConfig
      (demoRequestWith (demoFrame [65])
        (demoExecWith [0, 0, 0, 0, 0, 0, 0, 0] [0, 2147483648, 2147483648]))
      demoState).value =
        some [0, 0, 0, 0, 1, 9, 9, 9, 0, 0, 0, 128, 0, 0, 0, 0, 110, 109, 108, 0, 65] ∧
    (handle_request demoConfig
      (demoRequestWith (demoFrame [65])
        (demoExecWith [0, 0, 0, 0, 0, 0, 0, 0] [0, 2147483648, 2147483648]))
      demoState).state.perf_bits = [0, 2147483648, 2147483648] ∧
    counter_sum [0, 2147483648, 2147483648] (demoConfig.PERF_SIZE - 1) 1 ≠
      ([0, 2147483648, 2147483648] : List Nat).getD 0 0 :=
  ⟨by rfl, by rfl, by decide⟩

/-- C12 (amended): whenever a reply is sent, the counters it is computed from satisfy
`perf_bits[0] ≡ perf_bits[1] + ... + perf_bits[PERF_SIZE-1]` modulo `2^32`; the two sides are
equal as numbers whenever the exact sum is below `2^32`. -/
theorem reply_cost_consistent_mod (cfg : Config) (req : Request) (s : State)
    (reply : List Nat) (s1 : State) (h : handle_request cfg req s = .ok reply s1)
    (hP : s1.perf_bits.getD 0 0 < 2 ^ 32) :
    counter_sum s1.perf_bits (cfg.PERF_SIZE - 1) 1 % 2 ^ 32 = s1.perf_bits.getD 0 0 ∧
    (counter_sum s1.perf_bits (cfg.PERF_SIZE - 1) 1 < 2 ^ 32 →
      s1.perf_bits.getD 0 0 = counter_sum s1.perf_bits (cfg.PERF_SIZE - 1) 1) := by
  obtain ⟨r, s2, s4, -, hv, hr⟩ := handle_request_ok cfg req s reply s1 h
  have hne := validate_cost_ok cfg req.exec _ s4 () hv
  obtain ⟨-, hs1⟩ := reply_to_request_ok cfg req s4 reply s1 hr
  have hp : s1.perf_bits = s4.perf_bits := by
    rw [hs1]
    exact (reply_state_fields cfg s4).1
  rw [not_equal_eq_false_iff, ← hp, Nat.mod_eq_of_lt hP] at hne
  refine ⟨hne, fun hlt => ?_⟩
  rw [← hne, Nat.mod_eq_of_lt hlt]

/-- Witness for C12: a request answered with the counters `[5, 2, 3]`. -/
theorem reply_cost_consistent_mod_witness :
    counter_sum (handle_request demoConfig (demoRequest [110, 109, 108, 0])
        demoState).state.perf_bits (demoConfig.PERF_SIZE - 1) 1 % 2 ^ 32 =
      (handle_request demoConfig (demoRequest [110, 109, 108, 0])
        demoState).state.perf_bits.getD 0 0 :=
  (reply_cost_consistent_mod demoConfig (demoRequest [110, 109, 108, 0]) demoState
    [5, 0, 0, 0, 1, 9, 9, 9, 3, 0, 0, 0, 0, 0, 0, 0, 110, 109, 108, 0, 65]
    (handle_request demoConfig (demoRequest [110, 109, 108, 0]) demoState).state
    (by rfl) (by decide)).1

/-- C14: an answered request of `nread >= 20` bytes gets a reply of exactly `nread` bytes
whose bytes at offsets 5..7 and 16..`nread - 1` are those of the request; only the fields
`exec_cost` (0-3), `has_new_max` (4), `hotspot` (8-11) and `has_new_bits` (12-15) can
differ. -/
theorem reply_echoes_frame (cfg : Config) (req : Request) (s : State) (reply : List Nat)
    (s1 : State) (h : handle_request cfg req s = .ok reply s1)
    (h20 : 20 ≤ req.frame.length) (hb : req.frame.length ≤ s.buff.length) :
    reply.length = req.frame.length ∧
    ∀ p, p < req.frame.length → (5 ≤ p ∧ p ≤ 7) ∨ 16 ≤ p →
      reply.getD p 0 = req.frame.getD p 0 := by
  obtain ⟨s4, hbuf, -, -, -, hr⟩ := handle_request_reply cfg req s reply s1 h
  have hl : s4.buff.length = s.buff.length := by rw [hbuf, length_storeBytes]
  refine ⟨?_, fun p hp hpos => ?_⟩
  · rw [hr, List.length_take, write_reply_fields_length]
    omega
  · rw [hr, getD_take_nat _ _ _ hp, write_reply_fields_getD _ _ _ (by omega),
      if_neg (by omega), if_neg (by omega), if_neg (by omega), if_neg (by omega), hbuf,
      recv_getD _ _ _ hp hb]

/-- Witness for C14: the reply to a 21-byte frame. -/
theorem reply_echoes_frame_witness :
    20 ≤ (demoRequest [110, 109, 108, 0]).frame.length ∧
    [5, 0, 0, 0, 1, 9, 9, 9, 3, 0, 0, 0, 0, 0, 0, 0, 110, 109, 108, 0, 65].length =
      (demoRequest [110, 109, 108, 0]).frame.length :=
  ⟨by decide,
    (reply_echoes_frame demoConfig (demoRequest [110, 109, 108, 0]) demoState
      [5, 0, 0, 0, 1, 9, 9, 9, 3, 0, 0, 0, 0, 0, 0, 0, 110, 109, 108, 0, 65]
      (handle_request demoConfig (demoRequest [110, 109, 108, 0]) demoState).state
      (by rfl) (by decide) (by rw [demoState_buff_length]; decide)).1⟩

/-- C15: in the reply to an actual request, `exec_cost` is `perf_bits[0]`, `has_new_max` is
the result of `has_new_max()` on the counters and the max counters from before, `hotspot`
is the result of `hotspot_count()` stored in the 32-bit field, `has_new_bits` is the result
of `has_new_bits(virgin_bits)` on the classified trace and the virgin map from before; the
virgin map and the max counters afterwards are the ones the two calls leave. -/
theorem actual_reply_fields (cfg : Config) (req : Request) (s : State) (reply : List Nat)
    (s1 : State) (h : handle_request cfg req s = .ok reply s1)
    (h20 : 20 ≤ req.frame.length) (hb : req.frame.length ≤ s.buff.length)
    (hact : IsActualFrame req.frame) (hP : s1.perf_bits.getD 0 0 < 2 ^ 32) :
    le32 reply 0 = s1.perf_bits.getD 0 0 ∧
    reply.getD 4 0 = (has_new_max cfg.PERF_SIZE s1.perf_bits s.max_counts).1 ∧
    le32 reply 8 = toU32 (hotspot_count cfg.PERF_SIZE s1.perf_bits) ∧
    le32 reply 12 = (has_new_bits cfg.MAP_SIZE s1.trace_bits s.virgin_bits).1 ∧
    s1.virgin_bits = (has_new_bits cfg.MAP_SIZE s1.trace_bits s.virgin_bits).2 ∧
    s1.max_counts = (has_new_max cfg.PERF_SIZE s1.perf_bits s.max_counts).2 := by
  obtain ⟨s4, hbuf, hv, hm, hs1, hr⟩ := handle_request_reply cfg req s reply s1 h
  have hl : 16 ≤ s4.buff.length := by
    rw [hbuf, length_storeBytes]
    omega
  have hnw : run_type_not_wup s4.buff = true := by
    rw [hbuf]
    exact run_type_not_wup_of_frame _ _ h20 hb hact
  obtain ⟨f1, f2, f3⟩ := collect_feedback_actual cfg s4 hnw
  obtain ⟨p1, p2, -, p4, p5, -⟩ := reply_state_fields cfg s4
  rw [← hs1] at p1 p2 p4 p5
  rw [p1, p2, p4, p5, f2, f3, hv, hm]
  rw [p1] at hP
  rw [f1, hv, hm] at hr
  refine ⟨?_, ?_, ?_, ?_, rfl, rfl⟩
  · rw [hr, le32_take _ _ _ (by omega), reply_field_exec_cost _ _ _ hl, toU32_toS32 _ hP,
      Nat.mod_eq_of_lt hP]
  · rw [hr, getD_take_nat _ _ _ (by omega), reply_field_hnm _ _ _ hl]
    show (has_new_max cfg.PERF_SIZE s4.perf_bits s.max_counts).1 % 256 = _
    rw [has_new_max]
    exact Nat.mod_mod _ _
  · rw [hr, le32_take _ _ _ (by omega), reply_field_hs _ _ _ hl]
    exact Nat.mod_eq_of_lt (toU32_lt _)
  · rw [hr, le32_take _ _ _ (by omega), reply_field_hnb _ _ _ hl]
    have := has_new_bits_le cfg.MAP_SIZE s4.trace_bits s.virgin_bits
    exact Nat.mod_eq_of_lt (Nat.lt_of_le_of_lt this (by norm_num))

/-- Witness for C15: the reply to an actual request whose run costs 5 with hotspot 3. -/
theorem actual_reply_fields_witness :
    (20 ≤ (demoRequest [110, 109, 108, 0]).frame.length ∧
      IsActualFrame (demoRequest [110, 109, 108, 0]).frame) ∧
    le32 [5, 0, 0, 0, 1, 9, 9, 9, 3, 0, 0, 0, 0, 0, 0, 0, 110, 109, 108, 0, 65] 8 =
      toU32 (hotspot_count demoConfig.PERF_SIZE
        (handle_request demoConfig (demoRequest [110, 109, 108, 0])
          demoState).state.perf_bits) :=
  ⟨⟨by decide, by decide⟩,
    (actual_reply_fields demoConfig (demoRequest [110, 109, 108, 0]) demoState
      [5, 0, 0, 0, 1, 9, 9, 9, 3, 0, 0, 0, 0, 0, 0, 0, 110, 109, 108, 0, 65]
      (handle_request demoConfig (demoRequest [110, 109, 108, 0]) demoState).state
      (by rfl) (by decide) (by rw [demoState_buff_length]; decide) (by decide)
      (by decide)).2.2.1⟩

/-- C16: when the wait status of a run arrives, no stop was requested and the status says
the child was terminated by a signal, `run_target` returns `FAULT_TMOUT` exactly when the
timed-out flag is set and the signal is `SIGKILL`, and `FAULT_CRASH` otherwise. -/
theorem run_target_signalled (cfg : Config) (ev : Exec) (s : State)
    (harr : status_arrives cfg ev = true) (hstop : s.stop_soon = 0)
    (hsig : ev.stop_signal = false) (hterm : WIFSIGNALED ev.status = true) :
    (ev.timed_out = true ∧ WTERMSIG ev.status = SIGKILL →
      (run_target cfg ev s).value = some FAULT_TMOUT) ∧
    (¬ (ev.timed_out = true ∧ WTERMSIG ev.status = SIGKILL) →
      (run_target cfg ev s).value = some FAULT_CRASH) := by
  rw [run_target_value cfg ev s harr, hstop, hsig, hterm]
  constructor
  · rintro ⟨h1, h2⟩
    rw [h1, h2]
    rfl
  · intro h
    by_cases h1 : ev.timed_out = true
    · have h2 : WTERMSIG ev.status ≠ SIGKILL := fun e => h ⟨h1, e⟩
      have h3 : (WTERMSIG ev.status == SIGKILL) = false := by simpa using h2
      rw [h1, h3]
      rfl
    · have h3 : ev.timed_out = false := by simpa using h1
      rw [h3]
      rfl

/-- Witness for C16: a child killed by `SIGKILL` after the timer fired. -/
theorem run_target_signalled_witness :
    (status_arrives demoConfig { demoExec with status := 9, timed_out := true } = true ∧
      WIFSIGNALED 9 = true) ∧
    (run_target demoConfig { demoExec with status := 9, timed_out := true } demoState).value =
      some FAULT_TMOUT :=
  ⟨⟨by rfl, by decide⟩,
    (run_target_signalled demoConfig { demoExec with status := 9, timed_out := true }
      demoState (by rfl) (by rfl) (by rfl) (by decide)).1 ⟨rfl, by decide⟩⟩

/-- C17 (counterexample): with the fork server in use, a child that exits normally and
leaves `EXEC_FAIL_SIG` in the first word of the trace makes `run_target` return
`FAULT_NONE`. -/
theorem exec_fail_sig_ignored_with_forkserver :
    le32 (raw_trace demoConfig (demoExecWith demoExecFailTrace [0, 0, 0]) demoState) 0 =
      demoConfig.EXEC_FAIL_SIG ∧
    WIFSIGNALED (demoExecWith demoExecFailTrace [0, 0, 0]).status = false ∧
    (run_target demoConfig (demoExecWith demoExecFailTrace [0, 0, 0]) demoState).value =
      some FAULT_NONE := by
  refine ⟨by decide, by decide, ?_⟩
  rw [run_target_value _ _ _ (by rfl)]
  decide

/-- C17 (amended): for a run whose child was not terminated by a signal and did not exit
with the MSAN exit code, `run_target` returns `FAULT_ERROR` when the first 32-bit word of
the trace the child left equals `EXEC_FAIL_SIG` and the run was made without the fork
server (`dumb_mode == 1` or `no_forkserver`); in every other case, and so always with the
fork server, it returns `FAULT_NONE`. -/
theorem run_target_exec_fail (cfg : Config) (ev : Exec) (s : State)
    (harr : status_arrives cfg ev = true) (hterm : WIFSIGNALED ev.status = false)
    (hmsan : WEXITSTATUS ev.status ≠ cfg.MSAN_ERROR) :
    ((cfg.dumb_mode = 1 ∨ cfg.no_forkserver = true) →
      le32 (raw_trace cfg ev s) 0 = cfg.EXEC_FAIL_SIG →
      (run_target cfg ev s).value = some FAULT_ERROR) ∧
    (¬ ((cfg.dumb_mode = 1 ∨ cfg.no_forkserver = true) ∧
        le32 (raw_trace cfg ev s) 0 = cfg.EXEC_FAIL_SIG) →
      (run_target cfg ev s).value = some FAULT_NONE) ∧
    (cfg.dumb_mode ≠ 1 → cfg.no_forkserver = false →
      (run_target cfg ev s).value = some FAULT_NONE) := by
  have hm : (WEXITSTATUS ev.status == cfg.MSAN_ERROR) = false := by simpa using hmsan
  rw [run_target_value cfg ev s harr, hterm, hm]
  simp only [Bool.false_and, Bool.and_false, Bool.false_eq_true, if_false]
  refine ⟨fun h1 h2 => ?_, fun h => ?_, fun h1 h2 => ?_⟩
  · rw [if_pos]
    simpa using ⟨h1, h2⟩
  · rw [if_neg]
    simpa using h
  · rw [if_neg]
    simp [h1, h2]

/-- Witness for C17: a run without the fork server whose trace starts with
`EXEC_FAIL_SIG`. -/
theorem run_target_exec_fail_witness :
    (status_arrives demoConfigNoForkserver (demoExecWith demoExecFailTrace [0, 0, 0]) = true ∧
      WIFSIGNALED (demoExecWith demoExecFailTrace [0, 0, 0]).status = false) ∧
    (run_target demoConfigNoForkserver (demoExecWith demoExecFailTrace [0, 0, 0])
      demoState).value = some FAULT_ERROR :=
  ⟨⟨by rfl, by decide⟩,
    (run_target_exec_fail demoConfigNoForkserver (demoExecWith demoExecFailTrace [0, 0, 0])
      demoState (by rfl) (by decide) (by decide)).1 (Or.inr rfl) (by decide)⟩

/-- C18 (counterexample): without the fork server, a run that leaves `EXEC_FAIL_SIG` in the
trace is reported as `FAULT_ERROR`, and the request ends the process in `common_fuzz_stuff`
instead of being answered. -/
theorem exec_fail_ends_process :
    (run_target demoConfigNoForkserver (demoExecWith demoExecFailTrace [0, 0, 0])
      (write_to_testcase (request_input (recv_state demoState (demoFrame [65])).buff)
        (recv_state demoState (demoFrame [65])))).value = some FAULT_ERROR ∧
    (handle_request demoConfigNoForkserver
      (demoRequestWith (demoFrame [65]) (demoExecWith demoExecFailTrace [0, 0, 0]))
      demoState).aborted = some .fault_error ∧
    (handle_request demoConfigNoForkserver
      (demoRequestWith (demoFrame [65]) (demoExecWith demoExecFailTrace [0, 0, 0]))
      demoState).value = none := by
  refine ⟨?_, by rfl, by rfl⟩
  rw [run_target_value _ _ _ (by rfl)]
  decide

/-- C18 (amended): when the executor reports the run of a request as timeout or crash, the
server logs one warning, does not end the process in `common_fuzz_stuff`, and what follows
is decided by the validation of the cost alone: if the validation ends the process so does
the request, and whenever it returns, at once or after re-executions, the reply is sent if
it can be written. When the executor reports `FAULT_ERROR` and neither a stop nor a skip is
pending, `common_fuzz_stuff` ends the process and no reply is sent. This holds with and
without a post-processing library, for the run of the input the library returns. -/
theorem faults_logged_and_answered (cfg : Config) (req : Request) (s : State)
    (buf : List Nat) (fault : Nat) (s2 : State)
    (hproc : post_processed cfg (request_input (recv_state s req.frame).buff) = some buf)
    (hrun : run_target cfg (req.exec 0) (write_to_testcase buf (recv_state s req.frame)) =
      .ok fault s2) :
    (fault = FAULT_TMOUT ∨ fault = FAULT_CRASH →
      ∃ r s3,
        common_fuzz_stuff cfg (req.exec 0) (request_input (recv_state s req.frame).buff)
          (recv_state s req.frame) = .ok r s3 ∧
        (if (r != 0) = true then { s3 with log := s3.log ++ [.too_many_timeouts_or_skipped] }
          else s3).log =
          s2.log ++ [if r = 0 then (if fault = FAULT_TMOUT then LogMsg.fault_tmout
            else LogMsg.fault_crash) else LogMsg.too_many_timeouts_or_skipped] ∧
        (∀ s4, validate_cost cfg req.exec
            (if (r != 0) = true then
              { s3 with log := s3.log ++ [.too_many_timeouts_or_skipped] } else s3) =
              .ok () s4 →
          req.send_ok = true →
          handle_request cfg req s =
            .ok ((reply_state cfg s4).buff.take req.frame.length) (reply_state cfg s4)) ∧
        (∀ e s4, validate_cost cfg req.exec
            (if (r != 0) = true then
              { s3 with log := s3.log ++ [.too_many_timeouts_or_skipped] } else s3) =
              .abort e s4 →
          handle_request cfg req s = .abort e s4) ∧
        (not_equal cfg s2 = false → req.send_ok = true →
          ∃ reply s5, handle_request cfg req s = .ok reply s5)) ∧
    (fault = FAULT_ERROR → s2.stop_soon = 0 → s2.skip_requested = 0 →
      (handle_request cfg req s).aborted = some .fault_error ∧
      (handle_request cfg req s).value = none) := by
  have hcfs := handle_request_of_run cfg req s buf fault s2 hproc hrun
  constructor
  · intro hf
    obtain ⟨r, s3, h1, h2⟩ := common_fuzz_stuff_after_run_logged cfg fault s2 hf
    have hp := (common_fuzz_stuff_after_run_fields cfg fault s2).1
    rw [h1] at hp
    have hreply : ∀ s4, validate_cost cfg req.exec
        (if (r != 0) = true then
          { s3 with log := s3.log ++ [.too_many_timeouts_or_skipped] } else s3) =
          .ok () s4 →
        req.send_ok = true →
        handle_request cfg req s =
          .ok ((reply_state cfg s4).buff.take req.frame.length) (reply_state cfg s4) := by
      intro s4 hv hsend
      rw [handle_request_eq, hcfs, h1]
      simp only []
      rw [hv]
      simp only []
      unfold reply_to_request
      simp only [hsend, if_true]
    refine ⟨r, s3, hcfs.trans h1, h2, hreply, fun e s4 hv => ?_, fun hc hsend => ?_⟩
    · rw [handle_request_eq, hcfs, h1]
      simp only []
      rw [hv]
    · have hc3 : not_equal cfg
          (if (r != 0) = true then { s3 with log := s3.log ++ [.too_many_timeouts_or_skipped] }
            else s3) = false := by
        rw [not_equal_congr cfg s2 _ (by split_ifs <;> exact hp)]
        exact hc
      exact ⟨_, _, hreply _ (validate_cost_of_consistent _ _ _ hc3) hsend⟩
  · intro hf hstop hskip
    subst hf
    rw [handle_request_eq, hcfs, common_fuzz_stuff_after_run_error cfg s2 hstop hskip]
    exact ⟨rfl, rfl⟩

/-- Witness for C18: the first run of a request is killed by `SIGSEGV` and leaves
inconsistent counters; the fault is logged, the target is executed again, the counters of
the second run pass the check and the request is answered. -/
theorem faults_logged_and_answered_witness :
    (run_target demoConfig (demoRequestCrashThenRerun.exec 0)
      (write_to_testcase
        (request_input (recv_state demoState demoRequestCrashThenRerun.frame).buff)
        (recv_state demoState demoRequestCrashThenRerun.frame))).value = some FAULT_CRASH ∧
    (handle_request demoConfig demoRequestCrashThenRerun demoState).value =
      some [5, 0, 0, 0, 1, 9, 9, 9, 3, 0, 0, 0, 0, 0, 0, 0, 110, 109, 108, 0, 65] ∧
    (handle_request demoConfig demoRequestCrashThenRerun demoState).state.total_execs = 2 ∧
    (handle_request demoConfig demoRequestCrashThenRerun demoState).state.log =
      [.fault_crash, .not_equal_rerun] := by
  obtain ⟨r, s3, h1, -, h3, -, -⟩ :=
    (faults_logged_and_answered demoConfig demoRequestCrashThenRerun demoState
      (request_input (recv_state demoState demoRequestCrashThenRerun.frame).buff) FAULT_CRASH
      (run_target demoConfig (demoRequestCrashThenRerun.exec 0)
        (write_to_testcase
          (request_input (recv_state demoState demoRequestCrashThenRerun.frame).buff)
          (recv_state demoState demoRequestCrashThenRerun.frame))).state
      (by rfl) (by rfl)).1 (Or.inr rfl)
  have e : common_fuzz_stuff demoConfig (demoRequestCrashThenRerun.exec 0)
      (request_input (recv_state demoState demoRequestCrashThenRerun.frame).buff)
      (recv_state demoState demoRequestCrashThenRerun.frame) =
      .ok 0 (common_fuzz_stuff demoConfig (demoRequestCrashThenRerun.exec 0)
        (request_input (recv_state demoState demoRequestCrashThenRerun.frame).buff)
        (recv_state demoState demoRequestCrashThenRerun.frame)).state := by rfl
  rw [e] at h1
  injection h1 with hr hs
  subst hr hs
  have h := h3 (validate_cost demoConfig demoRequestCrashThenRerun.exec
    (common_fuzz_stuff demoConfig (demoRequestCrashThenRerun.exec 0)
      (request_input (recv_state demoState demoRequestCrashThenRerun.frame).buff)
      (recv_state demoState demoRequestCrashThenRerun.frame)).state).state (by rfl) rfl
  rw [h]
  exact ⟨by rfl, by rfl, by rfl, by rfl⟩

/-- C19: applied twice in a row to the same telemetry, the feedback step of an actual run
reports the second time `has_new_bits == 0` and `has_new_max == 0`, the same hotspot and
the same cost as the first time, and leaves the virgin map and the max counters as the
first application left them. -/
theorem feedback_twice (cfg : Config) (s : State)
    (hact : run_type_not_wup s.buff = true)
    (hC : IsBytes s.trace_bits) (hV : IsBytes s.virgin_bits)
    (hK : cfg.PERF_SIZE ≤ s.max_counts.length) :
    (collect_feedback cfg (collect_feedback cfg s).2).1.hnb = 0 ∧
    (collect_feedback cfg (collect_feedback cfg s).2).1.hnm = 0 ∧
    (collect_feedback cfg (collect_feedback cfg s).2).1.hs = (collect_feedback cfg s).1.hs ∧
    toS32 ((collect_feedback cfg s).2.perf_bits.getD 0 0) = toS32 (s.perf_bits.getD 0 0) ∧
    (collect_feedback cfg (collect_feedback cfg s).2).2.virgin_bits =
      (collect_feedback cfg s).2.virgin_bits ∧
    (collect_feedback cfg (collect_feedback cfg s).2).2.max_counts =
      (collect_feedback cfg s).2.max_counts := by
  obtain ⟨f1, f2, f3⟩ := collect_feedback_actual cfg s hact
  obtain ⟨p1, p2, p3, -, -⟩ := collect_feedback_fields cfg s
  have hact1 : run_type_not_wup (collect_feedback cfg s).2.buff = true := by
    rw [p3]
    exact hact
  obtain ⟨g1, g2, g3⟩ := collect_feedback_actual cfg (collect_feedback cfg s).2 hact1
  obtain ⟨b1, b2⟩ := has_new_bits_again cfg.MAP_SIZE s.trace_bits s.virgin_bits hC hV
  obtain ⟨m1, m2⟩ := has_new_max_again cfg.PERF_SIZE s.perf_bits s.max_counts hK
  rw [g1, g2, g3, f1, p1, p2, f2, f3]
  exact ⟨b1, m1, rfl, rfl, b2, m2⟩

/-- Witness for C19: one edge and two counters reported, then the step is applied again. -/
theorem feedback_twice_witness :
    run_type_not_wup demoStateAfterRun.buff = true ∧
    (collect_feedback demoConfig (collect_feedback demoConfig demoStateAfterRun).2).1.hnb = 0 :=
  ⟨by decide,
    (feedback_twice demoConfig demoStateAfterRun (by decide)
      (by show IsBytes [1, 0, 0, 0, 0, 2, 0, 0]; simp [IsBytes])
      (by show IsBytes [254, 255, 255, 255, 255, 255, 255, 255]; simp [IsBytes])
      (by decide)).1⟩

/-- C20: on the virgin map of a freshly accepted connection, whatever the globals held
before, `has_new_bits` returns 2 when the classified trace has a non-zero byte and 0 when it
has none; it never returns 1. -/
theorem fresh_connection_new_bits (cfg : Config) (s : State) (C : List Nat)
    (hM : 8 ∣ cfg.MAP_SIZE) (hC : IsBytes C) :
    ((∃ i, i < cfg.MAP_SIZE ∧ C.getD i 0 ≠ 0) →
      (has_new_bits cfg.MAP_SIZE C (accept_connection cfg s).virgin_bits).1 = 2) ∧
    ((∀ i, i < cfg.MAP_SIZE → C.getD i 0 = 0) →
      (has_new_bits cfg.MAP_SIZE C (accept_connection cfg s).virgin_bits).1 = 0) ∧
    (has_new_bits cfg.MAP_SIZE C (accept_connection cfg s).virgin_bits).1 ≠ 1 := by
  obtain ⟨k, hk⟩ := hM
  have hsh : cfg.MAP_SIZE >>> 3 = k := by
    rw [hk, Nat.shiftRight_eq_div_pow]
    omega
  have hV : IsBytes (List.replicate cfg.MAP_SIZE 255) := by
    intro b hb
    rw [List.eq_of_mem_replicate hb]
    decide
  obtain ⟨-, a2, -, a4⟩ := has_new_bits_loop_ret hC k 0 (List.replicate cfg.MAP_SIZE 255) 0 hV
  have e : (has_new_bits cfg.MAP_SIZE C (accept_connection cfg s).virgin_bits).1 =
      (has_new_bits_loop C k 0 (List.replicate cfg.MAP_SIZE 255) 0).1 := by
    rw [has_new_bits, hsh]
    rfl
  rw [e]
  have hpos : (∃ i, i < cfg.MAP_SIZE ∧ C.getD i 0 ≠ 0) →
      (has_new_bits_loop C k 0 (List.replicate cfg.MAP_SIZE 255) 0).1 = 2 := by
    rintro ⟨i, hi, hne⟩
    exact a2 (by omega) ⟨i, by omega, by omega, hne, getD_replicate_nat _ _ _ hi⟩
  have hzero : (∀ i, i < cfg.MAP_SIZE → C.getD i 0 = 0) →
      (has_new_bits_loop C k 0 (List.replicate cfg.MAP_SIZE 255) 0).1 = 0 := by
    intro hz
    apply a4 rfl
    rintro ⟨p, -, h2, h3, -⟩
    exact h3 (hz p (by omega))
  refine ⟨hpos, hzero, ?_⟩
  by_cases hex : ∃ i, i < cfg.MAP_SIZE ∧ C.getD i 0 ≠ 0
  · rw [hpos hex]
    decide
  · rw [hzero (fun i hi => by
      by_contra hne
      exact hex ⟨i, hi, hne⟩)]
    decide

/-- Witness for C20: a trace with one hit edge on a fresh connection. -/
theorem fresh_connection_new_bits_witness :
    (8 ∣ demoConfig.MAP_SIZE ∧ ∃ i, i < demoConfig.MAP_SIZE ∧
      ([0, 0, 0, 4, 0, 0, 0, 0] : List Nat).getD i 0 ≠ 0) ∧
    (has_new_bits demoConfig.MAP_SIZE [0, 0, 0, 4, 0, 0, 0, 0]
      (accept_connection demoConfig demoState).virgin_bits).1 = 2 :=
  ⟨⟨by decide, ⟨3, by decide, by decide⟩⟩,
    (fresh_connection_new_bits demoConfig demoState [0, 0, 0, 4, 0, 0, 0, 0] (by decide)
      (by simp [IsBytes])).1 ⟨3, by decide, by decide⟩⟩

/-- C21: on a connection just accepted, after any number of answered warmup requests, an
answered actual request whose reply carries a non-zero `exec_cost` carries `has_new_max = 1`:
the max counters are still all zero and the validated cost is the sum of the counters
`perf_bits[1..PERF_SIZE)`, one of which is therefore non-zero. -/
theorem first_actual_request_new_max (cfg : Config) (s0 : State) (warmups : List Request)
    (req : Request) (replies : List (List Nat)) (sw : State) (reply : List Nat) (s1 : State)
    (hw : ∀ r ∈ warmups, IsWarmupFrame r.frame ∧ 20 ≤ r.frame.length ∧
      r.frame.length ≤ BUFFSIZE)
    (hloop : request_loop cfg warmups (accept_connection cfg s0) = .ok replies sw)
    (hact : IsActualFrame req.frame) (h20 : 20 ≤ req.frame.length)
    (hb : req.frame.length ≤ BUFFSIZE)
    (h : handle_request cfg req sw = .ok reply s1) (hcost : le32 reply 0 ≠ 0) :
    reply.getD 4 0 = 1 := by
  have hlen : (accept_connection cfg s0).buff.length = BUFFSIZE := List.length_replicate _ _
  obtain ⟨a1, -, a3⟩ := request_loop_warmups_keep cfg warmups (accept_connection cfg s0)
    replies sw (fun r hr => by rw [hlen]; exact hw r hr) hloop
  refine handle_request_first_actual cfg req sw reply s1 h hact h20 (by rw [a3, hlen]; exact hb)
    (fun p => ?_) hcost
  rw [a1]
  show (List.replicate cfg.PERF_SIZE 0).getD p 0 = 0
  by_cases hp : p < cfg.PERF_SIZE
  · exact getD_replicate_nat _ _ _ hp
  · exact getD_zero_of_le _ _ (by rw [List.length_replicate]; omega)

/-- Witness for C21: a connection that starts with one warmup request; the actual request
that follows costs 5 and reports a new maximum. -/
theorem first_actual_request_new_max_witness :
    (IsWarmupFrame (demoRequest [119, 117, 112, 0]).frame ∧
      IsActualFrame (demoRequest [110, 109, 108, 0]).frame ∧
      le32 [5, 0, 0, 0, 1, 9, 9, 9, 3, 0, 0, 0, 0, 0, 0, 0, 110, 109, 108, 0, 65] 0 ≠ 0) ∧
    ([5, 0, 0, 0, 1, 9, 9, 9, 3, 0, 0, 0, 0, 0, 0, 0, 110, 109, 108, 0, 65] : List Nat).getD
      4 0 = 1 :=
  ⟨⟨by decide, by decide, by decide⟩,
    first_actual_request_new_max demoConfig demoState [demoRequest [119, 117, 112, 0]]
      (demoRequest [110, 109, 108, 0])
      [[5, 0, 0, 0, 0, 9, 9, 9, 0, 0, 0, 0, 0, 0, 0, 0, 119, 117, 112, 0, 65]]
      (request_loop demoConfig [demoRequest [119, 117, 112, 0]]
        (accept_connection demoConfig demoState)).state
      [5, 0, 0, 0, 1, 9, 9, 9, 3, 0, 0, 0, 0, 0, 0, 0, 110, 109, 108, 0, 65]
      (handle_request demoConfig (demoRequest [110, 109, 108, 0])
        (request_loop demoConfig [demoRequest [119, 117, 112, 0]]
          (accept_connection demoConfig demoState)).state).state
      (by
        intro r hr
        rw [List.mem_singleton] at hr
        subst hr
        exact ⟨by decide, by decide, by decide⟩)
      (by rfl) (by decide) (by decide) (by decide) (by rfl) (by decide)⟩

/-- C22 (counterexample): bit 0 of `virgin_bits[0]` is cleared in the middle of a connection
and set again once the next connection is accepted. -/
theorem accept_connection_sets_virgin_bits :
    (demoState.virgin_bits.getD 0 0).testBit 0 = false ∧
    ((accept_connection demoConfig demoState).virgin_bits.getD 0 0).testBit 0 = true :=
  ⟨by rfl, by rfl⟩

/-- C22 (amended): while a connection is served the virgin map only loses bits: over one
request, actual or warmup and whatever its outcome, every bit of `virgin_bits` that is 0
before is 0 after, and the maps stay well formed for the next request. Accepting a
connection sets every byte of the map to `0xFF` again. -/
theorem virgin_bits_monotone_in_connection (cfg : Config) (req : Request) (s : State)
    (hs : MapsWellFormed s) (hc : ChildWritesBytes req) :
    (∀ p k, (s.virgin_bits.getD p 0).testBit k = false →
      ((handle_request cfg req s).state.virgin_bits.getD p 0).testBit k = false) ∧
    MapsWellFormed (handle_request cfg req s).state ∧
    (accept_connection cfg s).virgin_bits = List.replicate cfg.MAP_SIZE 255 := by
  obtain ⟨h1, h2⟩ := handle_request_virgin cfg req s hs hc
  refine ⟨fun p k h => ?_, h1, rfl⟩
  by_contra hne
  rw [Bool.not_eq_false] at hne
  rw [h2 p k hne] at h
  exact Bool.noConfusion h

/-- Witness for C22: an actual request in the middle of a connection leaves bit 0 of
`virgin_bits[0]` cleared. -/
theorem virgin_bits_monotone_in_connection_witness :
    (demoState.virgin_bits.getD 0 0).testBit 0 = false ∧
    ((handle_request demoConfig (demoRequest [110, 109, 108, 0])
      demoState).state.virgin_bits.getD 0 0).testBit 0 = false :=
  ⟨by rfl,
    (virgin_bits_monotone_in_connection demoConfig (demoRequest [110, 109, 108, 0]) demoState
      demoState_wellFormed (demoRequest_childWritesBytes _)).1 0 0 (by rfl)⟩

/-- C23: the max counters never decrease while a connection is served: over one request,
whatever its run type, telemetry and outcome, and so over any sequence of requests handled
between `accept()` and the end of the connection, every counter of `max_counts` is at least
what it was. -/
theorem max_counts_monotone (cfg : Config) :
    (∀ (req : Request) (s : State) (i : Nat),
      s.max_counts.getD i 0 ≤ (handle_request cfg req s).state.max_counts.getD i 0) ∧
    (∀ (reqs : List Request) (s : State) (i : Nat),
      s.max_counts.getD i 0 ≤ (request_loop cfg reqs s).state.max_counts.getD i 0) :=
  ⟨handle_request_max_ge cfg, request_loop_max_ge cfg⟩

/-- C24: Ctrl-C arrives during the run of a first request and the fork server is gone when a
second request arrives. The loop does not stop: both requests are answered, the first with
the feedback of its run, the second with zero feedback, and the loop is left only by the
end of the frames, with `stop_soon` set and the return value 1 of `common_fuzz_stuff`
logged twice as too many timeouts or a skipped input. -/
theorem stop_signal_does_not_end_the_loop :
    (request_loop demoConfig
      [demoRequestWith (demoFrame [65]) demoExecStopSignal,
        demoRequestWith (demoFrame [65]) demoExecForkserverGone] demoState).value =
      some [[5, 0, 0, 0, 1, 9, 9, 9, 3, 0, 0, 0, 0, 0, 0, 0, 110, 109, 108, 0, 65],
        [0, 0, 0, 0, 0, 9, 9, 9, 0, 0, 0, 0, 0, 0, 0, 0, 110, 109, 108, 0, 65]] ∧
    (request_loop demoConfig
      [demoRequestWith (demoFrame [65]) demoExecStopSignal,
        demoRequestWith (demoFrame [65]) demoExecForkserverGone] demoState).state.stop_soon = 1 ∧
    (request_loop demoConfig
      [demoRequestWith (demoFrame [65]) demoExecStopSignal,
        demoRequestWith (demoFrame [65]) demoExecForkserverGone] demoState).state.log =
      [.too_many_timeouts_or_skipped, .too_many_timeouts_or_skipped] :=
  ⟨by rfl, by rfl, by rfl⟩

/-- C25: with `TMOUT_LIMIT = 250`, a timed-out run that follows 250 timeouts in a row (the
251st in a row) is not bailed out: `common_fuzz_stuff` returns 0 and the count becomes 251.
The bail-out code 1 is returned only for the next timed-out run, the 252nd in a row:
the test `subseq_tmouts++ > TMOUT_LIMIT` compares the count from before the current run. -/
theorem bail_out_one_timeout_late :
    demoConfig.TMOUT_LIMIT = 250 ∧
    (run_target demoConfig demoExecTimeout
      (write_to_testcase [65] (demoStateTimeouts 250))).value = some FAULT_TMOUT ∧
    (common_fuzz_stuff demoConfig demoExecTimeout [65] (demoStateTimeouts 250)).value =
      some 0 ∧
    (common_fuzz_stuff demoConfig demoExecTimeout [65]
      (demoStateTimeouts 250)).state.subseq_tmouts = 251 ∧
    (common_fuzz_stuff demoConfig demoExecTimeout [65] (demoStateTimeouts 251)).value =
      some 1 :=
  ⟨rfl, by rfl, by rfl, by rfl, by rfl⟩

/-- C26: the test that separates warmup runs from actual runs is
`strcmp(p->run_type, "wup") != 0`, and `strcmp` returns 0 exactly when the run type holds the
four bytes `'w'`, `'u'`, `'p'`, NUL. An answered request with these bytes leaves the max
counters and the virgin map as they were; an answered request with any other run type gets
the results of `has_new_max()` and `has_new_bits(virgin_bits)` and leaves the max counters
and the virgin map these calls produce. -/
theorem warmup_iff_run_type_is_wup (cfg : Config) (req : Request) (s : State)
    (reply : List Nat) (s1 : State) (h : handle_request cfg req s = .ok reply s1)
    (h20 : 20 ≤ req.frame.length) (hb : req.frame.length ≤ s.buff.length) :
    run_type_not_wup (recv_state s req.frame).buff =
      decide (c_strcmp (recv_state s req.frame).buff 16 wup_literal ≠ 0) ∧
    (c_strcmp (recv_state s req.frame).buff 16 wup_literal = 0 ↔
      (req.frame.getD 16 0 = 119 ∧ req.frame.getD 17 0 = 117 ∧ req.frame.getD 18 0 = 112 ∧
        req.frame.getD 19 0 = 0)) ∧
    (c_strcmp (recv_state s req.frame).buff 16 wup_literal = 0 →
      s1.max_counts = s.max_counts ∧ s1.virgin_bits = s.virgin_bits) ∧
    (c_strcmp (recv_state s req.frame).buff 16 wup_literal ≠ 0 →
      reply.getD 4 0 = (has_new_max cfg.PERF_SIZE s1.perf_bits s.max_counts).1 ∧
      s1.max_counts = (has_new_max cfg.PERF_SIZE s1.perf_bits s.max_counts).2 ∧
      le32 reply 12 = (has_new_bits cfg.MAP_SIZE s1.trace_bits s.virgin_bits).1 ∧
      s1.virgin_bits = (has_new_bits cfg.MAP_SIZE s1.trace_bits s.virgin_bits).2) := by
  have hiff := isWarmupFrame_recv s.buff req.frame h20 hb
  refine ⟨run_type_not_wup_eq_strcmp _, hiff, fun hw => ?_, fun hact => ?_⟩
  · exact handle_request_warmup_keeps cfg req s reply s1 h (hiff.1 hw) h20 hb
  · have hact1 : IsActualFrame req.frame := fun hw => hact (hiff.2 hw)
    obtain ⟨s4, hbuf, hv, hm, hs1, hr⟩ := handle_request_reply cfg req s reply s1 h
    have hl : 16 ≤ s4.buff.length := by
      rw [hbuf, length_storeBytes]
      omega
    have hnw : run_type_not_wup s4.buff = true := by
      rw [hbuf]
      exact run_type_not_wup_of_frame _ _ h20 hb hact1
    obtain ⟨f1, f2, f3⟩ := collect_feedback_actual cfg s4 hnw
    obtain ⟨p1, p2, -, p4, p5, -⟩ := reply_state_fields cfg s4
    rw [← hs1] at p1 p2 p4 p5
    rw [p1, p2, p4, p5, f2, f3, hv, hm]
    rw [f1, hv, hm] at hr
    refine ⟨?_, rfl, ?_, rfl⟩
    · rw [hr, getD_take_nat _ _ _ (by omega), reply_field_hnm _ _ _ hl]
      show (has_new_max cfg.PERF_SIZE s4.perf_bits s.max_counts).1 % 256 = _
      rw [has_new_max]
      exact Nat.mod_mod _ _
    · rw [hr, le32_take _ _ _ (by omega), reply_field_hnb _ _ _ hl]
      have := has_new_bits_le cfg.MAP_SIZE s4.trace_bits s.virgin_bits
      exact Nat.mod_eq_of_lt (Nat.lt_of_le_of_lt this (by norm_num))

/-- Witness for C26: a request whose run type is the four bytes `'w'`, `'u'`, `'p'`, `'X'` is
an actual run: it raises the max counters from `[0, 1, 0]` to `[0, 2, 3]`. -/
theorem warmup_iff_run_type_is_wup_witness :
    c_strcmp (recv_state demoState (demoRequest [119, 117, 112, 88]).frame).buff 16
      wup_literal ≠ 0 ∧
    (handle_request demoConfig (demoRequest [119, 117, 112, 88]) demoState).state.max_counts =
      (has_new_max demoConfig.PERF_SIZE
        (handle_request demoConfig (demoRequest [119, 117, 112, 88])
          demoState).state.perf_bits demoState.max_counts).2 ∧
    (has_new_max demoConfig.PERF_SIZE
        (handle_request demoConfig (demoRequest [119, 117, 112, 88])
          demoState).state.perf_bits demoState.max_counts).2 = [0, 2, 3] :=
  ⟨by decide,
    ((warmup_iff_run_type_is_wup demoConfig (demoRequest [119, 117, 112, 88]) demoState
      [5, 0, 0, 0, 1, 9, 9, 9, 3, 0, 0, 0, 0, 0, 0, 0, 119, 117, 112, 88, 65]
      (handle_request demoConfig (demoRequest [119, 117, 112, 88]) demoState).state
      (by rfl) (by decide) (by rw [demoState_buff_length]; decide)).2.2.2 (by decide)).2.1,
    by rfl⟩

/-- C27: in performance mode the outcome of `run_target` does not depend on what the trace
map and the counters held before the call: started from two states that differ only there,
the two calls end in the same state with the same fault code. The child is only ever run
on regions that `run_target` has filled with zeros: replacing the child by one that behaves,
whatever it finds, as the given child behaves on zeroed regions changes nothing. -/
theorem run_target_reset_deterministic (cfg : Config) (ev : Exec) (s : State)
    (C P : List Nat) (hperf : cfg.max_ct_fuzzing = true) :
    run_target cfg ev { s with trace_bits := C, perf_bits := P } = run_target cfg ev s ∧
    run_target cfg
      { ev with child := fun _ _ =>
          ev.child (List.replicate cfg.MAP_SIZE 0) (List.replicate cfg.PERF_SIZE 0) } s =
      run_target cfg ev s := by
  constructor
  · unfold run_target
    simp only [hperf, if_true]
  · unfold run_target child_runs run_target_report
    simp only [hperf, if_true]

/-- Witness for C27: two calls that start from different contents of the two regions. -/
theorem run_target_reset_deterministic_witness :
    demoConfig.max_ct_fuzzing = true ∧
    run_target demoConfig demoExec
        { demoState with trace_bits := [1, 2, 3, 4, 5, 6, 7, 8], perf_bits := [9, 9, 9] } =
      run_target demoConfig demoExec demoState :=
  ⟨rfl, (run_target_reset_deterministic demoConfig demoExec demoState [1, 2, 3, 4, 5, 6, 7, 8]
    [9, 9, 9] rfl).1⟩

/-- C28: on byte maps, `has_new_bits` returns a non-zero value exactly when it changes the
virgin map, and it changes the map exactly by clearing at least one bit of it. The trace
map is only read, and the call on `virgin_bits` made for an actual request sets
`bitmap_changed` to 1 when the result is non-zero and leaves it alone otherwise. -/
theorem has_new_bits_nonzero_iff_virgin_changes (cfg : Config) (s : State)
    (hC : IsBytes s.trace_bits) (hV : IsBytes s.virgin_bits) :
    ((has_new_bits cfg.MAP_SIZE s.trace_bits s.virgin_bits).1 ≠ 0 ↔
      (has_new_bits cfg.MAP_SIZE s.trace_bits s.virgin_bits).2 ≠ s.virgin_bits) ∧
    ((has_new_bits cfg.MAP_SIZE s.trace_bits s.virgin_bits).2 ≠ s.virgin_bits ↔
      ∃ p k, (s.virgin_bits.getD p 0).testBit k = true ∧
        ((has_new_bits cfg.MAP_SIZE s.trace_bits s.virgin_bits).2.getD p 0).testBit k =
          false) ∧
    (collect_feedback cfg s).2.trace_bits = s.trace_bits ∧
    (run_type_not_wup s.buff = true →
      (collect_feedback cfg s).2.virgin_bits =
        (has_new_bits cfg.MAP_SIZE s.trace_bits s.virgin_bits).2 ∧
      (collect_feedback cfg s).2.bitmap_changed =
        if (has_new_bits cfg.MAP_SIZE s.trace_bits s.virgin_bits).1 ≠ 0 then 1
        else s.bitmap_changed) := by
  have hret := has_new_bits_ne_zero_iff cfg.MAP_SIZE s.trace_bits s.virgin_bits hC hV
  obtain ⟨c1, c2⟩ := has_new_bits_changed_iff cfg.MAP_SIZE s.trace_bits s.virgin_bits hC hV
  have hbit : (∃ p k, (s.virgin_bits.getD p 0).testBit k = true ∧
      ((has_new_bits cfg.MAP_SIZE s.trace_bits s.virgin_bits).2.getD p 0).testBit k = false) →
      (has_new_bits cfg.MAP_SIZE s.trace_bits s.virgin_bits).2 ≠ s.virgin_bits := by
    rintro ⟨p, k, h1, h2⟩ heq
    rw [heq, h1] at h2
    exact Bool.noConfusion h2
  refine ⟨⟨fun h => hbit (c1 (hret.1 h)), fun h => hret.2 (c2 h)⟩,
    ⟨fun h => c1 (c2 h), hbit⟩, (collect_feedback_fields cfg s).2.1, fun hact => ?_⟩
  unfold collect_feedback
  rw [if_pos hact]
  refine ⟨rfl, ?_⟩
  show (if ((has_new_bits cfg.MAP_SIZE s.trace_bits s.virgin_bits).1 != 0) = true then 1
    else s.bitmap_changed) = _
  by_cases hz : (has_new_bits cfg.MAP_SIZE s.trace_bits s.virgin_bits).1 = 0
  · rw [hz]
    rfl
  · rw [if_pos hz, if_pos (by simpa using hz)]

/-- Witness for C28: the call on a trace that hits two edges, one of them new, returns a
non-zero value and changes the virgin map. -/
theorem has_new_bits_nonzero_iff_virgin_changes_witness :
    (IsBytes demoStateAfterRun.trace_bits ∧ IsBytes demoStateAfterRun.virgin_bits) ∧
    ((has_new_bits demoConfig.MAP_SIZE demoStateAfterRun.trace_bits
        demoStateAfterRun.virgin_bits).1 ≠ 0 ↔
      (has_new_bits demoConfig.MAP_SIZE demoStateAfterRun.trace_bits
        demoStateAfterRun.virgin_bits).2 ≠ demoStateAfterRun.virgin_bits) :=
  ⟨⟨by show IsBytes [1, 0, 0, 0, 0, 2, 0, 0]; simp [IsBytes],
      by show IsBytes [254, 255, 255, 255, 255, 255, 255, 255]; simp [IsBytes]⟩,
    (has_new_bits_nonzero_iff_virgin_changes demoConfig demoStateAfterRun
      (by show IsBytes [1, 0, 0, 0, 0, 2, 0, 0]; simp [IsBytes])
      (by show IsBytes [254, 255, 255, 255, 255, 255, 255, 255]; simp [IsBytes])).1⟩

/-- C29 (counterexample): with a post-processing library that appends `'!'`, the request
whose buffer holds the string `"A"` at offset 20 is executed with the test case `"A!"`. -/
theorem post_library_changes_executed_input :
    ((recv_state demoState (demoFrame [65, 0])).buff.drop 20).takeWhile (fun b => b != 0) =
      [65] ∧
    (handle_request demoConfigPostLibrary (demoRequestWith (demoFrame [65, 0]) demoExec)
      demoState).state.testcase = [65, 33] := by
  constructor
  · rw [← request_input_eq, request_input_recv _ _ (by decide)
      (by rw [demoState_buff_length]; decide)]
    rfl
  · rw [handle_request_testcase_eq, request_input_recv _ _ (by decide)
      (by rw [demoState_buff_length]; decide)]
    rfl

/-- C29 (amended): the input copied out of the receive buffer for a request is the C string
at offset 20 of the buffer, which holds the new frame followed by what the buffer held
beyond the frame's `nread` bytes: the bytes from offset 20 up to the first zero byte. It is
written to the test case and executed as it is when no post-processing library is loaded,
and after the transformation by `afl_postprocess` when one is. From offset 16 on a request
leaves the buffer as received, and only `accept()` zeroes it, so a frame that is not longer
than its predecessor and carries no zero byte in its input gets as its input its own input
bytes with the predecessor's bytes beyond `nread` appended, up to the zero byte that
follows the predecessor. -/
theorem executed_input_is_buffer_string (cfg : Config) (req : Request) (s : State)
    (hb : req.frame.length ≤ s.buff.length) :
    (0 ∈ (req.frame ++ s.buff.drop req.frame.length).drop 20 →
      request_input (recv_state s req.frame).buff =
        ((req.frame ++ s.buff.drop req.frame.length).drop 20).takeWhile
          (fun b => b != 0) ∧
      (handle_request cfg req s).state.testcase =
        (post_processed cfg
          (((req.frame ++ s.buff.drop req.frame.length).drop 20).takeWhile
            (fun b => b != 0))).getD s.testcase ∧
      (cfg.post_handler = none →
        (handle_request cfg req s).state.testcase =
          ((req.frame ++ s.buff.drop req.frame.length).drop 20).takeWhile
            (fun b => b != 0))) ∧
    (handle_request cfg req s).state.buff.drop 16 =
      (req.frame ++ s.buff.drop req.frame.length).drop 16 ∧
    (accept_connection cfg s).buff = List.replicate BUFFSIZE 0 ∧
    (∀ (next : Request), 20 ≤ next.frame.length → next.frame.length ≤ req.frame.length →
      0 ∉ next.frame.drop 20 → 0 ∉ req.frame.drop next.frame.length →
      req.frame.length < s.buff.length → s.buff.getD req.frame.length 0 = 0 →
      request_input (recv_state (handle_request cfg req s).state next.frame).buff =
        next.frame.drop 20 ++ req.frame.drop next.frame.length ∧
      (handle_request cfg next (handle_request cfg req s).state).state.testcase =
        (post_processed cfg (next.frame.drop 20 ++ req.frame.drop next.frame.length)).getD
          (handle_request cfg req s).state.testcase ∧
      (cfg.post_handler = none →
        (handle_request cfg next (handle_request cfg req s).state).state.testcase =
          next.frame.drop 20 ++ req.frame.drop next.frame.length)) := by
  have hdrop := handle_request_buff_drop cfg req s hb
  refine ⟨fun _ => ?_, hdrop, rfl, fun next h20 hle hz1 hz2 hlt hz3 => ?_⟩
  · have e : request_input (recv_state s req.frame).buff =
        ((req.frame ++ s.buff.drop req.frame.length).drop 20).takeWhile
          (fun b => b != 0) := by
      rw [request_input_eq]
      show List.takeWhile _ (List.drop 20 (storeBytes s.buff 0 req.frame)) = _
      rw [storeBytes_zero_eq _ _ hb]
    exact ⟨e, handle_request_testcase_of_input cfg req s _ e⟩
  · have hlen := handle_request_buff_length cfg req s
    have e : request_input (recv_state (handle_request cfg req s).state next.frame).buff =
        next.frame.drop 20 ++ req.frame.drop next.frame.length := by
      rw [request_input_recv _ _ h20 (by rw [hlen]; omega),
        drop_drop_nat _ 16 next.frame.length (by omega), hdrop,
        ← drop_drop_nat _ 16 next.frame.length (by omega),
        List.drop_append_of_le_length hle, ← List.append_assoc,
        takeWhile_append_of_not_mem _ _ (by
          intro hmem
          rcases List.mem_append.1 hmem with h | h
          · exact hz1 h
          · exact hz2 h),
        takeWhile_nil_of_head_zero _ ((getD_drop_zero _ _).trans hz3), List.append_nil]
    exact ⟨e, handle_request_testcase_of_input cfg next _ _ e⟩

/-- Witness for C29: on a fresh connection, without a post-processing library, the input
`"ABC"` is followed by the input `"D"`, neither with a terminating zero byte; the second
request runs `"DBC"`. -/
theorem executed_input_is_buffer_string_witness :
    (handle_request demoConfig (demoRequestWith (demoFrame [68]) demoExec)
      (handle_request demoConfig (demoRequestWith (demoFrame [65, 66, 67]) demoExec)
        (accept_connection demoConfig demoState)).state).state.testcase = [68, 66, 67] :=
  ((executed_input_is_buffer_string demoConfig
    (demoRequestWith (demoFrame [65, 66, 67]) demoExec)
    (accept_connection demoConfig demoState)
    (by
      show (demoFrame [65, 66, 67]).length ≤ (List.replicate BUFFSIZE 0).length
      rw [List.length_replicate]
      decide)).2.2.2
    (demoRequestWith (demoFrame [68]) demoExec) (by decide) (by decide) (by decide)
    (by decide)
    (by
      show (demoFrame [65, 66, 67]).length < (List.replicate BUFFSIZE 0).length
      rw [List.length_replicate]
      decide)
    (getD_replicate_nat _ _ _ (by decide))).2.2 rfl

/-- C30: in the reply to an answered actual request whose counters are 32-bit values with
an exact sum of `perf_bits[1..PERF_SIZE)` below `2^32`, the hotspot field is at most the
cost field, and the hotspot field is 0 exactly when the cost field is 0. -/
theorem hotspot_at_most_exec_cost (cfg : Config) (req : Request) (s : State)
    (reply : List Nat) (s1 : State) (h : handle_request cfg req s = .ok reply s1)
    (h20 : 20 ≤ req.frame.length) (hb : req.frame.length ≤ s.buff.length)
    (hact : IsActualFrame req.frame) (hP : ∀ p, s1.perf_bits.getD p 0 < 2 ^ 32)
    (hsum : counter_sum s1.perf_bits (cfg.PERF_SIZE - 1) 1 < 2 ^ 32) :
    le32 reply 8 ≤ le32 reply 0 ∧ (le32 reply 8 = 0 ↔ le32 reply 0 = 0) := by
  obtain ⟨s4, hbuf, -, -, hs1, hr⟩ := handle_request_reply cfg req s reply s1 h
  obtain ⟨r, s2, s5, -, hval, hrep⟩ := handle_request_ok cfg req s reply s1 h
  have hne := validate_cost_ok cfg req.exec _ s5 () hval
  obtain ⟨-, hs5⟩ := reply_to_request_ok cfg req s5 reply s1 hrep
  have hp5 : s1.perf_bits = s5.perf_bits := by
    rw [hs5]
    exact (reply_state_fields cfg s5).1
  have hp4 : s1.perf_bits = s4.perf_bits := by
    rw [hs1]
    exact (reply_state_fields cfg s4).1
  rw [not_equal_eq_false_iff, ← hp5, Nat.mod_eq_of_lt hsum, Nat.mod_eq_of_lt (hP 0)] at hne
  have hl : 16 ≤ s4.buff.length := by
    rw [hbuf, length_storeBytes]
    omega
  have hnw : run_type_not_wup s4.buff = true := by
    rw [hbuf]
    exact run_type_not_wup_of_frame _ _ h20 hb hact
  obtain ⟨f1, -, -⟩ := collect_feedback_actual cfg s4 hnw
  rw [f1, ← hp4] at hr
  obtain ⟨m, e, b, -, h2, h3⟩ :=
    hotspot_count_loop_spec s1.perf_bits hP (cfg.PERF_SIZE - 1) 1 0 (by decide)
  have e0 : toS32 0 = 0 := by decide
  rw [e0] at e
  have hm : toU32 (hotspot_count cfg.PERF_SIZE s1.perf_bits) = m := by
    rw [hotspot_count, e, toU32_toS32 m b]
  have hcost : le32 reply 0 = s1.perf_bits.getD 0 0 := by
    rw [hr, le32_take _ _ _ (by omega), reply_field_exec_cost _ _ _ hl, toU32_toS32 _ (hP 0),
      Nat.mod_eq_of_lt (hP 0)]
  have hhs : le32 reply 8 = m := by
    rw [hr, le32_take _ _ _ (by omega), reply_field_hs _ _ _ hl]
    show toU32 (hotspot_count cfg.PERF_SIZE s1.perf_bits) % 2 ^ 32 = m
    rw [hm, Nat.mod_eq_of_lt b]
  have hge : ∀ p, 1 ≤ p → p < 1 + (cfg.PERF_SIZE - 1) →
      s1.perf_bits.getD p 0 ≤ counter_sum s1.perf_bits (cfg.PERF_SIZE - 1) 1 :=
    fun p p1 p2 => counter_sum_ge _ _ _ p p1 p2
  rw [hcost, hhs, ← hne]
  constructor
  · rcases h3 with h3 | ⟨p, q1, q2, q3⟩
    · omega
    · rw [← q3]
      exact hge p q1 q2
  · constructor
    · intro hm0
      by_contra hs0
      obtain ⟨p, p1, p2, p3⟩ := counter_sum_pos _ _ _ hs0
      have := h2 p p1 p2
      omega
    · intro hs0
      rcases h3 with h3 | ⟨p, q1, q2, q3⟩
      · exact h3
      · have := hge p q1 q2
        omega

/-- Witness for C30: an actual request whose run costs 5 with hotspot 3. -/
theorem hotspot_at_most_exec_cost_witness :
    IsActualFrame (demoRequest [110, 109, 108, 0]).frame ∧
    le32 [5, 0, 0, 0, 1, 9, 9, 9, 3, 0, 0, 0, 0, 0, 0, 0, 110, 109, 108, 0, 65] 8 ≤
      le32 [5, 0, 0, 0, 1, 9, 9, 9, 3, 0, 0, 0, 0, 0, 0, 0, 110, 109, 108, 0, 65] 0 :=
  ⟨by decide,
    (hotspot_at_most_exec_cost demoConfig (demoRequest [110, 109, 108, 0]) demoState
      [5, 0, 0, 0, 1, 9, 9, 9, 3, 0, 0, 0, 0, 0, 0, 0, 110, 109, 108, 0, 65]
      (handle_request demoConfig (demoRequest [110, 109, 108, 0]) demoState).state
      (by rfl) (by decide) (by rw [demoState_buff_length]; decide) (by decide)
      (by
        intro p
        show ([5, 2, 3] : List Nat).getD p 0 < 2 ^ 32
        rcases p with _ | _ | _ | p <;> simp)
      (by decide)).1⟩

end Treeline
